import Mathlib

/-!
# My-CoroutineLib: timer manager and scheduler

A shallow embedding of `4timer/timer.cpp`, `6hook/timer.h`, `4timer/scheduler.h` and
`3scheduler/scheduler.cpp`.

Conventions of the embedding.

* A `std::shared_ptr<Timer>` is a handle (a natural number) into a heap of `Timer`
  objects; the heap is a total function and `nextHandle` is the allocation counter.
* `std::set<std::shared_ptr<Timer>, Timer::Comparator>` is the list of its elements in
  iteration order.  Insertion, lookup and removal are the operations of an ordered
  container with unique keys, driven only by the comparator.
* A `std::function<void()>` is `Option Cb`: `none` is the empty function (`nullptr`),
  `some c` the callback with identity `c`.
* A time point is the tick count of `std::chrono::system_clock` (nanoseconds since the
  epoch, a signed 64 bit count), held in an `Int`; every read of the clock is an explicit
  argument.  The count of a `std::chrono::milliseconds` is a signed 64 bit integer too: a
  `uint64_t` of 2^63 or more is converted to a negative count.  Arithmetic on these counts
  that leaves the 64 bit range is undefined in the source; the embedding gives it the
  two's complement result of the target (`wrapInt64`).
* The mutexes are not modelled: every operation is one atomic step.
-/

namespace john

/-- Identity of a callback object. -/
abbrev Cb := Nat

/-- Ticks of `system_clock` in one millisecond: converting `std::chrono::milliseconds`
to the clock's nanosecond duration multiplies by this. -/
def ticksPerMs : Int := 1000000

/-- The signed 64 bit integer with the bits of `i`: the result of a conversion to
`int64_t`, and of 64 bit arithmetic whose exact result is `i`.  The numerals are 2^63 and
2^64. -/
def wrapInt64 (i : Int) : Int :=
  (i + 9223372036854775808) % 18446744073709551616 - 9223372036854775808

/-- The duration `std::chrono::milliseconds(ms)` of a `uint64_t` `ms`, in clock ticks: the
value is converted to the signed 64 bit count of milliseconds, and that count is
multiplied by `ticksPerMs` when it is added to a time point. -/
def msTicks (ms : Nat) : Int := wrapInt64 (wrapInt64 ms * ticksPerMs)

/-- The time point `tp + d` for a duration of `d` ticks. -/
def tpAdd (tp d : Int) : Int := wrapInt64 (tp + d)

/-- The time point `tp - d` for a duration of `d` ticks. -/
def tpSub (tp d : Int) : Int := wrapInt64 (tp - d)

/-- The value of `~0ull`. -/
def U64_MAX : Nat := 2 ^ 64 - 1

/-- The data members of `class Timer` (the back pointer `m_manager` is implicit: there is
one manager). -/
structure Timer where
  m_recurring : Bool
  m_ms : Nat
  m_next : Int
  m_cb : Option Cb
  deriving DecidableEq, Repr

instance : Inhabited Timer := ⟨⟨false, 0, 0, none⟩⟩

/-- The constructor `Timer::Timer(ms, cb, recurring, manager)`; `now` is its clock read. -/
def Timer.create (now : Int) (ms : Nat) (cb : Option Cb) (recurring : Bool) : Timer :=
  { m_recurring := recurring, m_ms := ms, m_next := tpAdd now (msTicks ms), m_cb := cb }

/-- The data members of `class TimerManager`, with the heap of timer objects. -/
structure TimerManager where
  heap : Nat → Timer
  nextHandle : Nat
  m_timers : List Nat
  m_tickled : Bool
  m_preTime : Int

/-- The constructor `TimerManager::TimerManager()`; `now` is its clock read. -/
def TimerManager.create (now : Int) : TimerManager :=
  { heap := fun _ => default, nextHandle := 0, m_timers := [], m_tickled := false,
    m_preTime := now }

/-- Source `Timer::Comparator::operator()`: `lhs->m_next < rhs->m_next`. -/
def Comparator (heap : Nat → Timer) (lhs rhs : Nat) : Bool :=
  decide ((heap lhs).m_next < (heap rhs).m_next)

/-- Source `std::set::insert(x)`: the new contents and the position of the returned iterator.
An element equivalent to `x` under the comparator blocks the insertion, and the iterator
then points at that element. -/
def setInsert (heap : Nat → Timer) : List Nat → Nat → List Nat × Nat
  | [], x => ([x], 0)
  | e :: rest, x =>
    if Comparator heap x e then (x :: e :: rest, 0)
    else if Comparator heap e x then
      ((e :: (setInsert heap rest x).1), (setInsert heap rest x).2 + 1)
    else (e :: rest, 0)

/-- Source `std::set::find(x)`: the position of the element equivalent to `x` under the
comparator, `none` for `end()`. -/
def setFind (heap : Nat → Timer) : List Nat → Nat → Option Nat
  | [], _ => none
  | e :: rest, x =>
    if Comparator heap x e then none
    else if Comparator heap e x then (setFind heap rest x).map (· + 1)
    else some 0

/-- Source `TimerManager::addTimer(std::shared_ptr<Timer>)`.  The second component tells whether
`timerInsertedAtFront()` was called. -/
def TimerManager.addTimerPtr (s : TimerManager) (timer : Nat) : TimerManager × Bool :=
  let r := setInsert s.heap s.m_timers timer
  let at_front := (r.2 == 0) && !s.m_tickled
  ({ s with m_timers := r.1, m_tickled := if at_front then true else s.m_tickled },
   at_front)

/-- Source `TimerManager::addTimer(ms, cb, recurring)`: the new state, the returned handle and
whether `timerInsertedAtFront()` was called. -/
def TimerManager.addTimer (s : TimerManager) (now : Int) (ms : Nat) (cb : Option Cb)
    (recurring : Bool) : TimerManager × Nat × Bool :=
  let timer := s.nextHandle
  let s1 : TimerManager :=
    { s with heap := Function.update s.heap timer (Timer.create now ms cb recurring),
             nextHandle := s.nextHandle + 1 }
  let r := s1.addTimerPtr timer
  (r.1, timer, r.2)

/-- Source `Timer::cancel()` on the timer with handle `t`. -/
def TimerManager.cancel (s : TimerManager) (t : Nat) : TimerManager × Bool :=
  if (s.heap t).m_cb = none then (s, false)
  else
    let heap1 := Function.update s.heap t { s.heap t with m_cb := none }
    match setFind heap1 s.m_timers t with
    | some i => ({ s with heap := heap1, m_timers := s.m_timers.eraseIdx i }, true)
    | none => ({ s with heap := heap1 }, true)

/-- Source `Timer::refresh()` on the timer with handle `t`; `now` is its clock read. -/
def TimerManager.refresh (s : TimerManager) (now : Int) (t : Nat) : TimerManager × Bool :=
  if (s.heap t).m_cb = none then (s, false)
  else
    match setFind s.heap s.m_timers t with
    | none => (s, false)
    | some i =>
      let erased := s.m_timers.eraseIdx i
      let heap1 := Function.update s.heap t
        { s.heap t with m_next := tpAdd now (msTicks (s.heap t).m_ms) }
      ({ s with heap := heap1, m_timers := (setInsert heap1 erased t).1 }, true)

/-- Source `Timer::reset(ms, from_now)` on the timer with handle `t`; `now` is its clock read.
The components are the new state, the return value and whether
`timerInsertedAtFront()` was called. -/
def TimerManager.reset (s : TimerManager) (now : Int) (t : Nat) (ms : Nat)
    (from_now : Bool) : TimerManager × Bool × Bool :=
  if ms = (s.heap t).m_ms ∧ from_now = false then (s, true, false)
  else if (s.heap t).m_cb = none then (s, false, false)
  else
    match setFind s.heap s.m_timers t with
    | none => (s, false, false)
    | some i =>
      let erased := s.m_timers.eraseIdx i
      let start :=
        if from_now then now else tpSub (s.heap t).m_next (msTicks (s.heap t).m_ms)
      let heap1 := Function.update s.heap t
        { s.heap t with m_ms := ms, m_next := tpAdd start (msTicks ms) }
      let r := TimerManager.addTimerPtr { s with heap := heap1, m_timers := erased } t
      (r.1, true, r.2)

/-- Source `TimerManager::getNextTimer()`; `now` is its clock read.  The result is the
`uint64_t` return value. -/
def TimerManager.getNextTimer (s : TimerManager) (now : Int) : TimerManager × Nat :=
  let s1 := { s with m_tickled := false }
  match s.m_timers with
  | [] => (s1, U64_MAX)
  | t :: _ =>
    let time := (s.heap t).m_next
    if now ≥ time then (s1, 0)
    else (s1, (((time - now) / ticksPerMs) % (2 ^ 64 : Int)).toNat)

/-- Source `TimerManager::detectClockRollover()`; `now` is its clock read. -/
def TimerManager.detectClockRollover (s : TimerManager) (now : Int) :
    TimerManager × Bool :=
  ({ s with m_preTime := now }, decide (now < tpSub s.m_preTime (msTicks (60 * 60 * 1000))))

/-- The `while` loop of `TimerManager::listExpiredTimerCb`, run for at most `fuel` tests
of its condition; `none` when the loop has not been left by then. -/
def TimerManager.harvestLoop (now : Int) (rollover : Bool) :
    Nat → TimerManager → List (Option Cb) → Option (TimerManager × List (Option Cb))
  | 0, _, _ => none
  | fuel + 1, s, cbs =>
    match s.m_timers with
    | [] => some (s, cbs)
    | t :: rest =>
      if rollover || decide ((s.heap t).m_next ≤ now) then
        let temp := s.heap t
        let cbs1 := cbs ++ [temp.m_cb]
        if temp.m_recurring then
          let heap1 := Function.update s.heap t
            { temp with m_next := tpAdd now (msTicks temp.m_ms) }
          TimerManager.harvestLoop now rollover fuel
            { s with heap := heap1, m_timers := (setInsert heap1 rest t).1 } cbs1
        else
          TimerManager.harvestLoop now rollover fuel
            { s with heap := Function.update s.heap t { temp with m_cb := none },
                     m_timers := rest } cbs1
      else some (s, cbs)

/-- Source `TimerManager::listExpiredTimerCb(cbs)`.  `now` is the clock read at entry,
`nowDetect` the clock read inside `detectClockRollover`. -/
def TimerManager.listExpiredTimerCb (s : TimerManager) (fuel : Nat) (now nowDetect : Int)
    (cbs : List (Option Cb)) : Option (TimerManager × List (Option Cb)) :=
  let d := s.detectClockRollover nowDetect
  TimerManager.harvestLoop now d.2 fuel d.1 cbs

/-- Source `TimerManager::hasTimer()`. -/
def TimerManager.hasTimer (s : TimerManager) : Bool := !s.m_timers.isEmpty

/-! ## The ordered container invariant -/

/-- The invariant of the `std::set`: in iteration order the deadlines strictly ascend
(no two elements are equivalent under the comparator). -/
def SetOrdered (heap : Nat → Timer) (l : List Nat) : Prop :=
  l.Pairwise (fun a b => (heap a).m_next < (heap b).m_next)

instance (heap : Nat → Timer) (l : List Nat) : Decidable (SetOrdered heap l) := by
  unfold SetOrdered; infer_instance

/-- The timer with handle `t` is due at clock value `now`. -/
def isDue (heap : Nat → Timer) (now : Int) (t : Nat) : Bool :=
  decide ((heap t).m_next ≤ now)

/-- The timer with handle `t` is not yet due at clock value `now`. -/
def isLater (heap : Nat → Timer) (now : Int) (t : Nat) : Bool :=
  decide (now < (heap t).m_next)

/-- The manager of `4timer/test.cpp` after three of its `addTimer` calls (1 s, 2 s and 3 s,
callbacks 0, 1 and 2), all made at clock value 0. -/
def sampleOneshots : TimerManager :=
  (((TimerManager.create 0).addTimer 0 1000 (some 0) false).1.addTimer 0 2000 (some 1)
    false).1.addTimer 0 3000 (some 2) false |>.1

/-! ## Sequences of manager operations -/

/-- One call on the manager or on one of its timer handles, with the clock values the
call reads. -/
inductive TimerOp where
  | addTimer (now : Int) (ms : Nat) (cb : Option Cb) (recurring : Bool)
  | cancel (t : Nat)
  | refresh (now : Int) (t : Nat)
  | reset (now : Int) (t : Nat) (ms : Nat) (from_now : Bool)
  | getNextTimer (now : Int)
  | listExpiredTimerCb (fuel : Nat) (now nowDetect : Int)

/-- The callback an operation registers, if it registers one. -/
def TimerOp.registers : TimerOp → Option Cb
  | .addTimer _ _ cb _ => cb
  | _ => none

/-- Run one operation; `cbs` is the vector the harvests append to.  `none` when a harvest
does not return within its fuel. -/
def TimerManager.exec (s : TimerManager) (cbs : List (Option Cb)) :
    TimerOp → Option (TimerManager × List (Option Cb))
  | .addTimer now ms cb recurring => some ((s.addTimer now ms cb recurring).1, cbs)
  | .cancel t => some ((s.cancel t).1, cbs)
  | .refresh now t => some ((s.refresh now t).1, cbs)
  | .reset now t ms from_now => some ((s.reset now t ms from_now).1, cbs)
  | .getNextTimer now => some ((s.getNextTimer now).1, cbs)
  | .listExpiredTimerCb fuel now nowDetect => s.listExpiredTimerCb fuel now nowDetect cbs

/-- Run a sequence of operations from left to right. -/
def TimerManager.execAll (s : TimerManager) (cbs : List (Option Cb)) :
    List TimerOp → Option (TimerManager × List (Option Cb))
  | [] => some (s, cbs)
  | op :: ops =>
    match s.exec cbs op with
    | none => none
    | some r => TimerManager.execAll r.1 r.2 ops

/-- No timer object whose handle satisfies `q` holds the callback `c`. -/
def CbAbsent (c : Cb) (q : Nat → Prop) (heap : Nat → Timer) : Prop :=
  ∀ x, q x → (heap x).m_cb ≠ some c

/-- The operations of the cancel scenario: three one-shot timers of 10 ms, the second and
third created at the same clock value; both even-indexed handles are cancelled; then a
harvest at 50 ms. -/
def cancelRaceOps : List TimerOp :=
  [.addTimer 0 10 (some 0) false, .addTimer 5000000 10 (some 1) false,
   .addTimer 5000000 10 (some 2) false, .cancel 0, .cancel 2,
   .listExpiredTimerCb 10 50000000 50000000]

/-- Two recurring timers of 5 ms, created at clock values 0 and 1 ms. -/
def sampleRecurring : TimerManager :=
  ((TimerManager.create 0).addTimer 0 5 (some 0) true).1.addTimer 1000000 5 (some 1) true
    |>.1

/-- A manager holding two one-shot timers, 10 ms with callback 7 and 20 ms with callback 8,
both created at clock value 0. -/
def cancelSampleMid : TimerManager :=
  (((TimerManager.create 0).addTimer 0 10 (some 7) false).1.addTimer 0 20 (some 8) false).1

/-- The manager `cancelSampleMid` after cancelling timer 0 and harvesting at 30 ms. -/
def cancelSampleEnd : TimerManager :=
  (((cancelSampleMid.cancel 0).1.listExpiredTimerCb 5 30000000 30000000 []).getD
    (cancelSampleMid, [])).1

/-- Two `addTimer` calls of 1 s at the same clock value 0, callbacks 0 and 1. -/
def sampleEqualDeadlines : TimerManager × Nat × Bool :=
  ((TimerManager.create 0).addTimer 0 1000 (some 0) false).1.addTimer 0 1000 (some 1) false

/-- A manager created at clock value 2 h that holds one recurring timer of 1 s. -/
def sampleRollback : TimerManager :=
  ((TimerManager.create 7200000000000).addTimer 7200000000000 1000 (some 0) true).1

/-! ## Scheduler (`4timer/scheduler.h`, `3scheduler/scheduler.cpp`)

A `std::shared_ptr<Fiber>` is `Option Nat` (`none` is the null pointer), a `Thread`
object is represented by the id of its OS thread, and `tickle()` is the virtual hook whose
calls are reported next to the new state. -/

/-- The struct `Scheduler::ScheduleTask`. -/
structure ScheduleTask where
  fiber : Option Nat
  cb : Option Cb
  thread : Int
  deriving DecidableEq, Repr

/-- The template argument `FiberOrCb` of `schedulerLock`: a fiber pointer or a callback,
either of which may be null. -/
inductive FiberOrCb where
  | fiber (f : Option Nat)
  | cb (c : Option Cb)
  deriving DecidableEq, Repr

/-- The fiber or callback is not null. -/
def FiberOrCb.isSet : FiberOrCb → Bool
  | .fiber f => f.isSome
  | .cb c => c.isSome

/-- The constructors `ScheduleTask(std::shared_ptr<Fiber> f, int threads)` and
`ScheduleTask(std::function<void()> f, int threads)`; the member not assigned keeps its
default, the null value. -/
def ScheduleTask.create : FiberOrCb → Int → ScheduleTask
  | .fiber f, threads => { fiber := f, cb := none, thread := threads }
  | .cb c, threads => { fiber := none, cb := c, thread := threads }

/-- The data members of `class Scheduler`; `m_scheduler_fiber` records whether the pointer
is set. -/
structure Scheduler where
  m_name : String
  m_threads : List Int
  m_tasks : List ScheduleTask
  m_thread_id : List Int
  m_thread_count : Nat
  m_active_thread_count : Nat
  m_idle_thread_count : Nat
  m_use_caller : Bool
  m_scheduler_fiber : Bool
  m_main_thread : Int
  m_stopping : Bool

/-- Conversion of a `size_t` to `int` (two's complement, 32 bit). -/
def sizeToInt (n : Nat) : Int := ((n + 2 ^ 31) % 2 ^ 32 : Nat) - 2 ^ 31

/-- The constructor `Scheduler::Scheduler(threads, use_caller, name)`.  `thisIsNull` is
`Scheduler::getThis() == nullptr` on the calling thread and `callerTid` is
`Thread::getThreadID()` there; `none` is a failed assertion.  The members without an
assignment keep their default member initialisers of `scheduler.h`. -/
def Scheduler.create (threads : Nat) (use_caller : Bool) (name : String)
    (thisIsNull : Bool) (callerTid : Int) : Option Scheduler :=
  if threads > 0 ∧ thisIsNull = true then
    let threads1 := if use_caller then threads - 1 else threads
    some
      { m_name := name
        m_threads := []
        m_tasks := []
        m_thread_id := if use_caller then [callerTid] else []
        m_thread_count := 0
        m_active_thread_count := 0
        m_idle_thread_count := 0
        m_use_caller := use_caller
        m_scheduler_fiber := use_caller
        m_main_thread := sizeToInt threads1
        m_stopping := false }
  else none

/-- Source `Scheduler::schedulerLock(fc, thread)`: the new state and whether `tickle()` was
called. -/
def Scheduler.schedulerLock (s : Scheduler) (fc : FiberOrCb) (thread : Int) :
    Scheduler × Bool :=
  let need_tickle := s.m_tasks.isEmpty
  let task := ScheduleTask.create fc thread
  if task.fiber.isSome || task.cb.isSome then
    ({ s with m_tasks := s.m_tasks ++ [task] }, need_tickle)
  else (s, need_tickle)

/-- Source `Scheduler::start()`.  `spawn i` is the id of the OS thread created for the `i`-th
`Thread` object; `none` is a failed assertion. -/
def Scheduler.start (s : Scheduler) (spawn : Nat → Int) : Option Scheduler :=
  if s.m_stopping then some s
  else if s.m_threads.isEmpty then
    let ids := (List.range s.m_thread_count).map spawn
    some { s with m_threads := ids, m_thread_id := s.m_thread_id ++ ids }
  else none

/-- Source `Scheduler::stopping()`. -/
def Scheduler.stopping (s : Scheduler) : Bool :=
  s.m_stopping && s.m_tasks.isEmpty && (s.m_active_thread_count == 0)

/-- Source `Scheduler::stop()`: the new state and the number of `tickle()` calls; `none` is a
failed assertion or a call that does not return.  `callerIsThis` is `getThis() == this` on
the calling thread.  `dispatch` is the effect of `m_scheduler_fiber->resume()`, the
dispatch loop run on the calling thread, and `joinAll` the effect of the worker threads up
to the moment all of them have been joined; both run user tasks and are parameters.
`joinAll` is consulted only when there is a `Thread` object to join. -/
def Scheduler.stop (s : Scheduler) (callerIsThis : Bool)
    (dispatch joinAll : Scheduler → Option Scheduler) : Option (Scheduler × Nat) :=
  if s.stopping then some (s, 0)
  else
    let s1 := { s with m_stopping := true }
    if (if s1.m_use_caller then callerIsThis else !callerIsThis) then
      let tickles := s1.m_thread_count + (if s1.m_scheduler_fiber then 1 else 0)
      match (if s1.m_scheduler_fiber then dispatch s1 else some s1) with
      | none => none
      | some s2 =>
        let threads := s2.m_threads
        let s3 := { s2 with m_threads := [] }
        match (if threads.isEmpty then some s3 else joinAll s3) with
        | none => none
        | some s4 => some (s4, tickles)
    else none

/-- A scheduler with one fiber task queued. -/
def sampleScheduler : Scheduler :=
  { m_name := "Scheduler"
    m_threads := []
    m_tasks := [{ fiber := some 1, cb := none, thread := -1 }]
    m_thread_id := []
    m_thread_count := 0
    m_active_thread_count := 0
    m_idle_thread_count := 0
    m_use_caller := false
    m_scheduler_fiber := false
    m_main_thread := 1
    m_stopping := false }

/-- The invariant of every manager built by the constructor and the operations: the set is
in strictly ascending deadline order, its elements are allocated timers, and a handle not
yet allocated has no callback. -/
def TimerManager.WF (s : TimerManager) : Prop :=
  SetOrdered s.heap s.m_timers ∧ (∀ x ∈ s.m_timers, x < s.nextHandle)
    ∧ (∀ x, s.nextHandle ≤ x → (s.heap x).m_cb = none)

/-! ## Fiber (`6hook/fiber.h`, `6hook/fiber.cpp`)

A fiber object lives in a heap addressed by handles; the thread-local pointers
`t_fiber`, `t_thread_fiber` and `t_scheduler_fiber` hold handles (`none` is the null
pointer).  `swapcontext` is modelled by its effect on the data: the functions below change
the states and the current-fiber pointer exactly as the source does before it switches,
and fail (`none`) where the source aborts on an assertion or dereferences a null partner.
`getcontext` and `malloc` are taken to succeed. -/

/-- The enum `Fiber::State`. -/
inductive Fiber.State where
  | READY
  | RUNING
  | TERM
  deriving DecidableEq, Repr

/-- What the member `m_ctx` holds: the context captured by `getcontext` alone, the entry
of the trampoline `Fiber::fiberFunc` installed by `makecontext`, or a context saved by
`swapcontext`. -/
inductive Fiber.Ctx where
  | captured
  | entry
  | saved
  deriving DecidableEq, Repr

/-- The data members of `class Fiber` (without the mutex).  `m_stack` is the size of the
block returned by `malloc`, `none` for the null pointer. -/
structure Fiber where
  m_id : Nat
  m_state : Fiber.State
  m_ctx : Fiber.Ctx
  m_stacksize : Nat
  m_stack : Option Nat
  m_cb : Option Cb
  m_runInScheduler : Bool
  deriving DecidableEq, Repr

instance : Inhabited Fiber := ⟨⟨0, .READY, .captured, 0, none, none, false⟩⟩

/-- The fiber objects of one thread, its thread-local pointers, the two global counters of
`fiber.cpp`, and the list of user functions invoked so far. -/
structure FiberEnv where
  fibers : Nat → Fiber
  nextFiber : Nat
  t_fiber : Option Nat
  t_thread_fiber : Option Nat
  t_scheduler_fiber : Option Nat
  s_fiber_id : Nat
  s_fiber_count : Nat
  invoked : List Cb

/-- A thread that has not touched the fiber runtime yet. -/
def FiberEnv.init : FiberEnv :=
  { fibers := fun _ => default, nextFiber := 0, t_fiber := none, t_thread_fiber := none,
    t_scheduler_fiber := none, s_fiber_id := 0, s_fiber_count := 0, invoked := [] }

/-- Source `Fiber::setThis(f)`. -/
def Fiber.setThis (s : FiberEnv) (f : Option Nat) : FiberEnv := { s with t_fiber := f }

/-- The private constructor `Fiber::Fiber()` of the thread-main fiber, allocated at a
fresh handle.  The member `m_runInScheduler` has no initialiser: its value is the
argument `junk`. -/
def Fiber.createMain (s : FiberEnv) (junk : Bool) : FiberEnv × Nat :=
  let h := s.nextFiber
  let f : Fiber :=
    { m_id := s.s_fiber_id, m_state := .RUNING, m_ctx := .captured, m_stacksize := 0,
      m_stack := none, m_cb := none, m_runInScheduler := junk }
  ({ s with fibers := Function.update s.fibers h f, nextFiber := h + 1, t_fiber := some h,
            s_fiber_id := (s.s_fiber_id + 1) % 2 ^ 64,
            s_fiber_count := (s.s_fiber_count + 1) % 2 ^ 64 }, h)

/-- Source `Fiber::getThis()`: the current fiber, creating the thread-main fiber on first
use. -/
def Fiber.getThis (s : FiberEnv) (junk : Bool) : FiberEnv × Nat :=
  match s.t_fiber with
  | some f => (s, f)
  | none =>
    let r := Fiber.createMain s junk
    ({ r.1 with t_thread_fiber := some r.2, t_scheduler_fiber := some r.2 }, r.2)

/-- The constructor `Fiber::Fiber(cb, stacksize, run_in_scheduler)` of a child fiber,
allocated at a fresh handle; `stacksize` is a `size_t` and `m_stacksize` a `uint32_t`. -/
def Fiber.create (s : FiberEnv) (cb : Option Cb) (stacksize : Nat)
    (run_in_scheduler : Bool) : FiberEnv × Nat :=
  let h := s.nextFiber
  let m_stacksize := (if stacksize ≠ 0 then stacksize else 128000) % 2 ^ 32
  let f : Fiber :=
    { m_id := s.s_fiber_id, m_state := .READY, m_ctx := .entry, m_stacksize := m_stacksize,
      m_stack := some m_stacksize, m_cb := cb, m_runInScheduler := run_in_scheduler }
  ({ s with fibers := Function.update s.fibers h f, nextFiber := h + 1,
            s_fiber_id := (s.s_fiber_id + 1) % 2 ^ 64,
            s_fiber_count := (s.s_fiber_count + 1) % 2 ^ 64 }, h)

/-- Source `Fiber::reset(cb)`. -/
def Fiber.reset (s : FiberEnv) (f : Nat) (cb : Option Cb) : Option FiberEnv :=
  if (s.fibers f).m_stack ≠ none ∧ (s.fibers f).m_state = .TERM then
    let f1 : Fiber := { s.fibers f with m_state := .READY, m_cb := cb, m_ctx := .entry }
    some { s with fibers := Function.update s.fibers f f1 }
  else none

/-- The fiber that `resume` switches away from and `yield` switches back to:
`t_scheduler_fiber` when `m_runInScheduler`, else `t_thread_fiber`. -/
def Fiber.partner (s : FiberEnv) (f : Nat) : Option Nat :=
  if (s.fibers f).m_runInScheduler then s.t_scheduler_fiber else s.t_thread_fiber

/-- Source `Fiber::resume()` up to and including the switch: the assertion, the new
state, `setThis(this)`, and `swapcontext`, which saves the running context into the
partner. -/
def Fiber.resume (s : FiberEnv) (f : Nat) : Option FiberEnv :=
  if (s.fibers f).m_state = .READY then
    let f1 : Fiber := { s.fibers f with m_state := .RUNING }
    let fibers1 := Function.update s.fibers f f1
    match Fiber.partner s f with
    | none => none
    | some p =>
      let p1 : Fiber := { fibers1 p with m_ctx := .saved }
      some { s with fibers := Function.update fibers1 p p1, t_fiber := some f }
  else none

/-- Source `Fiber::yield()` up to and including the switch: the assertion, the state
change, `setThis(partner)`, and `swapcontext`, which saves the running context into this
fiber. -/
def Fiber.yield (s : FiberEnv) (f : Nat) : Option FiberEnv :=
  if (s.fibers f).m_state = .RUNING ∨ (s.fibers f).m_state = .TERM then
    let st := if (s.fibers f).m_state ≠ .TERM then Fiber.State.READY else (s.fibers f).m_state
    match Fiber.partner s f with
    | none => none
    | some p =>
      let f1 : Fiber := { s.fibers f with m_state := st, m_ctx := .saved }
      some { s with fibers := Function.update s.fibers f f1, t_fiber := some p }
  else none

/-- Source `Fiber::fiberFunc()`, the trampoline, for a user function that returns without
calling into the fiber runtime: the function is invoked (recorded in `invoked`), the slot
is cleared, the state becomes `TERM`, and the fiber yields.  Calling an empty
`std::function` throws: `none`. -/
def Fiber.fiberFunc (s : FiberEnv) (junk : Bool) : Option FiberEnv :=
  let r := Fiber.getThis s junk
  let cur := r.2
  match (r.1.fibers cur).m_cb with
  | none => none
  | some c =>
    let s1 := { r.1 with invoked := r.1.invoked ++ [c] }
    let cur1 : Fiber := { s1.fibers cur with m_cb := none, m_state := .TERM }
    let s2 := { s1 with fibers := Function.update s1.fibers cur cur1 }
    Fiber.yield s2 cur

/-- A call of `resume()` on a fiber whose context is the trampoline entry and whose user
function returns without yielding, from the call to its return.  When the partner is
another fiber, the switch into the fiber runs `fiberFunc` on the stack of the fiber, and
the final `yield` of `fiberFunc` switches back; `need` is the number of bytes of stack
that this run uses (it is not in the source), and on a stack of fewer bytes the behaviour
is undefined (`none`).  When the partner is the fiber itself, `swapcontext(&m_ctx,
&m_ctx)` stores the running context in `m_ctx` and activates it: the call returns at once
and the function is not entered.  `none` also when the context is not the trampoline
entry (the rest of a suspended user function is not modelled). -/
def Fiber.resumeToEnd (s : FiberEnv) (f : Nat) (junk : Bool) (need : Nat) :
    Option FiberEnv :=
  if (s.fibers f).m_ctx = .entry then
    match Fiber.resume s f with
    | none => none
    | some s1 =>
      if Fiber.partner s f = some f then some s1
      else if (s.fibers f).m_stacksize < need then none
      else Fiber.fiberFunc s1 junk
  else none

/-- One call into the fiber runtime on a thread. -/
inductive FiberOp where
  | getThis (junk : Bool)
  | create (cb : Option Cb) (stacksize : Nat) (run_in_scheduler : Bool)
  | resume (f : Nat)
  | yield (f : Nat)
  | fiberFunc (junk : Bool)

/-- Run one call; `none` when the source aborts.  `resume` and `yield` are member
functions: they are called on a fiber object that exists. -/
def FiberEnv.step (s : FiberEnv) : FiberOp → Option FiberEnv
  | .getThis junk => some (Fiber.getThis s junk).1
  | .create cb stacksize ris => some (Fiber.create s cb stacksize ris).1
  | .resume f => if f < s.nextFiber then Fiber.resume s f else none
  | .yield f => if f < s.nextFiber then Fiber.yield s f else none
  | .fiberFunc junk => Fiber.fiberFunc s junk

/-- Run a sequence of calls from left to right. -/
def FiberEnv.steps (s : FiberEnv) : List FiberOp → Option FiberEnv
  | [] => some s
  | op :: ops =>
    match s.step op with
    | none => none
    | some s1 => FiberEnv.steps s1 ops

/-- The call is not a `yield` on the thread-main fiber. -/
def FiberOp.onChild (s : FiberEnv) : FiberOp → Bool
  | .yield f => decide (s.t_thread_fiber ≠ some f)
  | _ => true

/-- No `yield` in the sequence is called on the thread-main fiber. -/
def FiberEnv.onChildren (s : FiberEnv) : List FiberOp → Bool
  | [] => true
  | op :: ops =>
    op.onChild s &&
      match s.step op with
      | none => true
      | some s1 => FiberEnv.onChildren s1 ops

/-- The invariant of the fiber runtime of one thread as long as `yield` is called on
child fibers only: the scheduler fiber is the thread-main fiber, the thread-main fiber
exists once a current fiber is set, it is `RUNING` and has no function, and the current
fiber is `RUNING`. -/
def FiberEnv.Inv (s : FiberEnv) : Prop :=
  s.t_scheduler_fiber = s.t_thread_fiber
  ∧ (s.t_thread_fiber = none → s.t_fiber = none)
  ∧ (∀ m, s.t_thread_fiber = some m →
      m < s.nextFiber ∧ (s.fibers m).m_state = .RUNING ∧ (s.fibers m).m_cb = none)
  ∧ (∀ c, s.t_fiber = some c →
      c < s.nextFiber ∧ (s.fibers c).m_state = .RUNING ∧ s.t_thread_fiber ≠ none)

/-- The handles of the fibers whose state is `RUNING`. -/
def FiberEnv.running (s : FiberEnv) : List Nat :=
  (List.range s.nextFiber).filter (fun f => decide ((s.fibers f).m_state = .RUNING))

/-- The thread of `2fiber/test.cpp` after `Fiber::getThis()`, the construction of one
child fiber (callback 7, default stack size, not under a scheduler) and `resume` on it. -/
def fiberSample : FiberEnv :=
  ((FiberEnv.init.steps [.getThis false, .create (some 7) 0 false, .resume 1]).getD
    FiberEnv.init)

/-- The thread of `2fiber/test.cpp` after `Fiber::getThis()` and the construction of one
child fiber (callback 7, default stack size, not under a scheduler). -/
def fiberReadySample : FiberEnv :=
  ((FiberEnv.init.steps [.getThis false, .create (some 7) 0 false]).getD FiberEnv.init)

/-- The increment `++` of a `size_t` counter. -/
def counterInc (n : Nat) : Nat := (n + 1) % 2 ^ 64

/-- The decrement `--` of a `size_t` counter. -/
def counterDec (n : Nat) : Nat := (n + 2 ^ 64 - 1) % 2 ^ 64

/-- The default constructor of `ScheduleTask` and `ScheduleTask::reset()`. -/
def ScheduleTask.empty : ScheduleTask := { fiber := none, cb := none, thread := -1 }

/-- The scan of `m_tasks` in `Scheduler::run`: the tasks pinned to another thread that are
skipped, the first task that is not, and the tasks behind it; `none` when every task is
skipped. -/
def scanTasks (thread_id : Int) :
    List ScheduleTask → Option (List ScheduleTask × ScheduleTask × List ScheduleTask)
  | [] => none
  | t :: rest =>
    if t.thread ≠ -1 ∧ t.thread ≠ thread_id then
      match scanTasks thread_id rest with
      | none => none
      | some r => some (t :: r.1, r.2.1, r.2.2)
    else some ([], t, rest)

/-- The critical section of `Scheduler::run` (lines 102-123): the new scheduler, the task
taken (the empty task when none is eligible) and `tickle_me`; `none` is the failed
assertion `it->fiber || it->cb`.  After `m_tasks.erase(it)` the iterator `it` stands at
the element behind the erased one, so `it != m_tasks.end()` holds exactly when tasks
follow it. -/
def Scheduler.takeTask (s : Scheduler) (thread_id : Int) :
    Option (Scheduler × ScheduleTask × Bool) :=
  match scanTasks thread_id s.m_tasks with
  | none => some (s, ScheduleTask.empty, !s.m_tasks.isEmpty)
  | some r =>
    if r.2.1.fiber.isSome || r.2.1.cb.isSome then
      some ({ s with m_tasks := r.1 ++ r.2.2,
                     m_active_thread_count := counterInc s.m_active_thread_count },
            r.2.1, !r.1.isEmpty || !r.2.2.isEmpty)
    else none

/-- The state a worker thread works on: the scheduler and the fibers of the thread. -/
structure Dispatch where
  sched : Scheduler
  env : FiberEnv

/-- A call `f->resume()` made by the dispatch loop: the switch into the fiber, then the
fiber's code up to the switch back. -/
def Dispatch.resume (d : Dispatch) (f : Nat) (body : Nat → Dispatch → Option Dispatch) :
    Option Dispatch :=
  match Fiber.resume d.env f with
  | none => none
  | some env1 => body f { d with env := env1 }

/-- Step 3 of `Scheduler::run` (lines 130-158) for the task taken.  The first component
is the fiber on which `resume()` is called, if any; the second is the outcome: the new
state and whether the loop goes on (`false` is the `break`), or `none` when the call
aborts or never comes back.  The state test and the `resume()` of a fiber task, and the
`resume()` of the fiber of a callback task, are made under `std::lock_guard<std::mutex>
lock(fiber->m_mutex)`: `d` is the state that the worker reads once it holds that mutex.
The wait for the mutex and its release are the steps `Pool.enter` and `Pool.back` of the
model of several dispatchers. -/
def Scheduler.runTask (d : Dispatch) (task : ScheduleTask) (idle_fiber : Nat)
    (body : Nat → Dispatch → Option Dispatch) : Option Nat × Option (Dispatch × Bool) :=
  match task.fiber with
  | some f =>
    if (d.env.fibers f).m_state ≠ .TERM then
      (some f, (d.resume f body).map (fun d1 =>
        ({ d1 with sched := { d1.sched with
            m_active_thread_count := counterDec d1.sched.m_active_thread_count } }, true)))
    else
      (none, some ({ d with sched := { d.sched with
          m_active_thread_count := counterDec d.sched.m_active_thread_count } }, true))
  | none =>
    match task.cb with
    | some c =>
      let r := Fiber.create d.env (some c) 0 true
      (some r.2, (Dispatch.resume { d with env := r.1 } r.2 body).map (fun d1 =>
        ({ d1 with sched := { d1.sched with
            m_active_thread_count := counterDec d1.sched.m_active_thread_count } }, true)))
    | none =>
      if (d.env.fibers idle_fiber).m_state = .TERM then (none, some (d, false))
      else
        let d0 := { d with sched := { d.sched with
          m_idle_thread_count := counterInc d.sched.m_idle_thread_count } }
        (some idle_fiber, (d0.resume idle_fiber body).map (fun d1 =>
          ({ d1 with sched := { d1.sched with
              m_idle_thread_count := counterDec d1.sched.m_idle_thread_count } }, true)))

/-- One turn of the loop of `Scheduler::run` on the worker `thread_id`: the fiber on which
`resume()` is called, whether `tickle()` is called, and the outcome. -/
def Scheduler.runTurn (d : Dispatch) (thread_id : Int) (idle_fiber : Nat)
    (body : Nat → Dispatch → Option Dispatch) :
    Option Nat × Bool × Option (Dispatch × Bool) :=
  match d.sched.takeTask thread_id with
  | none => (none, false, none)
  | some r =>
    let t := Scheduler.runTask { d with sched := r.1 } r.2.1 idle_fiber body
    (t.1, r.2.2, t.2)

/-- A worker state: the queue of `sampleScheduler` holds one task for fiber 1, and fiber 1
has run to its end (state `TERM`). -/
def dispatchTermSample : Dispatch :=
  { sched := sampleScheduler,
    env := (Fiber.resumeToEnd fiberReadySample 1 false 4096).getD FiberEnv.init }

/-! ## IOManager (`6hook/ioscheduler.h`, `5ioscheduler/ioscheduler.cpp`)

The vector `m_fdContexts` is the list of the `FdContext` objects it points to.  An event
mask is a natural number with the bit operations of the source.  The kernel side of the
poller is the interest list `epoll` (the event word registered for each fd); whether an
`epoll_ctl` call succeeds is decided by the kernel and is the argument `rt` of each
operation.  A `Scheduler*` is `Option Nat`, an index into the scheduler objects
`scheds`. -/

/-- The enumerator `IOManager::NONE`. -/
def IOManager.NONE : Nat := 0x0

/-- The enumerator `IOManager::READ`. -/
def IOManager.READ : Nat := 0x1

/-- The enumerator `IOManager::WRITE`. -/
def IOManager.WRITE : Nat := 0x4

/-- The flag `EPOLLIN` of `sys/epoll.h`. -/
def EPOLLIN : Nat := 0x001

/-- The flag `EPOLLOUT` of `sys/epoll.h`. -/
def EPOLLOUT : Nat := 0x004

/-- The flag `EPOLLERR` of `sys/epoll.h`. -/
def EPOLLERR : Nat := 0x008

/-- The flag `EPOLLHUP` of `sys/epoll.h`. -/
def EPOLLHUP : Nat := 0x010

/-- The flag `EPOLLET` of `sys/epoll.h`. -/
def EPOLLET : Nat := 2 ^ 31

/-- The operations of `epoll_ctl`. -/
inductive EpollOp where
  | EPOLL_CTL_ADD
  | EPOLL_CTL_DEL
  | EPOLL_CTL_MOD
  deriving DecidableEq, Repr

/-- The expression `a & ~b` on event masks. -/
def maskClear (a b : Nat) : Nat := a ^^^ (a &&& b)

/-- The number of bits set in an event mask (a 32 bit word). -/
def popcount (n : Nat) : Nat := ((List.range 32).filter (fun i => n.testBit i)).length

/-- The struct `FdContext::EventContext`. -/
structure EventContext where
  scheduler : Option Nat
  fiber : Option Nat
  cb : Option Cb
  deriving DecidableEq, Repr

/-- A default-constructed `EventContext`, also the result of `resetEventContext`. -/
def EventContext.empty : EventContext := { scheduler := none, fiber := none, cb := none }

/-- The slot holds a fiber or a callback. -/
def EventContext.isSet (e : EventContext) : Bool := e.fiber.isSome || e.cb.isSome

/-- The struct `IOManager::FdContext` (without the mutex). -/
structure FdContext where
  read : EventContext
  write : EventContext
  fd : Nat
  events : Nat
  deriving DecidableEq, Repr

/-- The object made by `new FdContext()` followed by `fd = i` in `contextResize`. -/
def FdContext.fresh (i : Nat) : FdContext :=
  { read := EventContext.empty, write := EventContext.empty, fd := i,
    events := IOManager.NONE }

/-- Source `FdContext::getEventContext(event)`; `none` is the failed assertion. -/
def FdContext.getEventContext (c : FdContext) (event : Nat) : Option EventContext :=
  if event = IOManager.READ then some c.read
  else if event = IOManager.WRITE then some c.write
  else none

/-- Assignment through the reference returned by `getEventContext(event)`. -/
def FdContext.setEventContext (c : FdContext) (event : Nat) (e : EventContext) :
    FdContext :=
  if event = IOManager.READ then { c with read := e }
  else if event = IOManager.WRITE then { c with write := e }
  else c

/-- Source `FdContext::triggerEvent(event)`: the context and the scheduler objects
afterwards.  `none` is the failed assertion, or the call through a null `ctx.scheduler`. -/
def FdContext.triggerEvent (c : FdContext) (scheds : Nat → Scheduler) (event : Nat) :
    Option (FdContext × (Nat → Scheduler)) :=
  if c.events &&& event ≠ 0 then
    let c1 := { c with events := maskClear c.events event }
    match c1.getEventContext event with
    | none => none
    | some ctx =>
      match ctx.scheduler with
      | none => none
      | some k =>
        let fc := if ctx.cb.isSome then FiberOrCb.cb ctx.cb else FiberOrCb.fiber ctx.fiber
        some (c1.setEventContext event EventContext.empty,
              Function.update scheds k ((scheds k).schedulerLock fc (-1)).1)
  else none

/-- The data members of `class IOManager` that the event operations use, the interest list
of the poller, and the scheduler objects the event slots point to. -/
structure IOManager where
  m_fdContexts : List FdContext
  m_pendingEventCount : Nat
  epoll : Nat → Option Nat
  scheds : Nat → Scheduler

/-- The system call `epoll_ctl(m_epfd, op, fd, &epevent)` with result `rt`: the interest
list changes when the call succeeds. -/
def epoll_ctl (epoll : Nat → Option Nat) (op : EpollOp) (fd : Nat) (events : Nat)
    (rt : Int) : Nat → Option Nat :=
  if rt = 0 then
    match op with
    | .EPOLL_CTL_ADD => Function.update epoll fd (some events)
    | .EPOLL_CTL_MOD => Function.update epoll fd (some events)
    | .EPOLL_CTL_DEL => Function.update epoll fd none
  else epoll

/-- Source `IOManager::contextResize(size)`. -/
def contextResize (l : List FdContext) (size : Nat) : List FdContext :=
  l.take size ++ (List.range' l.length (size - l.length)).map FdContext.fresh

/-- Source `IOManager::addEvent(fd, event, cb)`.  `rt` is the result of `epoll_ctl`,
`sched` is `Scheduler::getThis()`, `fiber` is `Fiber::getThis()` and `fiberState` its
state.  The result is the new manager and the return value; `none` is a failed assertion
or an access behind the end of the vector. -/
def IOManager.addEvent (m : IOManager) (fd : Nat) (event : Nat) (cb : Option Cb)
    (rt : Int) (sched : Option Nat) (fiber : Nat) (fiberState : Fiber.State) :
    Option (IOManager × Int) :=
  let ctxs := if m.m_fdContexts.length > fd then m.m_fdContexts
    else contextResize m.m_fdContexts (fd * 3 / 2)
  match ctxs[fd]? with
  | none => none
  | some c =>
    if c.events &&& event ≠ 0 then some ({ m with m_fdContexts := ctxs }, -1)
    else
      let op := if c.events ≠ 0 then EpollOp.EPOLL_CTL_MOD else EpollOp.EPOLL_CTL_ADD
      let epoll1 := epoll_ctl m.epoll op fd (EPOLLET ||| c.events ||| event) rt
      if rt ≠ 0 then some ({ m with m_fdContexts := ctxs, epoll := epoll1 }, -1)
      else
        let c1 := { c with events := c.events ||| event }
        match c1.getEventContext event with
        | none => none
        | some ctx =>
          if ctx.scheduler.isSome || ctx.fiber.isSome || ctx.cb.isSome then none
          else
            let ctx1 : EventContext :=
              if cb.isSome then { ctx with scheduler := sched, cb := cb }
              else { ctx with scheduler := sched, fiber := some fiber }
            if cb.isNone ∧ fiberState ≠ .RUNING then none
            else
              some ({ m with m_fdContexts := ctxs.set fd (c1.setEventContext event ctx1),
                             m_pendingEventCount := counterInc m.m_pendingEventCount,
                             epoll := epoll1 }, 0)

/-- Source `IOManager::delEvent(fd, event)`; `rt` is the result of `epoll_ctl`.  The
return type is `bool`, so the `return -1` of the failure path returns `true`. -/
def IOManager.delEvent (m : IOManager) (fd : Nat) (event : Nat) (rt : Int) :
    Option (IOManager × Bool) :=
  match m.m_fdContexts[fd]? with
  | none => some (m, false)
  | some c =>
    if c.events &&& event = 0 then some (m, false)
    else
      let new_events := maskClear c.events event
      let op := if new_events ≠ 0 then EpollOp.EPOLL_CTL_MOD else EpollOp.EPOLL_CTL_DEL
      let epoll1 := epoll_ctl m.epoll op fd (EPOLLET ||| new_events) rt
      if rt ≠ 0 then some ({ m with epoll := epoll1 }, true)
      else
        let c1 := { c with events := new_events }
        match c1.getEventContext event with
        | none => none
        | some _ =>
          some ({ m with
                  m_fdContexts := m.m_fdContexts.set fd
                    (c1.setEventContext event EventContext.empty),
                  m_pendingEventCount := counterDec m.m_pendingEventCount,
                  epoll := epoll1 }, true)

/-- Source `IOManager::cancelEvent(fd, event)`; `rt` is the result of `epoll_ctl`. -/
def IOManager.cancelEvent (m : IOManager) (fd : Nat) (event : Nat) (rt : Int) :
    Option (IOManager × Bool) :=
  match m.m_fdContexts[fd]? with
  | none => some (m, false)
  | some c =>
    if c.events &&& event = 0 then some (m, false)
    else
      let new_events := maskClear c.events event
      let op := if new_events ≠ 0 then EpollOp.EPOLL_CTL_MOD else EpollOp.EPOLL_CTL_DEL
      let epoll1 := epoll_ctl m.epoll op fd (EPOLLET ||| new_events) rt
      if rt ≠ 0 then some ({ m with epoll := epoll1 }, true)
      else
        match c.triggerEvent m.scheds event with
        | none => none
        | some r =>
          some ({ m with
                  m_fdContexts := m.m_fdContexts.set fd r.1,
                  m_pendingEventCount := counterDec m.m_pendingEventCount,
                  epoll := epoll1,
                  scheds := r.2 }, true)

/-- The statement `if (fd_ctx->events & event) { triggerEvent(event);
--m_pendingEventCount; }` of `cancelAll`, and with `real_events` for `fd_ctx->events` of
`idle`: `mask` is the word that is tested. -/
def triggerIf (mask : Nat) (event : Nat) (c : FdContext) (scheds : Nat → Scheduler)
    (count : Nat) : Option (FdContext × (Nat → Scheduler) × Nat) :=
  if mask &&& event ≠ 0 then
    match c.triggerEvent scheds event with
    | none => none
    | some r => some (r.1, r.2, counterDec count)
  else some (c, scheds, count)

/-- Source `IOManager::cancelAll(fd)`; `rt` is the result of `epoll_ctl`. -/
def IOManager.cancelAll (m : IOManager) (fd : Nat) (rt : Int) :
    Option (IOManager × Bool) :=
  match m.m_fdContexts[fd]? with
  | none => some (m, false)
  | some c =>
    if c.events = 0 then some (m, false)
    else
      let epoll1 := epoll_ctl m.epoll .EPOLL_CTL_DEL fd 0 rt
      if rt ≠ 0 then some ({ m with epoll := epoll1 }, true)
      else
        match triggerIf c.events IOManager.READ c m.scheds m.m_pendingEventCount with
        | none => none
        | some r1 =>
          match triggerIf r1.1.events IOManager.WRITE r1.1 r1.2.1 r1.2.2 with
          | none => none
          | some r2 =>
            if r2.1.events = 0 then
              some ({ m with
                      m_fdContexts := m.m_fdContexts.set fd r2.1,
                      m_pendingEventCount := r2.2.2,
                      epoll := epoll1,
                      scheds := r2.2.1 }, true)
            else none

/-- The word `real_events` of `IOManager::idle` (lines 424-438): `flags` is
`event.events` as reported by `epoll_wait`, `events` is `fd_ctx->events`. -/
def realEvents (flags : Nat) (events : Nat) : Nat :=
  let flags1 := if flags &&& (EPOLLERR ||| EPOLLHUP) ≠ 0
    then flags ||| ((EPOLLIN ||| EPOLLOUT) &&& events) else flags
  let real0 := IOManager.NONE
  let real1 := if flags1 &&& EPOLLIN ≠ 0 then real0 ||| IOManager.READ else real0
  if flags1 &&& EPOLLOUT ≠ 0 then real1 ||| IOManager.WRITE else real1

/-- The body of the `for` loop of `IOManager::idle` (lines 420-468) for one kernel event
that is not the tickle pipe: `fd` identifies the `FdContext` in `event.data.ptr`, `flags`
is `event.events`, `rt2` the result of `epoll_ctl`. -/
def IOManager.idleEvent (m : IOManager) (fd : Nat) (flags : Nat) (rt2 : Int) :
    Option IOManager :=
  match m.m_fdContexts[fd]? with
  | none => none
  | some c =>
    let real_events := realEvents flags c.events
    if c.events &&& real_events = IOManager.NONE then some m
    else
      let left_events := maskClear c.events real_events
      let op := if left_events ≠ 0 then EpollOp.EPOLL_CTL_MOD else EpollOp.EPOLL_CTL_DEL
      let epoll1 := epoll_ctl m.epoll op c.fd (EPOLLET ||| left_events) rt2
      if rt2 ≠ 0 then some { m with epoll := epoll1 }
      else
        match triggerIf real_events IOManager.READ c m.scheds m.m_pendingEventCount with
        | none => none
        | some r1 =>
          match triggerIf real_events IOManager.WRITE r1.1 r1.2.1 r1.2.2 with
          | none => none
          | some r2 =>
            some { m with
                   m_fdContexts := m.m_fdContexts.set fd r2.1,
                   m_pendingEventCount := r2.2.2,
                   epoll := epoll1,
                   scheds := r2.2.1 }

/-- The constructor `IOManager::IOManager`, as far as the event tables go: the tickle pipe
`tickleFd` is registered with the poller and `contextResize(32)` is called. -/
def IOManager.create (scheds : Nat → Scheduler) (tickleFd : Nat) : IOManager :=
  { m_fdContexts := contextResize [] 32,
    m_pendingEventCount := 0,
    epoll := Function.update (fun _ => none) tickleFd (some (EPOLLIN ||| EPOLLET)),
    scheds := scheds }

/-- One call on the manager, or one kernel event handled by `idle`.  The file descriptor is
an `int`; the numbers below 2^31 stand for its non-negative values. -/
inductive IOOp where
  | addEvent (fd : Nat) (event : Nat) (cb : Option Cb) (rt : Int) (sched : Option Nat)
      (fiber : Nat) (fiberState : Fiber.State)
  | delEvent (fd : Nat) (event : Nat) (rt : Int)
  | cancelEvent (fd : Nat) (event : Nat) (rt : Int)
  | cancelAll (fd : Nat) (rt : Int)
  | idleEvent (fd : Nat) (flags : Nat) (rt2 : Int)

/-- Run one operation; `none` when the source aborts or the fd is not an `int`. -/
def IOManager.step (m : IOManager) : IOOp → Option IOManager
  | .addEvent fd event cb rt sched fiber st =>
    if fd < 2 ^ 31 then (m.addEvent fd event cb rt sched fiber st).map (·.1) else none
  | .delEvent fd event rt =>
    if fd < 2 ^ 31 then (m.delEvent fd event rt).map (·.1) else none
  | .cancelEvent fd event rt =>
    if fd < 2 ^ 31 then (m.cancelEvent fd event rt).map (·.1) else none
  | .cancelAll fd rt => if fd < 2 ^ 31 then (m.cancelAll fd rt).map (·.1) else none
  | .idleEvent fd flags rt2 => m.idleEvent fd flags rt2

/-- Run a sequence of operations from left to right. -/
def IOManager.steps (m : IOManager) : List IOOp → Option IOManager
  | [] => some m
  | op :: ops =>
    match m.step op with
    | none => none
    | some m1 => IOManager.steps m1 ops

/-- The sum over all fd contexts of the number of bits set in `events`. -/
def IOManager.registered (m : IOManager) : Nat :=
  (m.m_fdContexts.map (fun c => popcount c.events)).sum

/-- A manager with one scheduler object (index 0) after `addEvent(3, READ, cb)` with
callback 7. -/
def ioReadSample : IOManager :=
  (((IOManager.create (fun _ => sampleScheduler) 5).addEvent 3 IOManager.READ (some 7) 0
    (some 0) 1 .RUNING).getD (IOManager.create (fun _ => sampleScheduler) 5, 0)).1

/-- The manager before the `addEvent` of `ioReadSample`. -/
def ioEmptySample : IOManager := IOManager.create (fun _ => sampleScheduler) 5

/-- The manager `ioReadSample` after a `delEvent(3, READ)` whose poller update succeeds. -/
def ioDeletedSample : IOManager :=
  ((ioReadSample.delEvent 3 IOManager.READ 0).getD (ioReadSample, false)).1

/-- The manager `ioReadSample` after a `cancelEvent(3, READ)` whose poller update
succeeds. -/
def ioCancelledSample : IOManager :=
  ((ioReadSample.cancelEvent 3 IOManager.READ 0).getD (ioReadSample, false)).1

/-- An event mask built from `READ` and `WRITE` only. -/
def ValidMask (n : Nat) : Prop := n = 0 ∨ n = 1 ∨ n = 4 ∨ n = 5

/-- The mask of an fd context agrees with its slots: the READ (WRITE) bit is set exactly
when the read (write) slot holds a fiber or a callback. -/
def FdContext.Consistent (c : FdContext) : Prop :=
  ValidMask c.events
  ∧ (c.events &&& IOManager.READ ≠ 0 ↔ c.read.isSet = true)
  ∧ (c.events &&& IOManager.WRITE ≠ 0 ↔ c.write.isSet = true)

/-- The number of slots of an fd context that hold a fiber or a callback. -/
def FdContext.slotsSet (c : FdContext) : Nat :=
  (if c.read.isSet then 1 else 0) + (if c.write.isSet then 1 else 0)

/-- The invariant of the event tables: every fd context is consistent, the vector has at
most 2^32 entries, and the pending-event counter is the number of registered events. -/
def IOManager.Inv (m : IOManager) : Prop :=
  (∀ c ∈ m.m_fdContexts, c.Consistent) ∧ m.m_fdContexts.length ≤ 2 ^ 32
    ∧ m.m_pendingEventCount = m.registered

/-- A run on a fresh manager: READ and WRITE are registered on fd 3, READ on fd 40 (which
grows the vector), a deletion on fd 3 fails in the poller, the kernel reports a hang-up on
fd 3, and everything on fd 40 is cancelled. -/
def ioRunOps : List IOOp :=
  [.addEvent 3 IOManager.READ (some 7) 0 (some 0) 1 .RUNING,
   .addEvent 3 IOManager.WRITE none 0 (some 0) 2 .RUNING,
   .addEvent 40 IOManager.READ (some 8) 0 (some 0) 1 .RUNING,
   .delEvent 3 IOManager.READ (-1),
   .idleEvent 3 EPOLLHUP 0,
   .cancelAll 40 0]

/-- The manager after the first four operations of `ioRunOps`. -/
def ioRunSample : IOManager := (ioEmptySample.steps (ioRunOps.take 4)).getD ioEmptySample

/-! ## The hook layer (`6hook/hook.h`, `6hook/hook.cpp`)

The originals `name_f` are system calls: a call of an original is recorded in the trace
`rawCalls` with its arguments, and what it returns is given by the environment, the
oracle `os` (its first argument is the number of calls made before).  Pointer arguments
are opaque numbers; where the source reads the object pointed to, that object is an
argument of its own.  An `int` is an `Int`; where the source works on its bits, the bits
are the 32 bit two's complement pattern.  The numeric values of the macros are those of
Linux on x86-64.

A hooked function that waits does so by `Fiber::yield`: the model of such a call ends at
the yield with the result `yielded p`, and `p` tells what the call does once its fiber is
resumed.  The byte that `tickle` writes to the self-pipe
of the manager when a timer is inserted at the front is not part of the state. -/

/-- The bits of an `int`. -/
def intBits (i : Int) : Nat := (i % 2 ^ 32).toNat

/-- The `int` with the given bits. -/
def bitsInt (n : Nat) : Int :=
  if n % 2 ^ 32 < 2 ^ 31 then (n % 2 ^ 32 : Nat) else (n % 2 ^ 32 : Nat) - 2 ^ 32

/-- The macro `O_NONBLOCK`. -/
def O_NONBLOCK : Nat := 0o4000

/-- The macro `F_DUPFD`. -/
def F_DUPFD : Int := 0
/-- The macro `F_GETFD`. -/
def F_GETFD : Int := 1
/-- The macro `F_SETFD`. -/
def F_SETFD : Int := 2
/-- The macro `F_GETFL`. -/
def F_GETFL : Int := 3
/-- The macro `F_SETFL`. -/
def F_SETFL : Int := 4
/-- The macro `F_GETLK`. -/
def F_GETLK : Int := 5
/-- The macro `F_SETLK`. -/
def F_SETLK : Int := 6
/-- The macro `F_SETLKW`. -/
def F_SETLKW : Int := 7
/-- The macro `F_SETOWN`. -/
def F_SETOWN : Int := 8
/-- The macro `F_GETOWN`. -/
def F_GETOWN : Int := 9
/-- The macro `F_SETSIG`. -/
def F_SETSIG : Int := 10
/-- The macro `F_GETSIG`. -/
def F_GETSIG : Int := 11
/-- The macro `F_SETOWN_EX`. -/
def F_SETOWN_EX : Int := 15
/-- The macro `F_GETOWN_EX`. -/
def F_GETOWN_EX : Int := 16
/-- The macro `F_SETLEASE`. -/
def F_SETLEASE : Int := 1024
/-- The macro `F_GETLEASE`. -/
def F_GETLEASE : Int := 1025
/-- The macro `F_NOTIFY`. -/
def F_NOTIFY : Int := 1026
/-- The macro `F_DUPFD_CLOEXEC`. -/
def F_DUPFD_CLOEXEC : Int := 1030
/-- The macro `F_SETPIPE_SZ`. -/
def F_SETPIPE_SZ : Int := 1031
/-- The macro `F_GETPIPE_SZ`. -/
def F_GETPIPE_SZ : Int := 1032
/-- The macro `FIONBIO`. -/
def FIONBIO : Nat := 0x5421
/-- The macro `SOL_SOCKET`. -/
def SOL_SOCKET : Int := 1
/-- The macro `SO_ERROR`. -/
def SO_ERROR : Int := 4
/-- The macro `SO_RCVTIMEO`. -/
def SO_RCVTIMEO : Int := 20
/-- The macro `SO_SNDTIMEO`. -/
def SO_SNDTIMEO : Int := 21
/-- The error number `EINTR`. -/
def EINTR : Int := 4
/-- The error number `EBADF`. -/
def EBADF : Int := 9
/-- The error number `EAGAIN`. -/
def EAGAIN : Int := 11
/-- The error number `ETIMEDOUT`. -/
def ETIMEDOUT : Int := 110
/-- The error number `EINPROGRESS`. -/
def EINPROGRESS : Int := 115

/-- Modelled from the spec: the class `FdCtx` of `fd_manager.h`, which is not among the
sources.  The spec lists for each descriptor the user-requested non-blocking flag, the
system-imposed non-blocking flag, a timeout in milliseconds per direction (`~0` is none),
`is_socket` and `is_closed`. -/
structure FdCtx where
  m_isSocket : Bool
  m_isClosed : Bool
  m_userNonblock : Bool
  m_sysNonblock : Bool
  m_recvTimeout : Nat
  m_sendTimeout : Nat
  deriving DecidableEq, Repr

/-- Modelled from the spec: `FdCtx::getTimeout(type)`, the timeout of the direction named
by `SO_RCVTIMEO` or `SO_SNDTIMEO`. -/
def FdCtx.getTimeout (c : FdCtx) (type : Int) : Nat :=
  if type = SO_RCVTIMEO then c.m_recvTimeout else c.m_sendTimeout

/-- Modelled from the spec: `FdCtx::setTimeout(type, ms)`. -/
def FdCtx.setTimeout (c : FdCtx) (type : Int) (ms : Nat) : FdCtx :=
  if type = SO_RCVTIMEO then { c with m_recvTimeout := ms } else { c with m_sendTimeout := ms }

/-- Modelled from the spec: the context that the fd manager creates for the descriptor
returned by `socket` or `accept`; it is marked as a socket, the kernel side is forced to
non-blocking, the user-visible flag is blocking, and no timeout is set. -/
def FdCtx.socket : FdCtx :=
  { m_isSocket := true, m_isClosed := false, m_userNonblock := false, m_sysNonblock := true,
    m_recvTimeout := U64_MAX, m_sendTimeout := U64_MAX }

/-- Modelled from the spec: `FdMgr::get(fd, auto_create)` on the process-wide table of
contexts: the context of `fd`, created first when `auto_create` is set and there is
none. -/
def FdMgr.get (mgr : Int → Option FdCtx) (fd : Int) (auto_create : Bool) :
    (Int → Option FdCtx) × Option FdCtx :=
  match mgr fd with
  | some c => (mgr, some c)
  | none =>
    if auto_create then (Function.update mgr fd (some FdCtx.socket), some FdCtx.socket)
    else (mgr, none)

/-- Modelled from the spec: `FdMgr::del(fd)`. -/
def FdMgr.del (mgr : Int → Option FdCtx) (fd : Int) : Int → Option FdCtx :=
  Function.update mgr fd none

/-- The functions of the read and write families, all implemented by `do_io`. -/
inductive IoFn where
  | read | readv | recv | recvfrom | recvmsg
  | write | writev | send | sendto | sendmsg
  | accept
  deriving DecidableEq, Repr

/-- A call of an original with its arguments. -/
inductive RawCall where
  | sleep (seconds : Nat)
  | usleep (usec : Nat)
  | nanosleep (tv_sec tv_nsec : Int) (rem : Nat)
  | socket (domain type protocol : Int)
  | connect (sockfd : Int) (addr addrlen : Nat)
  | io (fn : IoFn) (fd : Int) (args : List Nat)
  | close (fd : Int)
  | fcntl (fd cmd : Int) (arg : Option Int)
  | ioctl (fd : Int) (request : Nat) (arg : Nat) (pointee : Int)
  | getsockopt (sockfd level optname : Int) (optval optlen : Nat)
  | setsockopt (sockfd level optname : Int) (optval : Nat) (tv_sec tv_usec : Int)
      (optlen : Nat)
  deriving DecidableEq, Repr

/-- What a call of an original gives back: the return value, the value of `errno` after
the call, and the `int` stored through the result pointer (for `getsockopt`). -/
structure RawRet where
  ret : Int
  err : Int
  out : Int
  deriving DecidableEq, Repr

/-- The callables that the hook layer hands to timers and schedulers: the lambda of the
sleep family `[fiber, iom](){iom->schedulerLock(fiber, thread);}`, the timeout lambdas of
`connect_with_timeout` and of `do_io`, and `std::bind(&onTimer, weak_cond, cb)` made by
`addConidtionTimer`.  A `Cb` made by the hook layer is an index into the list of these. -/
inductive Closure where
  | wake (fiber : Nat) (iom : Nat) (thread : Int)
  | connectTimeout (winfo : Nat) (fd : Int)
  | ioTimeout (winfo : Nat) (fd : Int) (event : Nat)
  | onTimer (weak_cond : Nat) (cb : Cb)
  deriving DecidableEq, Repr

/-- What a suspended call does when its fiber is resumed: return a value, or go on in
`connect_with_timeout` behind its `yield`, or go on in `do_io` behind its `yield`. -/
inductive Pending where
  | ret (v : Int)
  | connect (fd : Int) (timer : Option Nat) (tinfo : Nat)
  | io (fn : IoFn) (fd : Int) (args : List Nat) (event : Nat) (timeout : Nat)
      (timer : Option Nat) (tinfo : Nat)
  deriving DecidableEq, Repr

/-- The outcome of a hooked call: it returned, or it is suspended in `yield`. -/
inductive HookResult where
  | returned (ret : Int)
  | yielded (p : Pending)
  deriving DecidableEq, Repr

/-- The state the hook layer works on: the thread-local flag `t_hook_enable`, `errno`,
the table of the fd manager, the trace of the calls of originals, `IOManager::getThis()`
(as an index into `iom.scheds`; `none` is the null pointer), the timer and event parts of
that manager, the fibers of the thread, the callables made so far, and the `timer_info`
objects (their field `cancelled`; `none` once the object is destroyed). -/
structure HookWorld where
  t_hook_enable : Bool
  errno : Int
  fdmgr : Int → Option FdCtx
  rawCalls : List RawCall
  t_iom : Option Nat
  timers : TimerManager
  iom : IOManager
  env : FiberEnv
  closures : List Closure
  tinfos : Nat → Option Int
  nextTinfo : Nat

/-- Source `john::is_hook_enable()`. -/
def is_hook_enable (w : HookWorld) : Bool := w.t_hook_enable

/-- Source `john::set_hook_enable(flag)`. -/
def set_hook_enable (w : HookWorld) (flag : Bool) : HookWorld :=
  { w with t_hook_enable := flag }

/-- A call of an original: it is recorded, and `errno` is what the call leaves. -/
def HookWorld.raw (w : HookWorld) (os : Nat → RawCall → RawRet) (c : RawCall) :
    HookWorld × RawRet :=
  ({ w with rawCalls := w.rawCalls ++ [c], errno := (os w.rawCalls.length c).err },
   os w.rawCalls.length c)

/-- The statement `return name_f(args);`. -/
def HookWorld.passThrough (w : HookWorld) (os : Nat → RawCall → RawRet) (c : RawCall) :
    Option (HookWorld × HookResult) :=
  some ((w.raw os c).1, .returned (w.raw os c).2.ret)

/-- The part shared by `sleep`, `usleep` and `nanosleep` with hooking on: the current
fiber and manager are fetched, a one-shot timer of `ms` milliseconds is added whose
callback schedules the fiber with affinity `thread`, the fiber yields, and the call
returns 0 when it is resumed. -/
def sleepFor (w : HookWorld) (now : Int) (junk : Bool) (ms : Nat) (thread : Int) :
    Option (HookWorld × HookResult) :=
  let g := Fiber.getThis w.env junk
  match w.t_iom with
  | none => none
  | some k =>
    let t := w.timers.addTimer now ms (some w.closures.length) false
    match Fiber.yield g.1 g.2 with
    | none => none
    | some env1 =>
      some ({ w with env := env1, timers := t.1,
                     closures := w.closures ++ [Closure.wake g.2 k thread] },
            .yielded (.ret 0))

/-- Source `sleep(seconds)`; `seconds` is an `unsigned int`, and so is `seconds*1000`. -/
def sleep (w : HookWorld) (os : Nat → RawCall → RawRet) (now : Int) (junk : Bool)
    (seconds : Nat) : Option (HookWorld × HookResult) :=
  if w.t_hook_enable = false then w.passThrough os (.sleep seconds)
  else sleepFor w now junk (seconds * 1000 % 2 ^ 32) (-1)

/-- Source `usleep(usec)`. -/
def usleep (w : HookWorld) (os : Nat → RawCall → RawRet) (now : Int) (junk : Bool)
    (usec : Nat) : Option (HookWorld × HookResult) :=
  if w.t_hook_enable = false then w.passThrough os (.usleep usec)
  else sleepFor w now junk (usec / 1000) (-1)

/-- Source `nanosleep(req, rem)`; `tv_sec` and `tv_nsec` are the fields of `*req`.  The
sum is a `long`, `timeout_ms` an `int`, and the argument of `addTimer` a `uint64_t`. -/
def nanosleep (w : HookWorld) (os : Nat → RawCall → RawRet) (now : Int) (junk : Bool)
    (tv_sec tv_nsec : Int) (rem : Nat) : Option (HookWorld × HookResult) :=
  if w.t_hook_enable = false then w.passThrough os (.nanosleep tv_sec tv_nsec rem)
  else
    let timeout_ms : Int :=
      bitsInt (intBits (tv_sec * 1000 + (tv_nsec.tdiv 1000).tdiv 1000))
    sleepFor w now junk (timeout_ms % 2 ^ 64).toNat (-1)

/-- Source `socket(domain, type, protocol)`. -/
def socket (w : HookWorld) (os : Nat → RawCall → RawRet) (domain type protocol : Int) :
    Option (HookWorld × HookResult) :=
  if w.t_hook_enable = false then w.passThrough os (.socket domain type protocol)
  else
    let r := w.raw os (.socket domain type protocol)
    if r.2.ret = -1 then some (r.1, .returned r.2.ret)
    else
      some ({ r.1 with fdmgr := (FdMgr.get r.1.fdmgr r.2.ret true).1 }, .returned r.2.ret)

/-- Source `close(fd)`; `rt` is the result of the `epoll_ctl` call of `cancelAll`. -/
def close (w : HookWorld) (os : Nat → RawCall → RawRet) (rt : Int) (fd : Int) :
    Option (HookWorld × HookResult) :=
  if w.t_hook_enable = false then w.passThrough os (.close fd)
  else
    match (FdMgr.get w.fdmgr fd false).2 with
    | some _ =>
      match (if w.t_iom.isSome then (w.iom.cancelAll fd.toNat rt).map (·.1)
             else some w.iom) with
      | none => none
      | some iom1 =>
        HookWorld.passThrough { w with iom := iom1, fdmgr := FdMgr.del w.fdmgr fd } os
          (.close fd)
    | none => w.passThrough os (.close fd)

/-- The statement `T arg = va_arg(va, T); va_end(va); return fcntl_f(fd, cmd, arg);`:
reading an argument that the caller did not pass has no defined result (`none`). -/
def fcntlWithArg (w : HookWorld) (os : Nat → RawCall → RawRet) (fd cmd : Int)
    (arg : Option Int) : Option (HookWorld × HookResult) :=
  match arg with
  | none => none
  | some a => w.passThrough os (.fcntl fd cmd (some a))

/-- Source `fcntl(fd, cmd, ...)`; `arg` is the variadic argument if the caller passed one,
an `int` or a pointer according to `cmd`. -/
def fcntl (w : HookWorld) (os : Nat → RawCall → RawRet) (fd cmd : Int) (arg : Option Int) :
    Option (HookWorld × HookResult) :=
  if cmd = F_SETFL then
    match arg with
    | none => none
    | some a =>
      match (FdMgr.get w.fdmgr fd false).2 with
      | none => w.passThrough os (.fcntl fd cmd (some a))
      | some ctx =>
        if ctx.m_isClosed || !ctx.m_isSocket then w.passThrough os (.fcntl fd cmd (some a))
        else
          let ctx1 : FdCtx :=
            { ctx with m_userNonblock := decide (intBits a &&& O_NONBLOCK ≠ 0) }
          let a1 := if ctx1.m_sysNonblock then bitsInt (intBits a ||| O_NONBLOCK)
            else bitsInt (maskClear (intBits a) O_NONBLOCK)
          HookWorld.passThrough { w with fdmgr := Function.update w.fdmgr fd (some ctx1) } os
            (.fcntl fd cmd (some a1))
  else if cmd = F_GETFL then
    let r := w.raw os (.fcntl fd cmd none)
    match (FdMgr.get r.1.fdmgr fd false).2 with
    | none => some (r.1, .returned r.2.ret)
    | some ctx =>
      if ctx.m_isClosed || !ctx.m_isSocket then some (r.1, .returned r.2.ret)
      else if ctx.m_userNonblock then
        some (r.1, .returned (bitsInt (intBits r.2.ret ||| O_NONBLOCK)))
      else some (r.1, .returned (bitsInt (maskClear (intBits r.2.ret) O_NONBLOCK)))
  else if cmd = F_DUPFD ∨ cmd = F_DUPFD_CLOEXEC ∨ cmd = F_SETFD ∨ cmd = F_SETOWN
      ∨ cmd = F_SETSIG ∨ cmd = F_SETLEASE ∨ cmd = F_NOTIFY ∨ cmd = F_SETPIPE_SZ then
    fcntlWithArg w os fd cmd arg
  else if cmd = F_GETFD ∨ cmd = F_GETOWN ∨ cmd = F_GETSIG ∨ cmd = F_GETLEASE
      ∨ cmd = F_GETPIPE_SZ then
    w.passThrough os (.fcntl fd cmd none)
  else if cmd = F_SETLK ∨ cmd = F_SETLKW ∨ cmd = F_GETLK then
    fcntlWithArg w os fd cmd arg
  else if cmd = F_GETOWN_EX ∨ cmd = F_SETOWN_EX then
    fcntlWithArg w os fd cmd arg
  else w.passThrough os (.fcntl fd cmd none)

/-- Source `ioctl(fd, request, ...)`; `arg` is the variadic pointer and `pointee` the
`int` it points to. -/
def ioctl (w : HookWorld) (os : Nat → RawCall → RawRet) (fd : Int) (request : Nat)
    (arg : Nat) (pointee : Int) : Option (HookWorld × HookResult) :=
  if FIONBIO = request then
    let user_nonblock := decide (pointee ≠ 0)
    match (FdMgr.get w.fdmgr fd false).2 with
    | none => w.passThrough os (.ioctl fd request arg pointee)
    | some ctx =>
      if ctx.m_isClosed || !ctx.m_isSocket then
        w.passThrough os (.ioctl fd request arg pointee)
      else
        let ctx1 : FdCtx := { ctx with m_userNonblock := user_nonblock }
        HookWorld.passThrough { w with fdmgr := Function.update w.fdmgr fd (some ctx1) } os
          (.ioctl fd request arg pointee)
  else w.passThrough os (.ioctl fd request arg pointee)

/-- Source `getsockopt(sockfd, level, optname, optval, optlen)`. -/
def getsockopt (w : HookWorld) (os : Nat → RawCall → RawRet) (sockfd level optname : Int)
    (optval optlen : Nat) : Option (HookWorld × HookResult) :=
  w.passThrough os (.getsockopt sockfd level optname optval optlen)

/-- Source `setsockopt(sockfd, level, optname, optval, optlen)`; `tv_sec` and `tv_usec`
are the fields of the `timeval` that `optval` is read as.  The milliseconds are a `long`
and the argument of `setTimeout` a `uint64_t`. -/
def setsockopt (w : HookWorld) (os : Nat → RawCall → RawRet) (sockfd level optname : Int)
    (optval : Nat) (tv_sec tv_usec : Int) (optlen : Nat) :
    Option (HookWorld × HookResult) :=
  if w.t_hook_enable = false then
    w.passThrough os (.setsockopt sockfd level optname optval tv_sec tv_usec optlen)
  else
    let w1 :=
      if level = SOL_SOCKET ∧ (optname = SO_RCVTIMEO ∨ optname = SO_SNDTIMEO) then
        match (FdMgr.get w.fdmgr sockfd false).2 with
        | some ctx =>
          let ms : Nat := ((tv_sec * 1000 + tv_usec.tdiv 1000) % 2 ^ 64).toNat
          { w with fdmgr := Function.update w.fdmgr sockfd (some (ctx.setTimeout optname ms)) }
        | none => w
      else w
    w1.passThrough os (.setsockopt sockfd level optname optval tv_sec tv_usec optlen)

/-- Source `TimerManager::addConidtionTimer(ms, cb, weak_cond, recurring)` as the hook layer
calls it: the callable `std::bind(&onTimer, weak_cond, cb)` is made and given to
`addTimer`. -/
def HookWorld.addConidtionTimer (w : HookWorld) (now : Int) (ms : Nat) (cb : Cb)
    (weak_cond : Nat) (recurring : Bool) : HookWorld × Nat :=
  let t := w.timers.addTimer now ms (some w.closures.length) recurring
  ({ w with closures := w.closures ++ [Closure.onTimer weak_cond cb], timers := t.1 }, t.2.1)

/-- The body of the timeout lambda of `connect_with_timeout` and of `do_io`: nothing if the
`timer_info` is gone or already marked, else it is marked `ETIMEDOUT` and the event is
cancelled; `rt` is the result of the `epoll_ctl` call of `cancelEvent`. -/
def HookWorld.onTimeout (w : HookWorld) (rt : Int) (winfo : Nat) (fd : Int) (event : Nat) :
    Option HookWorld :=
  match w.tinfos winfo with
  | none => some w
  | some cancelled =>
    if cancelled ≠ 0 then some w
    else
      match w.iom.cancelEvent fd.toNat event rt with
      | none => none
      | some r =>
        some { w with tinfos := Function.update w.tinfos winfo (some ETIMEDOUT), iom := r.1 }

/-- The call of the callable with index `cb`.  `onTimer(weak_cond, cb)` calls `cb` if the
object of `weak_cond` still exists; the fuel bounds the nesting of such calls.  `none` is
a failed assertion, a call through a null pointer, an index that is no callable, or fuel
that did not suffice. -/
def HookWorld.runClosure (w : HookWorld) (rt : Int) : Nat → Cb → Option HookWorld
  | 0, _ => none
  | fuel + 1, cb =>
    match w.closures[cb]? with
    | none => none
    | some (.wake fiber iom thread) =>
      let s := ((w.iom.scheds iom).schedulerLock (.fiber (some fiber)) thread).1
      some { w with iom := { w.iom with scheds := Function.update w.iom.scheds iom s } }
    | some (.connectTimeout winfo fd) => w.onTimeout rt winfo fd IOManager.WRITE
    | some (.ioTimeout winfo fd event) => w.onTimeout rt winfo fd event
    | some (.onTimer weak_cond cb1) =>
      if (w.tinfos weak_cond).isSome then w.runClosure rt fuel cb1 else some w

/-- The statement `if (timer) { timer->cancel(); }`. -/
def HookWorld.cancelTimer (w : HookWorld) (timer : Option Nat) : HookWorld :=
  match timer with
  | some t => { w with timers := (w.timers.cancel t).1 }
  | none => w

/-- The end of the scope of `tinfo`: the `timer_info` object is destroyed. -/
def HookWorld.dropTinfo (w : HookWorld) (tinfo : Nat) : HookWorld :=
  { w with tinfos := Function.update w.tinfos tinfo none }

/-- The end of `connect_with_timeout`, from `int error = 0;` on: `SO_ERROR` is read with
`getsockopt`. -/
def connectTail (w : HookWorld) (os : Nat → RawCall → RawRet) (fd : Int) (tinfo : Nat) :
    Option (HookWorld × Int) :=
  let r := w.raw os (.getsockopt fd SOL_SOCKET SO_ERROR 0 0)
  if r.2.ret = -1 then some (r.1.dropTinfo tinfo, -1)
  else if r.2.out = 0 then some (r.1.dropTinfo tinfo, 0)
  else some ({ r.1.dropTinfo tinfo with errno := r.2.out }, -1)

/-- Source `connect_with_timeout(fd, addr, addrlen, timeout_ms)` up to its `yield`.  `now`
is the clock read of the timer, `junk` the uninitialised member of a thread-main fiber
made by `getThis`, and `rt` the result of the `epoll_ctl` call of `addEvent`. -/
def connect_with_timeout (w : HookWorld) (os : Nat → RawCall → RawRet) (now : Int)
    (junk : Bool) (rt : Int) (fd : Int) (addr addrlen : Nat) (timeout_ms : Nat) :
    Option (HookWorld × HookResult) :=
  if w.t_hook_enable = false then w.passThrough os (.connect fd addr addrlen)
  else
    match (FdMgr.get w.fdmgr fd false).2 with
    | none => some ({ w with errno := EBADF }, .returned (-1))
    | some ctx =>
      if ctx.m_isClosed then some ({ w with errno := EBADF }, .returned (-1))
      else if !ctx.m_isSocket then w.passThrough os (.connect fd addr addrlen)
      else if ctx.m_userNonblock then w.passThrough os (.connect fd addr addrlen)
      else
        let r := w.raw os (.connect fd addr addrlen)
        if r.2.ret = 0 then some (r.1, .returned 0)
        else if r.2.ret ≠ -1 ∨ r.1.errno ≠ EINPROGRESS then some (r.1, .returned r.2.ret)
        else
          match r.1.t_iom with
          | none => none
          | some k =>
            let tinfo := r.1.nextTinfo
            let w1 : HookWorld :=
              { r.1 with tinfos := Function.update r.1.tinfos tinfo (some 0),
                         nextTinfo := tinfo + 1 }
            let armed : HookWorld × Option Nat :=
              if timeout_ms ≠ U64_MAX then
                let w2 : HookWorld :=
                  { w1 with closures := w1.closures ++ [Closure.connectTimeout tinfo fd] }
                let t := w2.addConidtionTimer now timeout_ms w1.closures.length tinfo false
                (t.1, some t.2)
              else (w1, none)
            let g := Fiber.getThis armed.1.env junk
            match armed.1.iom.addEvent fd.toNat IOManager.WRITE none rt (some k) g.2
                (g.1.fibers g.2).m_state with
            | none => none
            | some a =>
              if a.2 = 0 then
                match Fiber.yield g.1 g.2 with
                | none => none
                | some env1 =>
                  some ({ armed.1 with iom := a.1, env := env1 },
                        .yielded (.connect fd armed.2 tinfo))
              else
                let w3 : HookWorld := { armed.1 with iom := a.1 }
                (connectTail (w3.cancelTimer armed.2) os fd tinfo).map
                  (fun x => (x.1, .returned x.2))

/-- Source `connect_with_timeout` behind its `yield`, run when the fiber is resumed. -/
def connectResume (w : HookWorld) (os : Nat → RawCall → RawRet) (fd : Int)
    (timer : Option Nat) (tinfo : Nat) : Option (HookWorld × Int) :=
  let w1 := w.cancelTimer timer
  match w1.tinfos tinfo with
  | none => none
  | some cancelled =>
    if cancelled ≠ 0 then some ({ w1.dropTinfo tinfo with errno := cancelled }, -1)
    else connectTail w1 os fd tinfo

/-- Source `static uint64_t s_connect_timeout = -1;`, which nothing assigns to. -/
def s_connect_timeout : Nat := U64_MAX

/-- Source `connect(sockfd, addr, addrlen)`. -/
def connect (w : HookWorld) (os : Nat → RawCall → RawRet) (now : Int) (junk : Bool)
    (rt : Int) (sockfd : Int) (addr addrlen : Nat) : Option (HookWorld × HookResult) :=
  connect_with_timeout w os now junk rt sockfd addr addrlen s_connect_timeout

/-- The loop `n = fun(fd, args...); while (n == -1 && errno == EINTR) n = fun(fd,
args...);` of `do_io`; the fuel bounds the number of calls. -/
def rawRetry (os : Nat → RawCall → RawRet) (c : RawCall) :
    Nat → HookWorld → Option (HookWorld × RawRet)
  | 0, _ => none
  | fuel + 1, w =>
    let r := w.raw os c
    if r.2.ret = -1 ∧ r.1.errno = EINTR then rawRetry os c fuel r.1 else some r

/-- Source `do_io` from the label `retry` up to its `yield` or `return`. -/
def doIoRetry (w : HookWorld) (os : Nat → RawCall → RawRet) (now : Int) (junk : Bool)
    (rt : Int) (fuel : Nat) (fn : IoFn) (fd : Int) (event : Nat) (timeout : Nat)
    (args : List Nat) (tinfo : Nat) : Option (HookWorld × HookResult) :=
  match rawRetry os (.io fn fd args) fuel w with
  | none => none
  | some r =>
    if r.2.ret = -1 ∧ r.1.errno = EAGAIN then
      match r.1.t_iom with
      | none => none
      | some k =>
        let armed : HookWorld × Option Nat :=
          if timeout ≠ U64_MAX then
            let w2 : HookWorld :=
              { r.1 with closures := r.1.closures ++ [Closure.ioTimeout tinfo fd event] }
            let t := w2.addConidtionTimer now timeout r.1.closures.length tinfo false
            (t.1, some t.2)
          else (r.1, none)
        let g := Fiber.getThis armed.1.env junk
        match armed.1.iom.addEvent fd.toNat event none rt (some k) g.2
            (g.1.fibers g.2).m_state with
        | none => none
        | some a =>
          if a.2 ≠ 0 then
            let w3 : HookWorld := { armed.1 with iom := a.1 }
            some ((w3.cancelTimer armed.2).dropTinfo tinfo, .returned (-1))
          else
            match Fiber.yield g.1 g.2 with
            | none => none
            | some env1 =>
              some ({ armed.1 with iom := a.1, env := env1 },
                    .yielded (.io fn fd args event timeout armed.2 tinfo))
    else some (r.1.dropTinfo tinfo, .returned r.2.ret)

/-- Source `do_io(fd, fun, hook_fun_name, event, timeout_so, args...)` up to its first
`yield` or `return`; `fn` names the original `fun`. -/
def do_io (w : HookWorld) (os : Nat → RawCall → RawRet) (now : Int) (junk : Bool)
    (rt : Int) (fuel : Nat) (fn : IoFn) (fd : Int) (event : Nat) (timeout_so : Int)
    (args : List Nat) : Option (HookWorld × HookResult) :=
  if w.t_hook_enable = false then w.passThrough os (.io fn fd args)
  else
    match (FdMgr.get w.fdmgr fd false).2 with
    | none => w.passThrough os (.io fn fd args)
    | some ctx =>
      if ctx.m_isClosed then some ({ w with errno := EBADF }, .returned (-1))
      else if !ctx.m_isSocket || ctx.m_userNonblock then w.passThrough os (.io fn fd args)
      else
        let tinfo := w.nextTinfo
        let w1 : HookWorld :=
          { w with tinfos := Function.update w.tinfos tinfo (some 0),
                   nextTinfo := tinfo + 1 }
        doIoRetry w1 os now junk rt fuel fn fd event (ctx.getTimeout timeout_so) args tinfo

/-- Source `do_io` behind its `yield`, run when the fiber is resumed, up to the next
`yield` or `return`. -/
def doIoResume (w : HookWorld) (os : Nat → RawCall → RawRet) (now : Int) (junk : Bool)
    (rt : Int) (fuel : Nat) (fn : IoFn) (fd : Int) (args : List Nat) (event : Nat)
    (timeout : Nat) (timer : Option Nat) (tinfo : Nat) : Option (HookWorld × HookResult) :=
  let w1 := w.cancelTimer timer
  match w1.tinfos tinfo with
  | none => none
  | some cancelled =>
    if cancelled = ETIMEDOUT then
      some ({ w1.dropTinfo tinfo with errno := cancelled }, .returned (-1))
    else doIoRetry w1 os now junk rt fuel fn fd event timeout args tinfo

/-- The statements `if (fd >= 0) { FdMgr::GetInstance()->get(fd, true); } return fd;` of
`accept`, applied to what `do_io` gives. -/
def acceptFinish (r : HookWorld × HookResult) : HookWorld × HookResult :=
  match r.2 with
  | .returned fd =>
    if fd ≥ 0 then ({ r.1 with fdmgr := (FdMgr.get r.1.fdmgr fd true).1 }, .returned fd)
    else r
  | .yielded _ => r

/-- Source `accept(sockfd, addr, addrlen)`. -/
def accept (w : HookWorld) (os : Nat → RawCall → RawRet) (now : Int) (junk : Bool)
    (rt : Int) (fuel : Nat) (sockfd : Int) (addr addrlen : Nat) :
    Option (HookWorld × HookResult) :=
  (do_io w os now junk rt fuel .accept sockfd IOManager.READ SO_RCVTIMEO
    [addr, addrlen]).map acceptFinish

/-- Source `read(fd, buf, count)`. -/
def read (w : HookWorld) (os : Nat → RawCall → RawRet) (now : Int) (junk : Bool)
    (rt : Int) (fuel : Nat) (fd : Int) (buf count : Nat) : Option (HookWorld × HookResult) :=
  do_io w os now junk rt fuel .read fd IOManager.READ SO_RCVTIMEO [buf, count]

/-- Source `readv(fd, iov, iovcnt)`. -/
def readv (w : HookWorld) (os : Nat → RawCall → RawRet) (now : Int) (junk : Bool)
    (rt : Int) (fuel : Nat) (fd : Int) (iov iovcnt : Nat) :
    Option (HookWorld × HookResult) :=
  do_io w os now junk rt fuel .readv fd IOManager.READ SO_RCVTIMEO [iov, iovcnt]

/-- Source `recv(sockfd, buf, len, flags)`. -/
def recv (w : HookWorld) (os : Nat → RawCall → RawRet) (now : Int) (junk : Bool)
    (rt : Int) (fuel : Nat) (sockfd : Int) (buf len flags : Nat) :
    Option (HookWorld × HookResult) :=
  do_io w os now junk rt fuel .recv sockfd IOManager.READ SO_RCVTIMEO [buf, len, flags]

/-- Source `recvfrom(sockfd, buf, len, flags, src_addr, addrlen)`. -/
def recvfrom (w : HookWorld) (os : Nat → RawCall → RawRet) (now : Int) (junk : Bool)
    (rt : Int) (fuel : Nat) (sockfd : Int) (buf len flags src_addr addrlen : Nat) :
    Option (HookWorld × HookResult) :=
  do_io w os now junk rt fuel .recvfrom sockfd IOManager.READ SO_RCVTIMEO
    [buf, len, flags, src_addr, addrlen]

/-- Source `recvmsg(sockfd, msg, flags)`. -/
def recvmsg (w : HookWorld) (os : Nat → RawCall → RawRet) (now : Int) (junk : Bool)
    (rt : Int) (fuel : Nat) (sockfd : Int) (msg flags : Nat) :
    Option (HookWorld × HookResult) :=
  do_io w os now junk rt fuel .recvmsg sockfd IOManager.READ SO_RCVTIMEO [msg, flags]

/-- Source `write(fd, buf, count)`. -/
def write (w : HookWorld) (os : Nat → RawCall → RawRet) (now : Int) (junk : Bool)
    (rt : Int) (fuel : Nat) (fd : Int) (buf count : Nat) : Option (HookWorld × HookResult) :=
  do_io w os now junk rt fuel .write fd IOManager.WRITE SO_SNDTIMEO [buf, count]

/-- Source `writev(fd, iov, iovcnt)`. -/
def writev (w : HookWorld) (os : Nat → RawCall → RawRet) (now : Int) (junk : Bool)
    (rt : Int) (fuel : Nat) (fd : Int) (iov iovcnt : Nat) :
    Option (HookWorld × HookResult) :=
  do_io w os now junk rt fuel .writev fd IOManager.WRITE SO_SNDTIMEO [iov, iovcnt]

/-- Source `send(sockfd, buf, len, flags)`. -/
def send (w : HookWorld) (os : Nat → RawCall → RawRet) (now : Int) (junk : Bool)
    (rt : Int) (fuel : Nat) (sockfd : Int) (buf len flags : Nat) :
    Option (HookWorld × HookResult) :=
  do_io w os now junk rt fuel .send sockfd IOManager.WRITE SO_SNDTIMEO [buf, len, flags]

/-- Source `sendto(sockfd, buf, len, flags, dest_addr, addrlen)`. -/
def sendto (w : HookWorld) (os : Nat → RawCall → RawRet) (now : Int) (junk : Bool)
    (rt : Int) (fuel : Nat) (sockfd : Int) (buf len flags dest_addr addrlen : Nat) :
    Option (HookWorld × HookResult) :=
  do_io w os now junk rt fuel .sendto sockfd IOManager.WRITE SO_SNDTIMEO
    [buf, len, flags, dest_addr, addrlen]

/-- Source `sendmsg(sockfd, msg, flags)`. -/
def sendmsg (w : HookWorld) (os : Nat → RawCall → RawRet) (now : Int) (junk : Bool)
    (rt : Int) (fuel : Nat) (sockfd : Int) (msg flags : Nat) :
    Option (HookWorld × HookResult) :=
  do_io w os now junk rt fuel .sendmsg sockfd IOManager.WRITE SO_SNDTIMEO [msg, flags]

/-- A call of one of the intercepted functions with the arguments of the caller. -/
inductive HookCall where
  | sleep (seconds : Nat)
  | usleep (usec : Nat)
  | nanosleep (tv_sec tv_nsec : Int) (rem : Nat)
  | socket (domain type protocol : Int)
  | connect (sockfd : Int) (addr addrlen : Nat)
  | accept (sockfd : Int) (addr addrlen : Nat)
  | read (fd : Int) (buf count : Nat)
  | readv (fd : Int) (iov iovcnt : Nat)
  | recv (sockfd : Int) (buf len flags : Nat)
  | recvfrom (sockfd : Int) (buf len flags src_addr addrlen : Nat)
  | recvmsg (sockfd : Int) (msg flags : Nat)
  | write (fd : Int) (buf count : Nat)
  | writev (fd : Int) (iov iovcnt : Nat)
  | send (sockfd : Int) (buf len flags : Nat)
  | sendto (sockfd : Int) (buf len flags dest_addr addrlen : Nat)
  | sendmsg (sockfd : Int) (msg flags : Nat)
  | close (fd : Int)
  | fcntl (fd cmd : Int) (arg : Option Int)
  | ioctl (fd : Int) (request : Nat) (arg : Nat) (pointee : Int)
  | getsockopt (sockfd level optname : Int) (optval optlen : Nat)
  | setsockopt (sockfd level optname : Int) (optval : Nat) (tv_sec tv_usec : Int)
      (optlen : Nat)
  deriving DecidableEq, Repr

/-- The intercepted function that a call names, applied to the arguments of the call. -/
def HookCall.run (w : HookWorld) (os : Nat → RawCall → RawRet) (now : Int) (junk : Bool)
    (rt : Int) (fuel : Nat) : HookCall → Option (HookWorld × HookResult)
  | .sleep seconds => john.sleep w os now junk seconds
  | .usleep usec => john.usleep w os now junk usec
  | .nanosleep tv_sec tv_nsec rem => john.nanosleep w os now junk tv_sec tv_nsec rem
  | .socket domain type protocol => john.socket w os domain type protocol
  | .connect sockfd addr addrlen => john.connect w os now junk rt sockfd addr addrlen
  | .accept sockfd addr addrlen => john.accept w os now junk rt fuel sockfd addr addrlen
  | .read fd buf count => john.read w os now junk rt fuel fd buf count
  | .readv fd iov iovcnt => john.readv w os now junk rt fuel fd iov iovcnt
  | .recv sockfd buf len flags => john.recv w os now junk rt fuel sockfd buf len flags
  | .recvfrom sockfd buf len flags src_addr addrlen =>
    john.recvfrom w os now junk rt fuel sockfd buf len flags src_addr addrlen
  | .recvmsg sockfd msg flags => john.recvmsg w os now junk rt fuel sockfd msg flags
  | .write fd buf count => john.write w os now junk rt fuel fd buf count
  | .writev fd iov iovcnt => john.writev w os now junk rt fuel fd iov iovcnt
  | .send sockfd buf len flags => john.send w os now junk rt fuel sockfd buf len flags
  | .sendto sockfd buf len flags dest_addr addrlen =>
    john.sendto w os now junk rt fuel sockfd buf len flags dest_addr addrlen
  | .sendmsg sockfd msg flags => john.sendmsg w os now junk rt fuel sockfd msg flags
  | .close fd => john.close w os rt fd
  | .fcntl fd cmd arg => john.fcntl w os fd cmd arg
  | .ioctl fd request arg pointee => john.ioctl w os fd request arg pointee
  | .getsockopt sockfd level optname optval optlen =>
    john.getsockopt w os sockfd level optname optval optlen
  | .setsockopt sockfd level optname optval tv_sec tv_usec optlen =>
    john.setsockopt w os sockfd level optname optval tv_sec tv_usec optlen

/-- The call of the original of the same name with the arguments of the caller
unchanged. -/
def HookCall.original : HookCall → RawCall
  | .sleep seconds => .sleep seconds
  | .usleep usec => .usleep usec
  | .nanosleep tv_sec tv_nsec rem => .nanosleep tv_sec tv_nsec rem
  | .socket domain type protocol => .socket domain type protocol
  | .connect sockfd addr addrlen => .connect sockfd addr addrlen
  | .accept sockfd addr addrlen => .io .accept sockfd [addr, addrlen]
  | .read fd buf count => .io .read fd [buf, count]
  | .readv fd iov iovcnt => .io .readv fd [iov, iovcnt]
  | .recv sockfd buf len flags => .io .recv sockfd [buf, len, flags]
  | .recvfrom sockfd buf len flags src_addr addrlen =>
    .io .recvfrom sockfd [buf, len, flags, src_addr, addrlen]
  | .recvmsg sockfd msg flags => .io .recvmsg sockfd [msg, flags]
  | .write fd buf count => .io .write fd [buf, count]
  | .writev fd iov iovcnt => .io .writev fd [iov, iovcnt]
  | .send sockfd buf len flags => .io .send sockfd [buf, len, flags]
  | .sendto sockfd buf len flags dest_addr addrlen =>
    .io .sendto sockfd [buf, len, flags, dest_addr, addrlen]
  | .sendmsg sockfd msg flags => .io .sendmsg sockfd [msg, flags]
  | .close fd => .close fd
  | .fcntl fd cmd arg => .fcntl fd cmd arg
  | .ioctl fd request arg pointee => .ioctl fd request arg pointee
  | .getsockopt sockfd level optname optval optlen =>
    .getsockopt sockfd level optname optval optlen
  | .setsockopt sockfd level optname optval tv_sec tv_usec optlen =>
    .setsockopt sockfd level optname optval tv_sec tv_usec optlen

/-- The pass-through of the specification: the original is called once, with the arguments
of the caller unchanged, its result is returned, `errno` is what the original leaves, and
nothing else changes, the table of fd contexts included. -/
def HookCall.passThroughSpec (c : HookCall) (w : HookWorld) (os : Nat → RawCall → RawRet) :
    Option (HookWorld × HookResult) :=
  some ({ w with rawCalls := w.rawCalls ++ [c.original],
                 errno := (os w.rawCalls.length c.original).err },
        .returned (os w.rawCalls.length c.original).ret)

/-- The descriptor has a context of an open socket in the table. -/
def hookedSocket (w : HookWorld) (fd : Int) : Bool :=
  match w.fdmgr fd with
  | some ctx => !ctx.m_isClosed && ctx.m_isSocket
  | none => false

/-- The commands of `fcntl` whose case reads the variadic argument. -/
def fcntlTakesArg (cmd : Int) : Bool :=
  decide (cmd = F_SETFL ∨ cmd = F_DUPFD ∨ cmd = F_DUPFD_CLOEXEC ∨ cmd = F_SETFD
    ∨ cmd = F_SETOWN ∨ cmd = F_SETSIG ∨ cmd = F_SETLEASE ∨ cmd = F_NOTIFY
    ∨ cmd = F_SETPIPE_SZ ∨ cmd = F_SETLK ∨ cmd = F_SETLKW ∨ cmd = F_GETLK
    ∨ cmd = F_GETOWN_EX ∨ cmd = F_SETOWN_EX)

/-- The calls that the flag `t_hook_enable` gates: every intercepted function but `accept`,
and of `fcntl` and `ioctl`, which do not read the flag, the calls that pass an argument
exactly when the command has a case that reads one and that are not `F_SETFL`, `F_GETFL`
or `FIONBIO` on a descriptor with the context of an open socket. -/
def HookCall.gated (w : HookWorld) : HookCall → Bool
  | .accept _ _ _ => false
  | .fcntl fd cmd arg =>
    (arg.isSome == fcntlTakesArg cmd)
      && (!hookedSocket w fd || decide (cmd ≠ F_SETFL ∧ cmd ≠ F_GETFL))
  | .ioctl fd request _ _ => !hookedSocket w fd || decide (request ≠ FIONBIO)
  | _ => true

/-- An environment in which `socket` returns the descriptor 3, `connect` reports
`EINPROGRESS`, and every other original returns 0. -/
def hookSampleOs : Nat → RawCall → RawRet := fun _ c =>
  match c with
  | .socket _ _ _ => { ret := 3, err := 0, out := 0 }
  | .connect _ _ _ => { ret := -1, err := EINPROGRESS, out := 0 }
  | _ => { ret := 0, err := 0, out := 0 }

/-- An environment in which `socket` returns the descriptor 3, `accept` the descriptor 4,
`fcntl` the value 2050 (`O_RDWR | O_NONBLOCK`), and every other original returns 0. -/
def hookFlagsOs : Nat → RawCall → RawRet := fun _ c =>
  match c with
  | .socket _ _ _ => { ret := 3, err := 0, out := 0 }
  | .io .accept _ _ => { ret := 4, err := 0, out := 0 }
  | .fcntl _ _ _ => { ret := 2050, err := 0, out := 0 }
  | _ => { ret := 0, err := 0, out := 0 }

/-- A worker of a manager (scheduler object 0) with hooking on, running the child fiber 1
of `fiberSample`; no descriptor has a context, no timer is set, no event registered. -/
def hookSample : HookWorld :=
  { t_hook_enable := true, errno := 0, fdmgr := fun _ => none, rawCalls := [],
    t_iom := some 0, timers := TimerManager.create 0, iom := ioEmptySample,
    env := fiberSample, closures := [], tinfos := fun _ => none, nextTinfo := 0 }

/-- The world `hookSample` after `socket(AF_INET, SOCK_STREAM, 0)`, which returns 3. -/
def hookSocketSample : HookWorld :=
  ((socket hookSample hookSampleOs 2 1 0).getD (hookSample, .returned 0)).1

/-- The world `hookSocketSample` after `setsockopt(3, SOL_SOCKET, SO_SNDTIMEO, &tv,
sizeof tv)` with `tv` of 0 s and 100000 us, 100 ms. -/
def hookTimeoutSample : HookWorld :=
  ((setsockopt hookSocketSample hookSampleOs 3 SOL_SOCKET SO_SNDTIMEO 0 0 100000 16).getD
    (hookSocketSample, .returned 0)).1

/-- The world `hookSocketSample` after `set_hook_enable(false)`. -/
def hookOffSample : HookWorld := set_hook_enable hookSocketSample false

/-- The manager of `hookSocketSample` after `addEvent(3, WRITE)` for the running fiber 1. -/
def hookWriteSample : IOManager :=
  ((ioEmptySample.addEvent 3 IOManager.WRITE none 0 (some 0) 1 .RUNING).getD
    (ioEmptySample, 0)).1

/-! ## Further samples -/

/-- A sequence of `addTimer(ms, cb, recurring)` calls, each with its clock read: the
manager afterwards and the number of calls of `timerInsertedAtFront()`. -/
def TimerManager.addTimers (s : TimerManager) :
    List (Int × Nat × Option Cb × Bool) → TimerManager × Nat
  | [] => (s, 0)
  | a :: rest =>
    ((TimerManager.addTimers (s.addTimer a.1 a.2.1 a.2.2.1 a.2.2.2).1 rest).1,
     (if (s.addTimer a.1 a.2.1 a.2.2.1 a.2.2.2).2.2 then 1 else 0)
       + (TimerManager.addTimers (s.addTimer a.1 a.2.1 a.2.2.1 a.2.2.2).1 rest).2)

/-- A manager that holds one one-shot timer of 1 s created at clock value 0 (handle 0,
callback 0), after a `getNextTimer` call has cleared `m_tickled`. -/
def sampleFrontUntickled : TimerManager :=
  (((TimerManager.create 0).addTimer 0 1000 (some 0) false).1.getNextTimer 0).1

/-- A manager that holds one recurring timer of interval 0, created at clock value 0. -/
def sampleZeroInterval : TimerManager :=
  ((TimerManager.create 0).addTimer 0 0 (some 0) true).1

/-- A scheduler whose queue holds a task pinned to thread 7, a task for any thread and a
task pinned to thread 5, with two active workers. -/
def sampleAffinity : Scheduler :=
  { sampleScheduler with
    m_tasks := [{ fiber := some 1, cb := none, thread := 7 },
                { fiber := none, cb := some 8, thread := -1 },
                { fiber := some 2, cb := none, thread := 5 }]
    m_active_thread_count := 2 }

/-! ## Several dispatchers and the mutex of a fiber

`Scheduler::run` resumes the fiber of a task under `std::lock_guard<std::mutex>
lock(task.fiber->m_mutex)` (`3scheduler/scheduler.cpp`, lines 132-137 and 143-146): the
mutex is taken before the state of the fiber is read, and it is released when `resume()`
has returned, that is when the fiber has yielded or ended.  The dispatchers of one
scheduler are threads whose steps interleave.  A step is a call of `schedulerLock` by any
thread, the critical section of a dispatcher, the block of a dispatcher from its
`lock_guard` to the switch into the fiber, or the return of a fiber to its dispatcher.
Of a fiber object the steps read and write the state word `m_state` and the mutex; the
contexts and the thread-local pointers are those of `Fiber.resume` and `Fiber.yield`.
The idle fiber of a dispatcher is an object of its own `run()` and is not followed. -/

/-- Where a dispatcher stands: outside step 3, at the `lock_guard` of the fiber task it
has taken, or inside `resume()` of a fiber, whose mutex it holds. -/
inductive Worker where
  | loop
  | waiting (f : Nat)
  | inside (f : Nat)
  deriving DecidableEq, Repr

/-- The scheduler with its dispatchers: the state word of every fiber object, the
allocation counter of the fiber objects, the thread that holds `m_mutex` of each fiber,
and where each thread stands. -/
structure Pool where
  sched : Scheduler
  state : Nat → Fiber.State
  nextFiber : Nat
  m_mutex : Nat → Option Int
  workers : Int → Worker

/-- The outcome of a step: the new state, or the step cannot be taken now (the thread is
not at that point, or it waits for a mutex), or an assertion fails. -/
inductive PoolResult where
  | ok (p : Pool)
  | blocked
  | aborted

/-- A call `schedulerLock(fc, thread)` by any thread; a pointer to a fiber is a pointer
to an existing fiber object. -/
def Pool.schedulerLock (p : Pool) (fc : FiberOrCb) (thread : Int) : PoolResult :=
  match fc with
  | .fiber (some f) =>
    if f < p.nextFiber then .ok { p with sched := (p.sched.schedulerLock fc thread).1 }
    else .blocked
  | _ => .ok { p with sched := (p.sched.schedulerLock fc thread).1 }

/-- The critical section of the dispatcher `w` (lines 102-123).  With a fiber task the
dispatcher goes to the `lock_guard` of that fiber.  With a callback task it makes the
fiber `cb_fiber`, which no other thread knows, takes its mutex and calls `resume()` on
it: the constructor has set the state `READY`, which `resume()` asserts and replaces by
`RUNING`.  With no task it resumes its idle fiber and comes back to the loop. -/
def Pool.take (p : Pool) (w : Int) : PoolResult :=
  match p.workers w with
  | .loop =>
    match p.sched.takeTask w with
    | none => .aborted
    | some r =>
      match r.2.1.fiber with
      | some f =>
        .ok { p with sched := r.1, workers := Function.update p.workers w (.waiting f) }
      | none =>
        match r.2.1.cb with
        | some _ =>
          .ok { p with sched := r.1,
                       state := Function.update p.state p.nextFiber .RUNING,
                       nextFiber := p.nextFiber + 1,
                       m_mutex := Function.update p.m_mutex p.nextFiber (some w),
                       workers := Function.update p.workers w (.inside p.nextFiber) }
        | none => .ok { p with sched := r.1 }
  | _ => .blocked

/-- The block `{ lock_guard lock(task.fiber->m_mutex); if (task.fiber->getState() !=
Fiber::TERM) task.fiber->resume(); }` of the dispatcher `w` up to the switch into the
fiber (lines 132-137), and for a fiber that is `TERM` up to `m_active_thread_count--` (line
138).  While another thread holds the mutex the dispatcher waits.  `resume()` asserts
`m_state == READY`. -/
def Pool.enter (p : Pool) (w : Int) : PoolResult :=
  match p.workers w with
  | .waiting f =>
    match p.m_mutex f with
    | some _ => .blocked
    | none =>
      if p.state f ≠ .TERM then
        if p.state f = .READY then
          .ok { p with state := Function.update p.state f .RUNING,
                       m_mutex := Function.update p.m_mutex f (some w),
                       workers := Function.update p.workers w (.inside f) }
        else .aborted
      else
        let s1 : Scheduler :=
          { p.sched with
            m_active_thread_count := counterDec p.sched.m_active_thread_count }
        .ok { p with sched := s1, workers := Function.update p.workers w .loop }
  | _ => .blocked

/-- The fiber that runs on the dispatcher `w` comes back: it calls `yield()`, or its
function has ended (`ended`) and `fiberFunc` sets `TERM` and calls `yield()`; then
`resume()` returns, the `lock_guard` releases the mutex, and the dispatcher executes
`m_active_thread_count--`.  `yield()` asserts `m_state == RUNING || m_state == TERM`. -/
def Pool.back (p : Pool) (w : Int) (ended : Bool) : PoolResult :=
  match p.workers w with
  | .inside f =>
    let st := if ended then Fiber.State.TERM else p.state f
    if st = .RUNING ∨ st = .TERM then
      let s1 : Scheduler :=
        { p.sched with
          m_active_thread_count := counterDec p.sched.m_active_thread_count }
      .ok { p with sched := s1,
                   state := Function.update p.state f (if st ≠ .TERM then .READY else st),
                   m_mutex := Function.update p.m_mutex f none,
                   workers := Function.update p.workers w .loop }
    else .aborted
  | _ => .blocked

/-- A thread constructs a child fiber (`Fiber::Fiber(cb, stacksize, run_in_scheduler)`):
a new fiber object in state `READY` whose mutex is free. -/
def Pool.create (p : Pool) : PoolResult :=
  .ok { p with state := Function.update p.state p.nextFiber .READY,
               nextFiber := p.nextFiber + 1,
               m_mutex := Function.update p.m_mutex p.nextFiber none }

/-- One step of one thread. -/
inductive PoolOp where
  | create
  | schedulerLock (fc : FiberOrCb) (thread : Int)
  | take (w : Int)
  | enter (w : Int)
  | back (w : Int) (ended : Bool)
  deriving DecidableEq, Repr

/-- Run one step. -/
def Pool.step (p : Pool) : PoolOp → PoolResult
  | .create => p.create
  | .schedulerLock fc thread => p.schedulerLock fc thread
  | .take w => p.take w
  | .enter w => p.enter w
  | .back w ended => p.back w ended

/-- Run an interleaving of steps from left to right; a step that cannot be taken, or that
aborts, ends the run with that outcome. -/
def Pool.run (p : Pool) : List PoolOp → PoolResult
  | [] => .ok p
  | op :: ops =>
    match p.step op with
    | .ok q => Pool.run q ops
    | .blocked => .blocked
    | .aborted => .aborted

/-- Every fiber that is `RUNING` is inside the `resume()` of a dispatcher, which holds its
mutex; the fibers named by dispatchers and tasks exist; no task is empty. -/
def Pool.Inv (p : Pool) : Prop :=
  (∀ f, p.state f = .RUNING → ∃ w, p.workers w = .inside f)
    ∧ (∀ w f, p.workers w = .inside f →
        p.state f = .RUNING ∧ p.m_mutex f = some w ∧ f < p.nextFiber)
    ∧ (∀ w f, p.workers w = .waiting f → f < p.nextFiber)
    ∧ (∀ t ∈ p.sched.m_tasks, ∀ f, t.fiber = some f → f < p.nextFiber)
    ∧ (∀ t ∈ p.sched.m_tasks, t.fiber.isSome = true ∨ t.cb.isSome = true)

theorem clearCb_next (heap : Nat → Timer) (t x : Nat) :
    ((Function.update heap t { heap t with m_cb := none }) x).m_next = (heap x).m_next := by
  by_cases h : x = t
  · subst h; simp
  · simp [Function.update_noteq h]

theorem clearCb_recurring (heap : Nat → Timer) (t x : Nat) :
    ((Function.update heap t { heap t with m_cb := none }) x).m_recurring
      = (heap x).m_recurring := by
  by_cases h : x = t
  · subst h; simp
  · simp [Function.update_noteq h]

theorem SetOrdered.head_ne {heap : Nat → Timer} {t : Nat} {rest : List Nat}
    (h : SetOrdered heap (t :: rest)) : ∀ x ∈ rest, x ≠ t := by
  intro x hx hxt
  have := (List.pairwise_cons.mp h).1 x hx
  subst hxt
  exact lt_irrefl _ this

theorem filter_isDue_nil_of_head_later {heap : Nat → Timer} {now : Int} {t : Nat}
    {rest : List Nat} (h : SetOrdered heap (t :: rest)) (ht : now < (heap t).m_next) :
    (t :: rest).filter (isDue heap now) = []
      ∧ (t :: rest).filter (isLater heap now) = t :: rest := by
  have hall : ∀ x ∈ t :: rest, now < (heap x).m_next := by
    intro x hx
    rcases List.mem_cons.mp hx with h1 | h1
    · subst h1; exact ht
    · exact lt_trans ht ((List.pairwise_cons.mp h).1 x h1)
  constructor
  · apply List.filter_eq_nil_iff.mpr
    intro x hx
    have := hall x hx
    simp [isDue]; exact this
  · apply List.filter_eq_self.mpr
    intro x hx
    have := hall x hx
    simp [isLater]; exact this

/-- One turn of the harvesting loop whose head is a one-shot timer that is popped. -/
theorem harvestLoop_pop_oneshot (now : Int) (rollover : Bool) (f : Nat) (s : TimerManager)
    (cbs : List (Option Cb)) (t : Nat) (rest : List Nat) (hl : s.m_timers = t :: rest)
    (hc : (rollover || decide ((s.heap t).m_next ≤ now)) = true)
    (hrec : (s.heap t).m_recurring = false) :
    TimerManager.harvestLoop now rollover (f + 1) s cbs
      = TimerManager.harvestLoop now rollover f
          { s with heap := Function.update s.heap t { s.heap t with m_cb := none },
                   m_timers := rest } (cbs ++ [(s.heap t).m_cb]) := by
  rw [TimerManager.harvestLoop]
  simp only [hl]
  rw [if_pos hc, if_neg (by simp [hrec])]

/-- One turn of the harvesting loop whose head is a recurring timer that is popped. -/
theorem harvestLoop_pop_recurring (now : Int) (rollover : Bool) (f : Nat)
    (s : TimerManager) (cbs : List (Option Cb)) (t : Nat) (rest : List Nat)
    (hl : s.m_timers = t :: rest)
    (hc : (rollover || decide ((s.heap t).m_next ≤ now)) = true)
    (hrec : (s.heap t).m_recurring = true) :
    TimerManager.harvestLoop now rollover (f + 1) s cbs
      = TimerManager.harvestLoop now rollover f
          { s with
            heap := Function.update s.heap t
              { s.heap t with m_next := tpAdd now (msTicks (s.heap t).m_ms) },
            m_timers := (setInsert (Function.update s.heap t
              { s.heap t with m_next := tpAdd now (msTicks (s.heap t).m_ms) }) rest t).1 }
          (cbs ++ [(s.heap t).m_cb]) := by
  rw [TimerManager.harvestLoop]
  simp only [hl]
  rw [if_pos hc, if_pos hrec]

/-- The harvesting loop is left when the set is empty. -/
theorem harvestLoop_empty (now : Int) (rollover : Bool) (f : Nat) (s : TimerManager)
    (cbs : List (Option Cb)) (hl : s.m_timers = []) :
    TimerManager.harvestLoop now rollover (f + 1) s cbs = some (s, cbs) := by
  rw [TimerManager.harvestLoop]
  simp only [hl]

/-- The harvesting loop is left when the head is not due and no rollback was detected. -/
theorem harvestLoop_stop (now : Int) (f : Nat) (s : TimerManager)
    (cbs : List (Option Cb)) (t : Nat) (rest : List Nat) (hl : s.m_timers = t :: rest)
    (hc : ¬ (s.heap t).m_next ≤ now) :
    TimerManager.harvestLoop now false (f + 1) s cbs = some (s, cbs) := by
  rw [TimerManager.harvestLoop]
  simp only [hl]
  rw [if_neg (by simp [hc])]

/-- The harvesting loop on a set of one-shot timers without rollback: it leaves after
popping exactly the due timers. -/
theorem harvestLoop_oneshot (now : Int) :
    ∀ (l : List Nat) (s : TimerManager) (cbs : List (Option Cb)) (fuel : Nat),
      s.m_timers = l → SetOrdered s.heap l →
      (∀ t ∈ l, (s.heap t).m_recurring = false) → l.length < fuel →
      ∃ s1, TimerManager.harvestLoop now false fuel s cbs
          = some (s1, cbs ++ (l.filter (isDue s.heap now)).map (fun t => (s.heap t).m_cb))
        ∧ s1.m_timers = l.filter (isLater s.heap now)
        ∧ (∀ t ∈ l.filter (isLater s.heap now), s1.heap t = s.heap t)
        ∧ (∀ t, t ∉ l → s1.heap t = s.heap t)
        ∧ s1.m_tickled = s.m_tickled ∧ s1.m_preTime = s.m_preTime
        ∧ s1.nextHandle = s.nextHandle := by
  intro l
  induction l with
  | nil =>
    intro s cbs fuel hl _ _ hf
    obtain ⟨f, rfl⟩ : ∃ f, fuel = f + 1 := ⟨fuel - 1, by simp at hf; omega⟩
    refine ⟨s, ?_, ?_, ?_, ?_, rfl, rfl, rfl⟩
    · rw [harvestLoop_empty now false f s cbs hl]; simp
    · simp [hl]
    · simp
    · simp
  | cons t rest ih =>
    intro s cbs fuel hl hord hnr hf
    obtain ⟨f, rfl⟩ : ∃ f, fuel = f + 1 := ⟨fuel - 1, by simp at hf; omega⟩
    by_cases hdue : (s.heap t).m_next ≤ now
    · -- the head is due: it is popped and the loop goes on with the rest
      have hrec : (s.heap t).m_recurring = false := hnr t (List.mem_cons_self _ _)
      have hne := hord.head_ne
      let heap1 := Function.update s.heap t { s.heap t with m_cb := none }
      have hk : ∀ x, (heap1 x).m_next = (s.heap x).m_next := clearCb_next s.heap t
      have hsame : ∀ x ∈ rest, heap1 x = s.heap x := fun x hx =>
        Function.update_noteq (hne x hx) _ _
      have hord1 : SetOrdered heap1 rest := by
        have := (List.pairwise_cons.mp hord).2
        unfold SetOrdered at this ⊢
        simpa [hk] using this
      have hnr1 : ∀ x ∈ rest, (heap1 x).m_recurring = false := by
        intro x hx
        rw [clearCb_recurring]
        exact hnr x (List.mem_cons_of_mem _ hx)
      obtain ⟨s1, h1, h2, h3, h4, h5, h6, h7⟩ :=
        ih { s with heap := heap1, m_timers := rest } (cbs ++ [(s.heap t).m_cb]) f rfl
          hord1 hnr1 (by simp at hf ⊢; omega)
      have hfd : rest.filter (isDue heap1 now) = rest.filter (isDue s.heap now) := by
        apply List.filter_congr; intro x _; simp [isDue, hk]
      have hfl : rest.filter (isLater heap1 now) = rest.filter (isLater s.heap now) := by
        apply List.filter_congr; intro x _; simp [isLater, hk]
      have hmap : (rest.filter (isDue s.heap now)).map (fun x => (heap1 x).m_cb)
          = (rest.filter (isDue s.heap now)).map (fun x => (s.heap x).m_cb) := by
        apply List.map_congr_left
        intro x hx
        rw [hsame x (List.mem_of_mem_filter hx)]
      have htd : isDue s.heap now t = true := by simp [isDue, hdue]
      have htl : isLater s.heap now t = false := by simp [isLater, hdue]
      refine ⟨s1, ?_, ?_, ?_, ?_, h5, h6, h7⟩
      · rw [harvestLoop_pop_oneshot now false f s cbs t rest hl (by simp [hdue]) hrec, h1]
        simp only [hfd, hmap, List.filter_cons, htd, if_true, List.map_cons,
          List.append_assoc, List.singleton_append]
      · rw [h2, hfl]; simp [List.filter_cons, htl]
      · intro x hx
        simp only [List.filter_cons, htl, Bool.false_eq_true, if_false] at hx
        rw [h3 x (by rw [hfl]; exact hx)]
        exact hsame x (List.mem_of_mem_filter hx)
      · intro x hx
        have hxt : x ≠ t := fun e => hx (e ▸ List.mem_cons_self _ _)
        rw [h4 x (fun hm => hx (List.mem_cons_of_mem _ hm))]
        exact Function.update_noteq hxt _ _
    · -- the head is not due: the loop is left at once
      have hlt : now < (s.heap t).m_next := lt_of_not_ge hdue
      obtain ⟨hd, hk⟩ := filter_isDue_nil_of_head_later hord hlt
      refine ⟨s, ?_, ?_, ?_, ?_, rfl, rfl, rfl⟩
      · rw [harvestLoop_stop now f s cbs t rest hl hdue, hd]; simp
      · rw [hk]; exact hl
      · intro _ _; rfl
      · intro _ _; rfl

/-- C1: on a set of one-shot timers (deadlines strictly ascending in set order, as the
container keeps them) and with no rollback detected, `listExpiredTimerCb` returns, having
appended exactly the callbacks of the timers with deadline at most `now` in ascending
deadline order; it removes exactly those timers and leaves each timer with a later
deadline pending and untouched. -/
theorem listExpiredTimerCb_oneshot_exact (s : TimerManager) (now nowDetect : Int)
    (cbs : List (Option Cb)) (fuel : Nat)
    (hord : SetOrdered s.heap s.m_timers)
    (hnr : ∀ t ∈ s.m_timers, (s.heap t).m_recurring = false)
    (hroll : (s.detectClockRollover nowDetect).2 = false)
    (hfuel : s.m_timers.length < fuel) :
    ∃ s1, s.listExpiredTimerCb fuel now nowDetect cbs
        = some (s1, cbs ++ (s.m_timers.filter (isDue s.heap now)).map
            (fun t => (s.heap t).m_cb))
      ∧ (s.m_timers.filter (isDue s.heap now)).Pairwise
          (fun a b => (s.heap a).m_next < (s.heap b).m_next)
      ∧ s1.m_timers = s.m_timers.filter (isLater s.heap now)
      ∧ (∀ t ∈ s.m_timers, now < (s.heap t).m_next →
          t ∈ s1.m_timers ∧ s1.heap t = s.heap t)
      ∧ (∀ t ∈ s.m_timers, (s.heap t).m_next ≤ now → t ∉ s1.m_timers) := by
  obtain ⟨s1, h1, h2, h3, _, _, _, _⟩ :=
    harvestLoop_oneshot now s.m_timers (s.detectClockRollover nowDetect).1 cbs fuel rfl
      hord hnr hfuel
  refine ⟨s1, ?_, List.Pairwise.filter _ hord, h2, ?_, ?_⟩
  · unfold TimerManager.listExpiredTimerCb
    simp only [hroll]
    exact h1
  · intro t ht hlater
    have hm : t ∈ s.m_timers.filter (isLater s.heap now) :=
      List.mem_filter.mpr ⟨ht, by simp [isLater, hlater]⟩
    exact ⟨h2 ▸ hm, h3 t hm⟩
  · intro t _ hdue hm
    rw [h2] at hm
    have := (List.mem_filter.mp hm).2
    simp [isLater] at this
    exact absurd hdue (not_le.mpr this)

/-- Witness for C1: the three timers of `sampleOneshots` harvested at 2.5 s. -/
theorem listExpiredTimerCb_oneshot_exact_witness :
    SetOrdered sampleOneshots.heap sampleOneshots.m_timers
    ∧ (sampleOneshots.detectClockRollover 2500000000).2 = false
    ∧ (∃ s1, sampleOneshots.listExpiredTimerCb 4 2500000000 2500000000 []
        = some (s1, [] ++ (sampleOneshots.m_timers.filter
            (isDue sampleOneshots.heap 2500000000)).map
              (fun t => (sampleOneshots.heap t).m_cb))
      ∧ (sampleOneshots.m_timers.filter (isDue sampleOneshots.heap 2500000000)).Pairwise
          (fun a b => (sampleOneshots.heap a).m_next < (sampleOneshots.heap b).m_next)
      ∧ s1.m_timers = sampleOneshots.m_timers.filter (isLater sampleOneshots.heap 2500000000)
      ∧ (∀ t ∈ sampleOneshots.m_timers, 2500000000 < (sampleOneshots.heap t).m_next →
          t ∈ s1.m_timers ∧ s1.heap t = sampleOneshots.heap t)
      ∧ (∀ t ∈ sampleOneshots.m_timers, (sampleOneshots.heap t).m_next ≤ 2500000000 →
          t ∉ s1.m_timers))
    ∧ (sampleOneshots.listExpiredTimerCb 4 2500000000 2500000000 []).map
        (fun r => (r.2, r.1.m_timers)) = some ([some 0, some 1], [2]) :=
  ⟨by decide, by decide,
   listExpiredTimerCb_oneshot_exact sampleOneshots 2500000000 2500000000 [] 4
     (by decide) (by decide) (by decide) (by decide), by decide⟩

theorem CbAbsent.update {c : Cb} {q : Nat → Prop} {heap : Nat → Timer}
    (h : CbAbsent c q heap) (t : Nat) (v : Timer) (hv : q t → v.m_cb ≠ some c) :
    CbAbsent c q (Function.update heap t v) := by
  intro x hx
  by_cases hxt : x = t
  · subst hxt; simpa using hv hx
  · rw [Function.update_noteq hxt]; exact h x hx

/-- The harvesting loop creates no callback: it keeps `CbAbsent`, and when no timer at
all holds `c` it appends no `c`. -/
theorem harvestLoop_cbAbsent (c : Cb) (q : Nat → Prop) (now : Int) (rollover : Bool) :
    ∀ (fuel : Nat) (s : TimerManager) (cbs : List (Option Cb)) (s1 : TimerManager)
      (out : List (Option Cb)),
      CbAbsent c q s.heap →
      TimerManager.harvestLoop now rollover fuel s cbs = some (s1, out) →
      CbAbsent c q s1.heap ∧ ((∀ x, q x) → some c ∉ cbs → some c ∉ out) := by
  intro fuel
  induction fuel with
  | zero => intro s cbs s1 out _ h; simp [TimerManager.harvestLoop] at h
  | succ f ih =>
    intro s cbs s1 out hq h
    rw [TimerManager.harvestLoop] at h
    split at h
    · simp only [Option.some.injEq, Prod.mk.injEq] at h
      obtain ⟨rfl, rfl⟩ := h
      exact ⟨hq, fun _ hc => hc⟩
    · rename_i t rest hl
      split at h
      · dsimp only at h
        split at h
        · obtain ⟨h1, h2⟩ := ih _ _ _ _
            (hq.update t { s.heap t with m_next := tpAdd now (msTicks (s.heap t).m_ms) }
              (fun hqt => hq t hqt)) h
          refine ⟨h1, fun hall hc => h2 hall ?_⟩
          simp only [List.mem_append, List.mem_singleton, not_or]
          exact ⟨hc, fun e => hq t (hall t) e.symm⟩
        · obtain ⟨h1, h2⟩ := ih _ _ _ _
            (hq.update t { s.heap t with m_cb := none } (fun _ => by simp)) h
          refine ⟨h1, fun hall hc => h2 hall ?_⟩
          simp only [List.mem_append, List.mem_singleton, not_or]
          exact ⟨hc, fun e => hq t (hall t) e.symm⟩
      · simp only [Option.some.injEq, Prod.mk.injEq] at h
        obtain ⟨rfl, rfl⟩ := h
        exact ⟨hq, fun _ hc => hc⟩

/-- Every operation that does not register `c` keeps `CbAbsent`, and when no timer at
all holds `c` it appends no `c` to the output. -/
theorem exec_cbAbsent (c : Cb) (q : Nat → Prop) (s : TimerManager)
    (cbs : List (Option Cb)) (op : TimerOp) (s1 : TimerManager) (out : List (Option Cb))
    (hq : CbAbsent c q s.heap) (hop : op.registers ≠ some c)
    (h : s.exec cbs op = some (s1, out)) :
    CbAbsent c q s1.heap ∧ ((∀ x, q x) → some c ∉ cbs → some c ∉ out) := by
  cases op with
  | addTimer now ms cb recurring =>
    simp only [TimerManager.exec, Option.some.injEq, Prod.mk.injEq] at h
    obtain ⟨rfl, rfl⟩ := h
    refine ⟨?_, fun _ hc => hc⟩
    simp only [TimerManager.addTimer, TimerManager.addTimerPtr]
    exact hq.update _ _ (fun _ => by simpa [Timer.create, TimerOp.registers] using hop)
  | cancel t =>
    simp only [TimerManager.exec, Option.some.injEq, Prod.mk.injEq] at h
    obtain ⟨rfl, rfl⟩ := h
    refine ⟨?_, fun _ hc => hc⟩
    unfold TimerManager.cancel
    split
    · exact hq
    · dsimp only
      split <;> exact hq.update _ _ (fun _ => by simp)
  | refresh now t =>
    simp only [TimerManager.exec, Option.some.injEq, Prod.mk.injEq] at h
    obtain ⟨rfl, rfl⟩ := h
    refine ⟨?_, fun _ hc => hc⟩
    unfold TimerManager.refresh
    split
    · exact hq
    · split
      · exact hq
      · exact hq.update _ _ (fun hqt => hq t hqt)
  | reset now t ms from_now =>
    simp only [TimerManager.exec, Option.some.injEq, Prod.mk.injEq] at h
    obtain ⟨rfl, rfl⟩ := h
    refine ⟨?_, fun _ hc => hc⟩
    unfold TimerManager.reset
    split
    · exact hq
    · split
      · exact hq
      · split
        · exact hq
        · simp only [TimerManager.addTimerPtr]
          exact hq.update _ _ (fun hqt => hq t hqt)
  | getNextTimer now =>
    simp only [TimerManager.exec, Option.some.injEq, Prod.mk.injEq] at h
    obtain ⟨rfl, rfl⟩ := h
    refine ⟨?_, fun _ hc => hc⟩
    unfold TimerManager.getNextTimer
    dsimp only
    split
    · exact hq
    · split <;> exact hq
  | listExpiredTimerCb fuel now nowDetect =>
    simp only [TimerManager.exec, TimerManager.listExpiredTimerCb] at h
    exact harvestLoop_cbAbsent c q now _ fuel (s.detectClockRollover nowDetect).1 cbs s1 out
      hq h

theorem execAll_cbAbsent (c : Cb) (q : Nat → Prop) :
    ∀ (ops : List TimerOp) (s : TimerManager) (cbs : List (Option Cb)) (s1 : TimerManager)
      (out : List (Option Cb)),
      CbAbsent c q s.heap → (∀ op ∈ ops, op.registers ≠ some c) →
      s.execAll cbs ops = some (s1, out) →
      CbAbsent c q s1.heap ∧ ((∀ x, q x) → some c ∉ cbs → some c ∉ out) := by
  intro ops
  induction ops with
  | nil =>
    intro s cbs s1 out hq _ h
    simp only [TimerManager.execAll, Option.some.injEq, Prod.mk.injEq] at h
    obtain ⟨rfl, rfl⟩ := h
    exact ⟨hq, fun _ hc => hc⟩
  | cons op ops ih =>
    intro s cbs s1 out hq hops h
    rw [TimerManager.execAll] at h
    split at h
    · simp at h
    · rename_i r hr
      obtain ⟨h1, h2⟩ := exec_cbAbsent c q s cbs op r.1 r.2 hq
        (hops op (List.mem_cons_self _ _)) hr
      obtain ⟨h3, h4⟩ := ih r.1 r.2 s1 out h1
        (fun o ho => hops o (List.mem_cons_of_mem _ ho)) h
      exact ⟨h3, fun hall hc => h4 hall (h2 hall hc)⟩

theorem cancel_heap_cb (s : TimerManager) (t : Nat) :
    ((s.cancel t).1.heap t).m_cb = none
    ∧ ∀ x, x ≠ t → (s.cancel t).1.heap x = s.heap x := by
  unfold TimerManager.cancel
  split
  · rename_i h; exact ⟨h, fun _ _ => rfl⟩
  · dsimp only
    split
    · exact ⟨by simp, fun x hx => Function.update_noteq hx _ _⟩
    · exact ⟨by simp, fun x hx => Function.update_noteq hx _ _⟩

/-- C4: a callback `c` held by no other timer is registered with `addTimer`; after any
operations, `cancel` on the returned handle returns true; then whatever operations
follow (additions of other callbacks, cancels, refreshes, resets, queries, harvests at any
clock values), the harvests never append `c`. -/
theorem cancelled_callback_never_harvested (s0 : TimerManager) (c : Cb) (now : Int)
    (ms : Nat) (recurring : Bool) (ops1 ops2 : List TimerOp) (s2 s3 : TimerManager)
    (out1 cbs0 out : List (Option Cb))
    (hfresh : CbAbsent c (fun _ => True) s0.heap)
    (hops1 : ∀ op ∈ ops1, op.registers ≠ some c)
    (hops2 : ∀ op ∈ ops2, op.registers ≠ some c)
    (hrun1 : (s0.addTimer now ms (some c) recurring).1.execAll [] ops1 = some (s2, out1))
    (hcancel : (s2.cancel (s0.addTimer now ms (some c) recurring).2.1).2 = true)
    (hcbs0 : some c ∉ cbs0)
    (hrun2 : (s2.cancel (s0.addTimer now ms (some c) recurring).2.1).1.execAll cbs0 ops2
      = some (s3, out)) :
    some c ∉ out := by
  have _ := hcancel
  have hadd : CbAbsent c (fun x => x ≠ s0.nextHandle)
      (s0.addTimer now ms (some c) recurring).1.heap := by
    intro x hx
    simp only [TimerManager.addTimer, TimerManager.addTimerPtr]
    rw [Function.update_noteq hx]
    exact hfresh x trivial
  have h2 := (execAll_cbAbsent c _ ops1 _ [] s2 out1 hadd hops1 hrun1).1
  have ht : (s0.addTimer now ms (some c) recurring).2.1 = s0.nextHandle := rfl
  rw [ht] at hrun2
  have hc := cancel_heap_cb s2 s0.nextHandle
  have h3 : CbAbsent c (fun _ => True) (s2.cancel s0.nextHandle).1.heap := by
    intro x _
    by_cases hx : x = s0.nextHandle
    · subst hx; rw [hc.1]; simp
    · rw [hc.2 x hx]; exact h2 x hx
  exact (execAll_cbAbsent c _ ops2 _ cbs0 s3 out h3 hops2 hrun2).2 (fun _ => trivial) hcbs0

/-- Witness for C4: timer 0 (callback 7) is cancelled, timer 1 (callback 8) fires. -/
theorem cancelled_callback_never_harvested_witness :
    (cancelSampleMid.cancel 0).2 = true
    ∧ (cancelSampleMid.cancel 0).1.execAll [] [.listExpiredTimerCb 5 30000000 30000000]
        = some (cancelSampleEnd, [some 8])
    ∧ some 7 ∉ [some 8] :=
  ⟨by decide, rfl,
   cancelled_callback_never_harvested (TimerManager.create 0) 7 0 10 false
     [.addTimer 0 20 (some 8) false] [.listExpiredTimerCb 5 30000000 30000000]
     cancelSampleMid cancelSampleEnd [] [] [some 8]
     (fun _ _ => by simp [TimerManager.create]) (by decide) (by decide) rfl (by decide)
     (by decide) rfl⟩

theorem SetOrdered.head_le {heap : Nat → Timer} {t : Nat} {rest : List Nat}
    (h : SetOrdered heap (t :: rest)) :
    ∀ x ∈ t :: rest, (heap t).m_next ≤ (heap x).m_next := by
  intro x hx
  rcases List.mem_cons.mp hx with h1 | h1
  · subst h1; exact le_refl _
  · exact le_of_lt ((List.pairwise_cons.mp h).1 x h1)

/-- C6: `getNextTimer` returns `2^64-1` exactly when the timer set is empty; on a
non-empty set the head is the earliest deadline, the result is 0 when that deadline is at
most `now`, and otherwise it is the whole number of milliseconds in the remaining time.
The remaining time is representable in the clock's signed 64 bit duration. -/
theorem getNextTimer_spec (s : TimerManager) (now : Int)
    (hord : SetOrdered s.heap s.m_timers)
    (hrep : ∀ t ∈ s.m_timers, (s.heap t).m_next - now < 2 ^ 63) :
    ((s.getNextTimer now).2 = U64_MAX ↔ s.m_timers = [])
    ∧ (∀ t rest, s.m_timers = t :: rest →
        (∀ x ∈ s.m_timers, (s.heap t).m_next ≤ (s.heap x).m_next)
        ∧ ((s.heap t).m_next ≤ now → (s.getNextTimer now).2 = 0)
        ∧ (now < (s.heap t).m_next →
            ((s.getNextTimer now).2 : Int) * ticksPerMs ≤ (s.heap t).m_next - now
            ∧ (s.heap t).m_next - now < (((s.getNextTimer now).2 : Int) + 1) * ticksPerMs))
    ∧ (s.getNextTimer now).1.m_tickled = false := by
  unfold TimerManager.getNextTimer
  cases hl : s.m_timers with
  | nil => simp
  | cons t rest =>
    have hr := hrep t (hl ▸ List.mem_cons_self _ _)
    have hhead := (hl ▸ hord : SetOrdered s.heap (t :: rest)).head_le
    dsimp only
    by_cases hdue : now ≥ (s.heap t).m_next
    · rw [if_pos hdue]
      refine ⟨by simp [U64_MAX], ?_, rfl⟩
      intro t1 rest1 h1
      simp only [List.cons.injEq] at h1
      obtain ⟨rfl, rfl⟩ := h1
      exact ⟨hhead, fun _ => rfl, fun h => absurd hdue (not_le.mpr h)⟩
    · rw [if_neg hdue]
      have hpos : 0 < (s.heap t).m_next - now := by omega
      refine ⟨?_, ?_, ?_⟩
      · simp only [U64_MAX, ticksPerMs, reduceCtorEq, iff_false]
        omega
      · intro t1 rest1 h1
        simp only [List.cons.injEq] at h1
        obtain ⟨rfl, rfl⟩ := h1
        refine ⟨hhead, fun h => absurd h hdue, fun _ => ?_⟩
        simp only [ticksPerMs]
        omega
      · rfl

/-- Witness for C6: the three timers of `sampleOneshots` queried at 0.25 s. -/
theorem getNextTimer_spec_witness :
    SetOrdered sampleOneshots.heap sampleOneshots.m_timers
    ∧ ((sampleOneshots.getNextTimer 250000000).2 = U64_MAX ↔ sampleOneshots.m_timers = [])
    ∧ (sampleOneshots.getNextTimer 250000000).2 = 750
    ∧ (∀ t rest, sampleOneshots.m_timers = t :: rest →
        (∀ x ∈ sampleOneshots.m_timers,
          (sampleOneshots.heap t).m_next ≤ (sampleOneshots.heap x).m_next)
        ∧ ((sampleOneshots.heap t).m_next ≤ 250000000 →
            (sampleOneshots.getNextTimer 250000000).2 = 0)
        ∧ (250000000 < (sampleOneshots.heap t).m_next →
            ((sampleOneshots.getNextTimer 250000000).2 : Int) * ticksPerMs
              ≤ (sampleOneshots.heap t).m_next - 250000000
            ∧ (sampleOneshots.heap t).m_next - 250000000
              < (((sampleOneshots.getNextTimer 250000000).2 : Int) + 1) * ticksPerMs))
    ∧ (sampleOneshots.getNextTimer 250000000).1.m_tickled = false :=
  ⟨by decide, (getNextTimer_spec sampleOneshots 250000000 (by decide) (by decide)).1,
   by decide,
   (getNextTimer_spec sampleOneshots 250000000 (by decide) (by decide)).2⟩

/-- C2: evaluation at the failing input.  Two one-shot timers of 1 s are added at the
same clock value.  The first `addTimer` leaves one element in the set, the second returns
the fresh handle 1 but the set still holds handle 0 alone, and a harvest one second after
the common deadline appends callback 0 only. -/
theorem addTimer_equal_deadline_second_dropped :
    ((TimerManager.create 0).addTimer 0 1000 (some 0) false).1.m_timers = [0]
    ∧ sampleEqualDeadlines.2.1 = 1
    ∧ (sampleEqualDeadlines.1.heap 0).m_next = (sampleEqualDeadlines.1.heap 1).m_next
    ∧ sampleEqualDeadlines.1.m_timers = [0]
    ∧ (sampleEqualDeadlines.1.listExpiredTimerCb 5 2000000000 2000000000 []).map
        (fun r => r.2) = some [some 0] := by
  decide

/-- C3: evaluation at the failing input `cancelRaceOps` (n = 3, interval 10 ms).  After
the three additions the set holds handles 0 and 1 (handle 2 has the deadline of handle 1
and was not inserted); `cancel` on handle 0 leaves handle 1; `cancel` on handle 2 erases
handle 1; the harvest at 50 ms appends nothing, so the callback of the odd-indexed
timer 1 is never output. -/
theorem cancel_erases_equal_deadline_timer :
    (((TimerManager.create 0).execAll [] (cancelRaceOps.take 3)).map
        (fun r => r.1.m_timers)) = some [0, 1]
    ∧ (((TimerManager.create 0).execAll [] (cancelRaceOps.take 4)).map
        (fun r => r.1.m_timers)) = some [1]
    ∧ (((TimerManager.create 0).execAll [] (cancelRaceOps.take 5)).map
        (fun r => (r.1.m_timers, (r.1.heap 1).m_cb))) = some ([], some 1)
    ∧ (((TimerManager.create 0).execAll [] cancelRaceOps).map (fun r => r.2)) = some [] := by
  decide

/-- C5: evaluation at the failing input `sampleRecurring`.  Both recurring timers
(interval 5 ms, deadlines 5 ms and 6 ms) are due at 10 ms and both callbacks are
appended, but after the call only handle 0 is pending: handle 1 got the same new deadline
15 ms, its callback is intact, and it is not in the set, so the harvest at 20 ms appends
callback 0 alone. -/
theorem harvest_recurring_equal_deadline_dropped :
    sampleRecurring.m_timers = [0, 1]
    ∧ (sampleRecurring.detectClockRollover 10000000).2 = false
    ∧ (sampleRecurring.listExpiredTimerCb 5 10000000 10000000 []).map
        (fun r => (r.2, r.1.m_timers, (r.1.heap 1).m_next, (r.1.heap 1).m_cb))
        = some ([some 0, some 1], [0], 15000000, some 1)
    ∧ ((sampleRecurring.listExpiredTimerCb 5 10000000 10000000 []).bind
        (fun r => r.1.listExpiredTimerCb 5 20000000 20000000 [])).map (fun r => r.2)
        = some [some 0] := by
  decide

/-- Under a detected rollback a set that holds one recurring timer is never emptied. -/
theorem harvestLoop_rollover_recurring (now : Int) (t : Nat) :
    ∀ (fuel : Nat) (s : TimerManager) (cbs : List (Option Cb)),
      s.m_timers = [t] → (s.heap t).m_recurring = true →
      TimerManager.harvestLoop now true fuel s cbs = none := by
  intro fuel
  induction fuel with
  | zero => intro s cbs _ _; simp [TimerManager.harvestLoop]
  | succ f ih =>
    intro s cbs hl hrec
    rw [harvestLoop_pop_recurring now true f s cbs t [] hl (by simp) hrec]
    apply ih
    · simp [setInsert]
    · simp [hrec]

/-- C7: evaluation at the failing input `sampleRollback`.  The manager recorded the clock
at 2 h and holds one recurring timer; the harvest reads the clock at 0, which is more
than one hour earlier, so a rollback is detected; whatever the number of loop turns
allowed, the loop has not been left, so the call does not return. -/
theorem harvest_rollback_recurring_never_returns :
    sampleRollback.m_timers = [0]
    ∧ (sampleRollback.heap 0).m_recurring = true
    ∧ (sampleRollback.detectClockRollover 0).2 = true
    ∧ ∀ fuel, sampleRollback.listExpiredTimerCb fuel 0 0 [] = none := by
  refine ⟨by decide, by decide, by decide, fun fuel => ?_⟩
  unfold TimerManager.listExpiredTimerCb
  have h : (sampleRollback.detectClockRollover 0).2 = true := by decide
  simp only [h]
  exact harvestLoop_rollover_recurring 0 0 fuel _ [] (by decide) (by decide)

/-- C8: `schedulerLock(fc, thread)` with a non-null fiber or callback appends exactly one
task, carrying that fiber or callback and that affinity, after the tasks already queued,
changes nothing else, and calls `tickle()` exactly when the queue was empty before. -/
theorem schedulerLock_appends (s : Scheduler) (fc : FiberOrCb) (thread : Int)
    (hset : fc.isSet = true) :
    (s.schedulerLock fc thread).1.m_tasks = s.m_tasks ++ [ScheduleTask.create fc thread]
    ∧ (ScheduleTask.create fc thread).thread = thread
    ∧ (∀ f, fc = .fiber f → (ScheduleTask.create fc thread).fiber = f
        ∧ (ScheduleTask.create fc thread).cb = none)
    ∧ (∀ c, fc = .cb c → (ScheduleTask.create fc thread).cb = c
        ∧ (ScheduleTask.create fc thread).fiber = none)
    ∧ ((s.schedulerLock fc thread).2 = true ↔ s.m_tasks = [])
    ∧ (s.schedulerLock fc thread).1 = { s with m_tasks := (s.schedulerLock fc thread).1.m_tasks }
    := by
  have hcond : ((ScheduleTask.create fc thread).fiber.isSome
      || (ScheduleTask.create fc thread).cb.isSome) = true := by
    cases fc <;> simpa [ScheduleTask.create, FiberOrCb.isSet] using hset
  have heq : s.schedulerLock fc thread
      = ({ s with m_tasks := s.m_tasks ++ [ScheduleTask.create fc thread] },
         s.m_tasks.isEmpty) := by
    unfold Scheduler.schedulerLock
    simp only [hcond, if_true]
  rw [heq]
  refine ⟨rfl, ?_, ?_, ?_, ?_, rfl⟩
  · cases fc <;> rfl
  · rintro f rfl; exact ⟨rfl, rfl⟩
  · rintro c rfl; exact ⟨rfl, rfl⟩
  · simp [List.isEmpty_iff]

/-- Witness for C8: a callback task with affinity 3 pushed on a queue holding one task. -/
theorem schedulerLock_appends_witness :
    (FiberOrCb.cb (some 7)).isSet = true
    ∧ (sampleScheduler.schedulerLock (.cb (some 7)) 3).1.m_tasks
        = [{ fiber := some 1, cb := none, thread := -1 },
           { fiber := none, cb := some 7, thread := 3 }]
    ∧ (sampleScheduler.schedulerLock (.cb (some 7)) 3).2 = false
    ∧ (sampleScheduler.schedulerLock (.cb (some 7)) 3).1.m_tasks
        = sampleScheduler.m_tasks ++ [ScheduleTask.create (.cb (some 7)) 3] :=
  ⟨by decide, by decide, by decide,
   (schedulerLock_appends sampleScheduler (.cb (some 7)) 3 (by decide)).1⟩

/-- C9: evaluation of the constructor followed by `start()`.  For every requested
`threads + 1 >= 1`, with or without the caller as a worker, `m_thread_count` is still 0
after the constructor (the count is stored in `m_main_thread`) and `start()` creates no
worker thread. -/
theorem start_spawns_no_worker (threads : Nat) (use_caller : Bool) (name : String)
    (callerTid : Int) (spawn : Nat → Int) :
    ((Scheduler.create (threads + 1) use_caller name true callerTid).bind
        (fun s => s.start spawn)).map
          (fun s => (s.m_thread_count, s.m_threads, s.m_main_thread))
      = some (0, [], sizeToInt (if use_caller then threads else threads + 1)) := by
  cases use_caller <;> simp [Scheduler.create, Scheduler.start]

/-- C10: evaluation at the failing input.  A scheduler built with `(1, false)` is
started, one callback task is queued, and `stop()` is called from a thread that is not
bound to the scheduler.  `stop()` returns with the worker pool empty and the stop flag
set, but the task is still queued and `stopping()` is false. -/
theorem stop_leaves_task_queued (dispatch joinAll : Scheduler → Option Scheduler)
    (spawn : Nat → Int) :
    (((Scheduler.create 1 false "Scheduler" true 100).bind (fun s => s.start spawn)).bind
        (fun s => ((s.schedulerLock (.cb (some 7)) (-1)).1.stop false dispatch joinAll))).map
          (fun r => (r.1.m_threads, r.1.m_stopping, r.1.m_tasks, r.1.m_active_thread_count,
            r.1.stopping))
      = some ([], true, [{ fiber := none, cb := some 7, thread := -1 }], 0, false) := by
  simp [Scheduler.create, Scheduler.start, Scheduler.schedulerLock, Scheduler.stop,
    Scheduler.stopping, ScheduleTask.create]

/-! ## The container invariant is kept by every operation -/

theorem SetOrdered.congr {heap heap1 : Nat → Timer} {l : List Nat}
    (hk : ∀ x ∈ l, (heap1 x).m_next = (heap x).m_next) (h : SetOrdered heap l) :
    SetOrdered heap1 l := by
  unfold SetOrdered at h ⊢
  induction l with
  | nil => exact List.Pairwise.nil
  | cons e rest ih =>
    obtain ⟨h1, h2⟩ := List.pairwise_cons.mp h
    refine List.pairwise_cons.mpr ⟨fun x hx => ?_, ih (fun x hx => hk x (List.mem_cons_of_mem _ hx)) h2⟩
    rw [hk e (List.mem_cons_self _ _), hk x (List.mem_cons_of_mem _ hx)]
    exact h1 x hx

theorem SetOrdered.update_of_not_mem {heap : Nat → Timer} {l : List Nat} {t : Nat}
    (v : Timer) (ht : t ∉ l) (h : SetOrdered heap l) :
    SetOrdered (Function.update heap t v) l := by
  apply SetOrdered.congr _ h
  intro x hx
  have : x ≠ t := fun e => ht (e ▸ hx)
  rw [Function.update_noteq this]

theorem SetOrdered.eraseIdx {heap : Nat → Timer} {l : List Nat} (i : Nat)
    (h : SetOrdered heap l) : SetOrdered heap (l.eraseIdx i) :=
  List.Pairwise.sublist (List.eraseIdx_sublist l i) h

theorem mem_setInsert (heap : Nat → Timer) (x : Nat) :
    ∀ (l : List Nat) (y : Nat), y ∈ (setInsert heap l x).1 → y = x ∨ y ∈ l := by
  intro l
  induction l with
  | nil => intro y hy; simpa [setInsert] using hy
  | cons e rest ih =>
    intro y hy
    unfold setInsert at hy
    split at hy
    · simpa using hy
    · split at hy
      · rcases List.mem_cons.mp hy with h1 | h1
        · exact Or.inr (h1 ▸ List.mem_cons_self _ _)
        · rcases ih y h1 with h2 | h2
          · exact Or.inl h2
          · exact Or.inr (List.mem_cons_of_mem _ h2)
      · exact Or.inr hy

/-- Insertion keeps the strictly ascending order. -/
theorem setInsert_ordered (heap : Nat → Timer) (x : Nat) :
    ∀ (l : List Nat), SetOrdered heap l → SetOrdered heap (setInsert heap l x).1 := by
  intro l
  induction l with
  | nil => intro _; simp [setInsert, SetOrdered]
  | cons e rest ih =>
    intro h
    obtain ⟨h1, h2⟩ := List.pairwise_cons.mp h
    unfold setInsert
    split
    · rename_i hlt
      simp only [Comparator, decide_eq_true_eq] at hlt
      refine List.pairwise_cons.mpr ⟨fun y hy => ?_, h⟩
      rcases List.mem_cons.mp hy with h3 | h3
      · rw [h3]; exact hlt
      · exact lt_trans hlt (h1 y h3)
    · split
      · rename_i _ hlt
        simp only [Comparator, decide_eq_true_eq] at hlt
        refine List.pairwise_cons.mpr ⟨fun y hy => ?_, ih h2⟩
        rcases mem_setInsert heap x rest y hy with h3 | h3
        · rw [h3]; exact hlt
        · exact h1 y h3
      · exact h

/-- The element that `find` returns is the only one that can be the sought timer: after
erasing it the timer is not in the set. -/
theorem not_mem_eraseIdx_of_setFind (heap : Nat → Timer) (x : Nat) :
    ∀ (l : List Nat) (i : Nat), SetOrdered heap l → setFind heap l x = some i →
      x ∉ l.eraseIdx i := by
  intro l
  induction l with
  | nil => intro i _ h; simp [setFind] at h
  | cons e rest ih =>
    intro i hord h
    obtain ⟨h1, h2⟩ := List.pairwise_cons.mp hord
    unfold setFind at h
    split at h
    · simp at h
    · rename_i hnlt
      simp only [Comparator, decide_eq_true_eq, not_lt] at hnlt
      split at h
      · rename_i hlt
        simp only [Comparator, decide_eq_true_eq] at hlt
        simp only [Option.map_eq_some'] at h
        obtain ⟨j, hj, rfl⟩ := h
        simp only [List.eraseIdx_cons_succ, List.mem_cons, not_or]
        refine ⟨fun e1 => ?_, ih j h2 hj⟩
        rw [e1] at hlt
        exact lt_irrefl _ hlt
      · rename_i hnlt2
        simp only [Comparator, decide_eq_true_eq, not_lt] at hnlt2
        simp only [Option.some.injEq] at h
        subst h
        simp only [List.eraseIdx_cons_zero]
        intro hx
        have := h1 x hx
        omega

theorem WF_create (now : Int) : (TimerManager.create now).WF := by
  refine ⟨by simp [TimerManager.create, SetOrdered], by simp [TimerManager.create], ?_⟩
  intro x _; rfl

theorem WF_addTimerPtr (s : TimerManager) (t : Nat) (h : s.WF) (ht : t < s.nextHandle) :
    (s.addTimerPtr t).1.WF := by
  obtain ⟨h1, h2, h3⟩ := h
  refine ⟨setInsert_ordered s.heap t s.m_timers h1, ?_, h3⟩
  intro x hx
  rcases mem_setInsert s.heap t s.m_timers x hx with h4 | h4
  · rw [h4]; exact ht
  · exact h2 x h4

theorem WF_addTimer (s : TimerManager) (now : Int) (ms : Nat) (cb : Option Cb)
    (recurring : Bool) (h : s.WF) : (s.addTimer now ms cb recurring).1.WF := by
  obtain ⟨h1, h2, h3⟩ := h
  unfold TimerManager.addTimer
  apply WF_addTimerPtr
  · refine ⟨?_, fun x hx => Nat.lt_succ_of_lt (h2 x hx), ?_⟩
    · exact h1.update_of_not_mem _ (fun hm => lt_irrefl _ (h2 _ hm))
    · intro x hx
      have hne : x ≠ s.nextHandle := by
        intro e; subst e; exact absurd hx (Nat.not_succ_le_self _)
      show ((Function.update s.heap s.nextHandle _) x).m_cb = none
      rw [Function.update_noteq hne]
      exact h3 x (Nat.le_of_succ_le hx)
  · exact Nat.lt_succ_self _

theorem WF_cancel (s : TimerManager) (t : Nat) (h : s.WF) : (s.cancel t).1.WF := by
  obtain ⟨h1, h2, h3⟩ := h
  have hord : SetOrdered (Function.update s.heap t { s.heap t with m_cb := none })
      s.m_timers := SetOrdered.congr (fun x _ => clearCb_next s.heap t x) h1
  have hcb : ∀ x, s.nextHandle ≤ x →
      ((Function.update s.heap t { s.heap t with m_cb := none }) x).m_cb = none := by
    intro x hx
    by_cases e : x = t
    · subst e; simp
    · rw [Function.update_noteq e]; exact h3 x hx
  unfold TimerManager.cancel
  split
  · exact ⟨h1, h2, h3⟩
  · dsimp only
    split
    · exact ⟨hord.eraseIdx _, fun x hx => h2 x ((List.eraseIdx_sublist _ _).subset hx), hcb⟩
    · exact ⟨hord, h2, hcb⟩

theorem WF_valid_of_cb (s : TimerManager) (t : Nat) (h : s.WF)
    (hcb : ¬ (s.heap t).m_cb = none) : t < s.nextHandle := by
  by_contra hlt
  exact hcb (h.2.2 t (not_lt.mp hlt))

theorem WF_refresh (s : TimerManager) (now : Int) (t : Nat) (h : s.WF) :
    (s.refresh now t).1.WF := by
  unfold TimerManager.refresh
  split
  · exact h
  · rename_i hcb
    have hval := WF_valid_of_cb s t h hcb
    obtain ⟨h1, h2, h3⟩ := h
    split
    · exact ⟨h1, h2, h3⟩
    · rename_i i hi
      have hnm := not_mem_eraseIdx_of_setFind s.heap t s.m_timers i h1 hi
      dsimp only
      refine ⟨setInsert_ordered _ t _ ((h1.eraseIdx i).update_of_not_mem _ hnm), ?_, ?_⟩
      · intro x hx
        rcases mem_setInsert _ t _ x hx with h4 | h4
        · rw [h4]; exact hval
        · exact h2 x ((List.eraseIdx_sublist _ _).subset h4)
      · intro x hx
        have hx1 : s.nextHandle ≤ x := hx
        have hne : x ≠ t := by intro e; subst e; omega
        show ((Function.update s.heap t _) x).m_cb = none
        rw [Function.update_noteq hne]
        exact h3 x hx

theorem WF_reset (s : TimerManager) (now : Int) (t : Nat) (ms : Nat) (from_now : Bool)
    (h : s.WF) : (s.reset now t ms from_now).1.WF := by
  unfold TimerManager.reset
  split
  · exact h
  · split
    · exact h
    · rename_i hcb
      have hval := WF_valid_of_cb s t h hcb
      obtain ⟨h1, h2, h3⟩ := h
      split
      · exact ⟨h1, h2, h3⟩
      · rename_i i hi
        have hnm := not_mem_eraseIdx_of_setFind s.heap t s.m_timers i h1 hi
        dsimp only
        refine WF_addTimerPtr _ t ?_ hval
        refine ⟨(h1.eraseIdx i).update_of_not_mem _ hnm,
          fun x hx => h2 x ((List.eraseIdx_sublist _ _).subset hx), ?_⟩
        intro x hx
        have hx1 : s.nextHandle ≤ x := hx
        have hne : x ≠ t := by intro e; subst e; omega
        show ((Function.update s.heap t _) x).m_cb = none
        rw [Function.update_noteq hne]
        exact h3 x hx

theorem WF_getNextTimer (s : TimerManager) (now : Int) (h : s.WF) :
    (s.getNextTimer now).1.WF := by
  unfold TimerManager.getNextTimer
  dsimp only
  split
  · exact h
  · split <;> exact h

theorem WF_harvestLoop (now : Int) (rollover : Bool) :
    ∀ (fuel : Nat) (s : TimerManager) (cbs : List (Option Cb)) (s1 : TimerManager)
      (out : List (Option Cb)), s.WF →
      TimerManager.harvestLoop now rollover fuel s cbs = some (s1, out) → s1.WF := by
  intro fuel
  induction fuel with
  | zero => intro s cbs s1 out _ h; simp [TimerManager.harvestLoop] at h
  | succ f ih =>
    intro s cbs s1 out hwf h
    rw [TimerManager.harvestLoop] at h
    split at h
    · simp only [Option.some.injEq, Prod.mk.injEq] at h
      obtain ⟨rfl, rfl⟩ := h
      exact hwf
    · rename_i t rest hl
      obtain ⟨h1, h2, h3⟩ := hwf
      rw [hl] at h1 h2
      have hnm : t ∉ rest := fun hm => h1.head_ne t hm rfl
      have hrest : SetOrdered s.heap rest := (List.pairwise_cons.mp h1).2
      have hval : t < s.nextHandle := h2 t (List.mem_cons_self _ _)
      have hcb : ∀ (v : Timer) (x : Nat), s.nextHandle ≤ x →
          ((Function.update s.heap t v) x).m_cb = none := by
        intro v x hx
        have hne : x ≠ t := by intro e; subst e; omega
        rw [Function.update_noteq hne]
        exact h3 x hx
      split at h
      · dsimp only at h
        split at h
        · refine ih _ _ _ _ ?_ h
          refine ⟨setInsert_ordered _ t _ (hrest.update_of_not_mem _ hnm), ?_, hcb _⟩
          intro x hx
          rcases mem_setInsert _ t _ x hx with h4 | h4
          · rw [h4]; exact hval
          · exact h2 x (List.mem_cons_of_mem _ h4)
        · refine ih _ _ _ _ ?_ h
          exact ⟨hrest.update_of_not_mem _ hnm,
            fun x hx => h2 x (List.mem_cons_of_mem _ hx), hcb _⟩
      · simp only [Option.some.injEq, Prod.mk.injEq] at h
        obtain ⟨rfl, rfl⟩ := h
        exact ⟨hl ▸ h1, hl ▸ h2, h3⟩

/-- Every operation keeps the manager invariant. -/
theorem WF_exec (s : TimerManager) (cbs : List (Option Cb)) (op : TimerOp)
    (s1 : TimerManager) (out : List (Option Cb)) (h : s.WF)
    (hr : s.exec cbs op = some (s1, out)) : s1.WF := by
  cases op with
  | addTimer now ms cb recurring =>
    simp only [TimerManager.exec, Option.some.injEq, Prod.mk.injEq] at hr
    exact hr.1 ▸ WF_addTimer s now ms cb recurring h
  | cancel t =>
    simp only [TimerManager.exec, Option.some.injEq, Prod.mk.injEq] at hr
    exact hr.1 ▸ WF_cancel s t h
  | refresh now t =>
    simp only [TimerManager.exec, Option.some.injEq, Prod.mk.injEq] at hr
    exact hr.1 ▸ WF_refresh s now t h
  | reset now t ms from_now =>
    simp only [TimerManager.exec, Option.some.injEq, Prod.mk.injEq] at hr
    exact hr.1 ▸ WF_reset s now t ms from_now h
  | getNextTimer now =>
    simp only [TimerManager.exec, Option.some.injEq, Prod.mk.injEq] at hr
    exact hr.1 ▸ WF_getNextTimer s now h
  | listExpiredTimerCb fuel now nowDetect =>
    simp only [TimerManager.exec, TimerManager.listExpiredTimerCb] at hr
    exact WF_harvestLoop now _ fuel (s.detectClockRollover nowDetect).1 cbs s1 out h hr

/-- Every manager reached from the constructor by a sequence of operations satisfies the
invariant; in particular its set is in strictly ascending deadline order. -/
theorem WF_execAll :
    ∀ (ops : List TimerOp) (s : TimerManager) (cbs : List (Option Cb)) (s1 : TimerManager)
      (out : List (Option Cb)), s.WF → s.execAll cbs ops = some (s1, out) → s1.WF := by
  intro ops
  induction ops with
  | nil =>
    intro s cbs s1 out h hr
    simp only [TimerManager.execAll, Option.some.injEq, Prod.mk.injEq] at hr
    exact hr.1 ▸ h
  | cons op ops ih =>
    intro s cbs s1 out h hr
    rw [TimerManager.execAll] at hr
    split at hr
    · simp at hr
    · rename_i r hrr
      exact ih r.1 r.2 s1 out (WF_exec s cbs op r.1 r.2 h hrr) hr

/-- Under a detected rollback a set of one-shot timers is drained: the loop is left with
the empty set after appending the callback of every pending timer in set order. -/
theorem harvestLoop_rollover_oneshot (now : Int) :
    ∀ (l : List Nat) (s : TimerManager) (cbs : List (Option Cb)) (fuel : Nat),
      s.m_timers = l → SetOrdered s.heap l →
      (∀ t ∈ l, (s.heap t).m_recurring = false) → l.length < fuel →
      ∃ s1, TimerManager.harvestLoop now true fuel s cbs
          = some (s1, cbs ++ l.map (fun t => (s.heap t).m_cb))
        ∧ s1.m_timers = [] ∧ s1.m_preTime = s.m_preTime := by
  intro l
  induction l with
  | nil =>
    intro s cbs fuel hl _ _ hf
    obtain ⟨f, rfl⟩ : ∃ f, fuel = f + 1 := ⟨fuel - 1, by simp at hf; omega⟩
    exact ⟨s, by rw [harvestLoop_empty now true f s cbs hl]; simp, hl, rfl⟩
  | cons t rest ih =>
    intro s cbs fuel hl hord hnr hf
    obtain ⟨f, rfl⟩ : ∃ f, fuel = f + 1 := ⟨fuel - 1, by simp at hf; omega⟩
    have hrec : (s.heap t).m_recurring = false := hnr t (List.mem_cons_self _ _)
    have hnm : t ∉ rest := fun hm => hord.head_ne t hm rfl
    have hsame : ∀ x ∈ rest,
        (Function.update s.heap t { s.heap t with m_cb := none }) x = s.heap x :=
      fun x hx => Function.update_noteq (hord.head_ne x hx) _ _
    obtain ⟨s1, h1, h2, h3⟩ :=
      ih { s with heap := Function.update s.heap t { s.heap t with m_cb := none },
                  m_timers := rest } (cbs ++ [(s.heap t).m_cb]) f rfl
        (SetOrdered.update_of_not_mem _ hnm (List.pairwise_cons.mp hord).2)
        (fun x hx => by
          rw [clearCb_recurring]; exact hnr x (List.mem_cons_of_mem _ hx))
        (by simp at hf ⊢; omega)
    refine ⟨s1, ?_, h2, h3⟩
    rw [harvestLoop_pop_oneshot now true f s cbs t rest hl (by simp) hrec, h1]
    have hmap : rest.map (fun x =>
        ((Function.update s.heap t { s.heap t with m_cb := none }) x).m_cb)
        = rest.map (fun x => (s.heap x).m_cb) :=
      List.map_congr_left (fun x hx => by rw [hsame x hx])
    simp only [hmap, List.map_cons, List.append_assoc, List.singleton_append]

/-! ## Fibers -/

theorem FiberEnv.Inv_init : FiberEnv.init.Inv := by
  refine ⟨rfl, fun _ => rfl, ?_, ?_⟩ <;> intro x hx <;> simp [FiberEnv.init] at hx

theorem FiberEnv.Inv_getThis (s : FiberEnv) (junk : Bool) (h : s.Inv) :
    (Fiber.getThis s junk).1.Inv := by
  obtain ⟨h1, h2, h3, h4⟩ := h
  unfold Fiber.getThis
  cases hc : s.t_fiber with
  | some c => simpa using ⟨h1, h2, h3, h4⟩
  | none =>
    simp only [Fiber.createMain]
    refine ⟨rfl, fun hx => by simp at hx, ?_, ?_⟩
    · intro m hm
      simp only [Option.some.injEq] at hm
      subst hm
      simp
    · intro c hc1
      simp only [Option.some.injEq] at hc1
      subst hc1
      simp

theorem FiberEnv.Inv_create (s : FiberEnv) (cb : Option Cb) (stacksize : Nat)
    (ris : Bool) (h : s.Inv) : (Fiber.create s cb stacksize ris).1.Inv := by
  obtain ⟨h1, h2, h3, h4⟩ := h
  simp only [Fiber.create]
  refine ⟨h1, h2, ?_, ?_⟩
  · intro m hm
    obtain ⟨a, b, c⟩ := h3 m hm
    have hne : m ≠ s.nextFiber := Nat.ne_of_lt a
    simp only [Function.update_noteq hne]
    exact ⟨Nat.lt_succ_of_lt a, b, c⟩
  · intro c hc
    obtain ⟨a, b, d⟩ := h4 c hc
    have hne : c ≠ s.nextFiber := Nat.ne_of_lt a
    simp only [Function.update_noteq hne]
    exact ⟨Nat.lt_succ_of_lt a, b, d⟩

theorem Fiber.partner_of_inv (s : FiberEnv) (f : Nat) (h : s.Inv) :
    Fiber.partner s f = s.t_thread_fiber := by
  unfold Fiber.partner
  split
  · exact h.1
  · rfl

theorem Fiber.resume_some (s s1 : FiberEnv) (f : Nat) (hr : Fiber.resume s f = some s1) :
    ∃ p, Fiber.partner s f = some p ∧ (s.fibers f).m_state = .READY
      ∧ s1 = { s with
          fibers := Function.update
            (Function.update s.fibers f { s.fibers f with m_state := .RUNING }) p
            { (Function.update s.fibers f { s.fibers f with m_state := .RUNING }) p with
                m_ctx := .saved },
          t_fiber := some f } := by
  unfold Fiber.resume at hr
  split at hr
  · rename_i hready
    dsimp only at hr
    cases hp : Fiber.partner s f with
    | none => rw [hp] at hr; simp at hr
    | some p =>
      rw [hp] at hr
      simp only [Option.some.injEq] at hr
      exact ⟨p, rfl, hready, hr.symm⟩
  · simp at hr

theorem Fiber.yield_some (s s1 : FiberEnv) (f : Nat) (hr : Fiber.yield s f = some s1) :
    ∃ p, Fiber.partner s f = some p
      ∧ ((s.fibers f).m_state = .RUNING ∨ (s.fibers f).m_state = .TERM)
      ∧ s1 = { s with
          fibers := Function.update s.fibers f
            { s.fibers f with
                m_state := if (s.fibers f).m_state ≠ .TERM then Fiber.State.READY
                  else (s.fibers f).m_state,
                m_ctx := .saved },
          t_fiber := some p } := by
  unfold Fiber.yield at hr
  split at hr
  · rename_i hst
    dsimp only at hr
    cases hp : Fiber.partner s f with
    | none => rw [hp] at hr; simp at hr
    | some p =>
      rw [hp] at hr
      simp only [Option.some.injEq] at hr
      exact ⟨p, rfl, hst, hr.symm⟩
  · simp at hr

theorem FiberEnv.Inv_resume (s s1 : FiberEnv) (f : Nat) (h : s.Inv) (hf : f < s.nextFiber)
    (hr : Fiber.resume s f = some s1) : s1.Inv := by
  obtain ⟨m, hp, hready, rfl⟩ := Fiber.resume_some s s1 f hr
  have hm : s.t_thread_fiber = some m := (Fiber.partner_of_inv s f h).symm.trans hp
  obtain ⟨h1, h2, h3, h4⟩ := h
  obtain ⟨a, b, c⟩ := h3 m hm
  have hne : f ≠ m := by
    intro e; subst e; rw [hready] at b; exact absurd b (by decide)
  refine ⟨h1, fun hx => absurd (hm ▸ hx : some m = none) (by simp), ?_, ?_⟩
  · intro m1 hm1
    have e : m1 = m := Option.some.inj (hm1.symm.trans hm)
    subst e
    simp [Function.update_noteq (Ne.symm hne), a, b, c]
  · intro c1 hc1
    have e : c1 = f := (Option.some.inj hc1).symm
    subst e
    refine ⟨hf, ?_, fun hx => absurd (hm ▸ hx : some m = none) (by simp)⟩
    simp [Function.update_noteq hne]

theorem FiberEnv.Inv_yield_aux (s s1 : FiberEnv) (f : Nat)
    (h1 : s.t_scheduler_fiber = s.t_thread_fiber)
    (h3 : ∀ m, s.t_thread_fiber = some m →
      m < s.nextFiber ∧ (s.fibers m).m_state = .RUNING ∧ (s.fibers m).m_cb = none)
    (hchild : s.t_thread_fiber ≠ some f) (hr : Fiber.yield s f = some s1) : s1.Inv := by
  obtain ⟨m, hp, _, rfl⟩ := Fiber.yield_some s s1 f hr
  have hm : s.t_thread_fiber = some m := by
    unfold Fiber.partner at hp
    split at hp
    · exact h1 ▸ hp
    · exact hp
  obtain ⟨a, b, c⟩ := h3 m hm
  have hne : m ≠ f := by
    intro e; subst e; exact hchild hm
  refine ⟨h1, fun hx => absurd (hm ▸ hx : some m = none) (by simp), ?_, ?_⟩
  · intro m1 hm1
    have e : m1 = m := Option.some.inj (hm1.symm.trans hm)
    subst e
    simp [Function.update_noteq hne, a, b, c]
  · intro c1 hc1
    have e : c1 = m := (Option.some.inj hc1).symm
    subst e
    refine ⟨a, ?_, fun hx => absurd (hm ▸ hx : some c1 = none) (by simp)⟩
    simp [Function.update_noteq hne, b]

theorem FiberEnv.Inv_yield (s s1 : FiberEnv) (f : Nat) (h : s.Inv)
    (hchild : s.t_thread_fiber ≠ some f) (hr : Fiber.yield s f = some s1) : s1.Inv :=
  FiberEnv.Inv_yield_aux s s1 f h.1 h.2.2.1 hchild hr

theorem FiberEnv.Inv_fiberFunc (s s1 : FiberEnv) (junk : Bool) (h : s.Inv)
    (hr : Fiber.fiberFunc s junk = some s1) : s1.Inv := by
  unfold Fiber.fiberFunc at hr
  dsimp only at hr
  rcases Option.eq_none_or_eq_some s.t_fiber with hc | ⟨c, hc⟩
  · simp [Fiber.getThis, hc, Fiber.createMain] at hr
  · have hg : Fiber.getThis s junk = (s, c) := by simp [Fiber.getThis, hc]
    rw [hg] at hr
    dsimp only at hr
    cases hcb : (s.fibers c).m_cb with
    | none => rw [hcb] at hr; simp at hr
    | some cb =>
      rw [hcb] at hr
      dsimp only at hr
      have hmc : s.t_thread_fiber ≠ some c := by
        intro hm
        have := (h.2.2.1 c hm).2.2
        rw [hcb] at this
        simp at this
      refine FiberEnv.Inv_yield_aux _ s1 c ?_ ?_ ?_ hr
      · exact h.1
      · intro m hm
        obtain ⟨a, b, d⟩ := h.2.2.1 m hm
        have hne : m ≠ c := by
          intro e; subst e; exact hmc hm
        show m < s.nextFiber ∧ ((Function.update s.fibers c _) m).m_state = .RUNING
          ∧ ((Function.update s.fibers c _) m).m_cb = none
        rw [Function.update_noteq hne]
        exact ⟨a, b, d⟩
      · exact hmc

theorem FiberEnv.Inv_step (s s1 : FiberEnv) (op : FiberOp) (h : s.Inv)
    (hc : op.onChild s = true) (hr : s.step op = some s1) : s1.Inv := by
  cases op with
  | getThis junk =>
    simp only [FiberEnv.step, Option.some.injEq] at hr
    exact hr ▸ FiberEnv.Inv_getThis s junk h
  | create cb stacksize ris =>
    simp only [FiberEnv.step, Option.some.injEq] at hr
    exact hr ▸ FiberEnv.Inv_create s cb stacksize ris h
  | resume f =>
    simp only [FiberEnv.step] at hr
    split at hr
    · rename_i hf; exact FiberEnv.Inv_resume s s1 f h hf hr
    · simp at hr
  | yield f =>
    simp only [FiberEnv.step] at hr
    simp only [FiberOp.onChild, decide_eq_true_eq] at hc
    split at hr
    · exact FiberEnv.Inv_yield s s1 f h hc hr
    · simp at hr
  | fiberFunc junk =>
    exact FiberEnv.Inv_fiberFunc s s1 junk h hr

theorem FiberEnv.Inv_steps :
    ∀ (ops : List FiberOp) (s s1 : FiberEnv), s.Inv → s.onChildren ops = true →
      s.steps ops = some s1 → s1.Inv := by
  intro ops
  induction ops with
  | nil =>
    intro s s1 h _ hr
    simp only [FiberEnv.steps, Option.some.injEq] at hr
    exact hr ▸ h
  | cons op ops ih =>
    intro s s1 h hc hr
    rw [FiberEnv.steps] at hr
    rw [FiberEnv.onChildren] at hc
    cases hs : s.step op with
    | none => rw [hs] at hr; simp at hr
    | some s2 =>
      rw [hs] at hr hc
      simp only [Bool.and_eq_true] at hc
      exact ih s2 s1 (FiberEnv.Inv_step s s2 op h hc.1 hs) hc.2 hr

theorem FiberEnv.mem_running (s : FiberEnv) (f : Nat) :
    f ∈ s.running ↔ f < s.nextFiber ∧ (s.fibers f).m_state = .RUNING := by
  simp [FiberEnv.running]

/-- C11, counterexample.  After `getThis`, the construction of a child and `resume` on
it, both the thread-main fiber 0 and the child 1 have state `RUNING`, and the child is
the current fiber; and after `getThis` and a `yield` on the thread-main fiber no fiber
has state `RUNING`. -/
theorem running_fiber_not_unique :
    (FiberEnv.init.steps [.getThis false, .create (some 7) 0 false, .resume 1]).map
        (fun s => (s.running, s.t_fiber, s.t_thread_fiber)) = some ([0, 1], some 1, some 0)
    ∧ (FiberEnv.init.steps [.getThis false, .yield 0]).map
        (fun s => (s.running, s.t_fiber)) = some ([], some 0) := by
  decide

/-- C11, amended.  In every state reached on one thread through `Fiber::getThis`, the
construction of child fibers, `resume`, `yield` on child fibers and the end of the
trampoline, the thread-main fiber, once created, has state `RUNING`, and the current
fiber has state `RUNING`; so while a resumed child is the current fiber, the child and
the thread-main fiber that the child switches back to are both `RUNING`. -/
theorem current_and_main_fiber_running (ops : List FiberOp) (s : FiberEnv)
    (hr : FiberEnv.init.steps ops = some s)
    (hc : FiberEnv.init.onChildren ops = true) :
    (∀ m, s.t_thread_fiber = some m → m ∈ s.running)
    ∧ (∀ c, s.t_fiber = some c → c ∈ s.running)
    ∧ (∀ c, s.t_fiber = some c → ∃ m, s.t_thread_fiber = some m
        ∧ s.t_scheduler_fiber = some m ∧ m ∈ s.running) := by
  have h := FiberEnv.Inv_steps ops FiberEnv.init s FiberEnv.Inv_init hc hr
  obtain ⟨h1, h2, h3, h4⟩ := h
  have hm : ∀ m, s.t_thread_fiber = some m → m ∈ s.running := fun m hm =>
    (FiberEnv.mem_running s m).mpr ⟨(h3 m hm).1, (h3 m hm).2.1⟩
  refine ⟨hm, fun c hc => (FiberEnv.mem_running s c).mpr ⟨(h4 c hc).1, (h4 c hc).2.1⟩, ?_⟩
  intro c hc
  rcases Option.eq_none_or_eq_some s.t_thread_fiber with hn | ⟨m, hs⟩
  · exact absurd hn (h4 c hc).2.2
  · exact ⟨m, hs, h1.trans hs, hm m hs⟩

/-- Witness for C11: the thread-main fiber resumes a child, which yields. -/
theorem current_and_main_fiber_running_witness :
    FiberEnv.init.onChildren
        [.getThis false, .create (some 7) 0 false, .resume 1, .yield 1] = true
    ∧ (FiberEnv.init.steps [.getThis false, .create (some 7) 0 false, .resume 1,
        .yield 1]).map (fun s => (s.running, s.t_fiber)) = some ([0], some 0)
    ∧ ((∀ m, fiberSample.t_thread_fiber = some m → m ∈ fiberSample.running)
      ∧ (∀ c, fiberSample.t_fiber = some c → c ∈ fiberSample.running)
      ∧ (∀ c, fiberSample.t_fiber = some c → ∃ m, fiberSample.t_thread_fiber = some m
          ∧ fiberSample.t_scheduler_fiber = some m ∧ m ∈ fiberSample.running)) :=
  ⟨by decide, by decide,
   current_and_main_fiber_running
     [.getThis false, .create (some 7) 0 false, .resume 1] fiberSample rfl (by decide)⟩

theorem counterDec_counterInc (n : Nat) (h : n < 2 ^ 64) : counterDec (counterInc n) = n := by
  unfold counterDec counterInc
  omega

theorem runTask_target_not_term (d : Dispatch) (task : ScheduleTask) (idle_fiber : Nat)
    (body : Nat → Dispatch → Option Dispatch) (f : Nat)
    (h : (Scheduler.runTask d task idle_fiber body).1 = some f) :
    ¬ (f < d.env.nextFiber ∧ (d.env.fibers f).m_state = .TERM) := by
  unfold Scheduler.runTask at h
  split at h
  · rename_i g _
    split at h
    · rename_i hs
      simp only [Option.some.injEq] at h
      subst h
      exact fun hx => hs hx.2
    · simp at h
  · split at h
    · simp only [Fiber.create, Option.some.injEq] at h
      subst h
      exact fun hx => lt_irrefl _ hx.1
    · split at h
      · simp at h
      · rename_i hs
        simp only [Option.some.injEq] at h
        subst h
        exact fun hx => hs hx.2

/-- C12: in one turn of the dispatch loop, whatever the queue, the worker and the fiber
states, `resume()` is never called on an existing fiber whose state is `TERM`; and when
the task taken is a fiber task whose fiber is `TERM`, the turn makes no `resume()` call,
leaves the fibers untouched, removes the task, and the active-worker count is again what
it was before the task was taken. -/
theorem dispatch_never_resumes_term (d : Dispatch) (thread_id : Int) (idle_fiber : Nat)
    (body : Nat → Dispatch → Option Dispatch) :
    (∀ f, (Scheduler.runTurn d thread_id idle_fiber body).1 = some f →
        ¬ (f < d.env.nextFiber ∧ (d.env.fibers f).m_state = .TERM))
    ∧ (∀ pre t post f, scanTasks thread_id d.sched.m_tasks = some (pre, t, post) →
        t.fiber = some f → (d.env.fibers f).m_state = .TERM →
        d.sched.m_active_thread_count < 2 ^ 64 →
        Scheduler.runTurn d thread_id idle_fiber body
          = (none, !pre.isEmpty || !post.isEmpty,
             some ({ d with sched := { d.sched with m_tasks := pre ++ post } }, true))) := by
  constructor
  · intro f h
    unfold Scheduler.runTurn at h
    split at h
    · simp at h
    · rename_i r hr
      dsimp only at h
      have := runTask_target_not_term { d with sched := r.1 } r.2.1 idle_fiber body f h
      exact this
  · intro pre t post f hscan hf hterm hlt
    have htake : d.sched.takeTask thread_id
        = some (({ d.sched with
                    m_tasks := pre ++ post,
                    m_active_thread_count := counterInc d.sched.m_active_thread_count } :
                  Scheduler), t, !pre.isEmpty || !post.isEmpty) := by
      unfold Scheduler.takeTask
      rw [hscan]
      dsimp only
      rw [if_pos (by simp [hf])]
    unfold Scheduler.runTurn
    rw [htake]
    dsimp only
    unfold Scheduler.runTask
    simp only [hf, hterm, ne_eq, not_true_eq_false, if_false,
      counterDec_counterInc _ hlt]

/-- Witness for C12: the only task of `dispatchTermSample` is a fiber task whose fiber is
`TERM`; the turn of worker 5 discards it. -/
theorem dispatch_never_resumes_term_witness :
    scanTasks 5 dispatchTermSample.sched.m_tasks
      = some ([], { fiber := some 1, cb := none, thread := -1 }, [])
    ∧ (dispatchTermSample.env.fibers 1).m_state = .TERM
    ∧ Scheduler.runTurn dispatchTermSample 5 0 (fun _ d => some d)
        = (none, !([] : List ScheduleTask).isEmpty || !([] : List ScheduleTask).isEmpty,
           some ({ dispatchTermSample with
                    sched := { dispatchTermSample.sched with m_tasks := [] ++ [] } }, true)) :=
  ⟨by decide, by decide,
   (dispatch_never_resumes_term dispatchTermSample 5 0 (fun _ d => some d)).2 []
     { fiber := some 1, cb := none, thread := -1 } [] 1 (by decide) rfl (by decide)
     (by decide)⟩

/-! ## IOManager -/

theorem getElem?_length_gt {α : Type} (l : List α) (i : Nat) (x : α)
    (h : l[i]? = some x) : l.length > i := by
  by_contra hn
  rw [List.getElem?_eq_none (not_lt.mp hn)] at h
  simp at h

/-- C14: `addEvent(fd, event, cb)` on an fd whose context already has a bit of `event` in
its mask returns -1 and changes nothing: the fd contexts (masks and slots), the
pending-event counter, the interest list of the poller and the schedulers are as
before. -/
theorem addEvent_duplicate_rejected (m : IOManager) (fd event : Nat) (cb : Option Cb)
    (rt : Int) (sched : Option Nat) (fiber : Nat) (st : Fiber.State) (c : FdContext)
    (hc : m.m_fdContexts[fd]? = some c) (hdup : c.events &&& event ≠ 0) :
    m.addEvent fd event cb rt sched fiber st = some (m, -1) := by
  have hlen := getElem?_length_gt _ _ _ hc
  unfold IOManager.addEvent
  simp only [hlen, if_true, hc]
  rw [if_pos hdup]

/-- Witness for C14: READ is registered twice on fd 3. -/
theorem addEvent_duplicate_rejected_witness :
    ioReadSample.m_fdContexts[3]? = some
      { read := { scheduler := some 0, fiber := none, cb := some 7 },
        write := EventContext.empty, fd := 3, events := IOManager.READ }
    ∧ ioReadSample.addEvent 3 IOManager.READ (some 8) 0 (some 0) 1 .RUNING
        = some (ioReadSample, -1) :=
  ⟨by decide,
   addEvent_duplicate_rejected ioReadSample 3 IOManager.READ (some 8) 0 (some 0) 1 .RUNING
     _ (by decide : ioReadSample.m_fdContexts[3]? = some
      { read := { scheduler := some 0, fiber := none, cb := some 7 },
        write := EventContext.empty, fd := 3, events := IOManager.READ }) (by decide)⟩

theorem maskClear_or_of_disjoint (a e : Nat) (h : a &&& e = 0) :
    maskClear (a ||| e) e = a := by
  unfold maskClear
  apply Nat.eq_of_testBit_eq
  intro i
  have hi : (a &&& e).testBit i = false := by rw [h]; simp
  rw [Nat.testBit_and] at hi
  simp only [Nat.testBit_xor, Nat.testBit_and, Nat.testBit_or]
  cases ha : a.testBit i <;> cases he : e.testBit i <;> simp_all

theorem or_and_self_ne_zero (a e : Nat) (he : e ≠ 0) : (a ||| e) &&& e ≠ 0 := by
  intro h
  apply he
  apply Nat.eq_of_testBit_eq
  intro i
  have hi : ((a ||| e) &&& e).testBit i = false := by rw [h]; simp
  simp only [Nat.testBit_and, Nat.testBit_or] at hi
  cases hb : e.testBit i <;> simp_all

theorem FdContext.setEventContext_get_self (c : FdContext) (event : Nat) (e : EventContext)
    (h : c.getEventContext event = some e) : c.setEventContext event e = c := by
  unfold FdContext.getEventContext at h
  unfold FdContext.setEventContext
  split at h
  · rename_i h1
    simp only [Option.some.injEq] at h
    rw [if_pos h1, ← h]
  · split at h
    · rename_i h1 h2
      simp only [Option.some.injEq] at h
      rw [if_neg h1, if_pos h2, ← h]
    · simp at h

/-- What a successful `addEvent` has done. -/
theorem addEvent_ok (m m1 : IOManager) (fd event : Nat) (cb : Option Cb) (rt : Int)
    (sched : Option Nat) (fiber : Nat) (st : Fiber.State)
    (h : m.addEvent fd event cb rt sched fiber st = some (m1, 0)) :
    ∃ c, (if m.m_fdContexts.length > fd then m.m_fdContexts
            else contextResize m.m_fdContexts (fd * 3 / 2))[fd]? = some c
      ∧ c.events &&& event = 0 ∧ rt = 0
      ∧ (event = IOManager.READ ∨ event = IOManager.WRITE)
      ∧ c.getEventContext event = some EventContext.empty
      ∧ m1 = { m with
          m_fdContexts :=
            (if m.m_fdContexts.length > fd then m.m_fdContexts
              else contextResize m.m_fdContexts (fd * 3 / 2)).set fd
              (FdContext.setEventContext { c with events := c.events ||| event } event
                (if cb.isSome then { EventContext.empty with scheduler := sched, cb := cb }
                  else { EventContext.empty with scheduler := sched, fiber := some fiber })),
          m_pendingEventCount := counterInc m.m_pendingEventCount,
          epoll := epoll_ctl m.epoll
            (if c.events ≠ 0 then EpollOp.EPOLL_CTL_MOD else EpollOp.EPOLL_CTL_ADD) fd
            (EPOLLET ||| c.events ||| event) rt } := by
  unfold IOManager.addEvent at h
  dsimp only at h
  split at h
  · simp at h
  · rename_i c hc
    refine ⟨c, hc, ?_⟩
    split at h
    · simp at h
    · rename_i hdup
      split at h
      · simp at h
      · rename_i hrt
        cases hg : FdContext.getEventContext { c with events := c.events ||| event } event with
        | none => rw [hg] at h; simp at h
        | some ctx =>
          rw [hg] at h
          dsimp only at h
          split at h
          · simp at h
          · rename_i hslot
            split at h
            · simp at h
            · simp only [Option.some.injEq, Prod.mk.injEq, and_true] at h
              have hempty : ctx = EventContext.empty := by
                simp only [Bool.or_eq_true, not_or, Option.isSome_iff_ne_none, ne_eq,
                  not_not] at hslot
                cases ctx
                simp_all [EventContext.empty]
              have hev : event = IOManager.READ ∨ event = IOManager.WRITE := by
                unfold FdContext.getEventContext at hg
                by_cases h1 : event = IOManager.READ
                · exact Or.inl h1
                · by_cases h2 : event = IOManager.WRITE
                  · exact Or.inr h2
                  · simp [h1, h2] at hg
              have hg0 : c.getEventContext event = some EventContext.empty := by
                rw [← hempty, ← hg]
                unfold FdContext.getEventContext
                rfl
              refine ⟨by simpa using hdup, by simpa using hrt, hev, hg0, ?_⟩
              rw [← h, hempty]

theorem List.set_of_getElem? {α : Type} (l : List α) (i : Nat) (x : α)
    (h : l[i]? = some x) : l.set i x = l := by
  induction l generalizing i with
  | nil => rfl
  | cons a t ih =>
    cases i with
    | zero => simp at h; simp [h]
    | succ j => simp at h; simp [ih j h]

theorem List.getElem?_set_same {α : Type} (l : List α) (i : Nat) (x : α)
    (h : i < l.length) : (l.set i x)[i]? = some x := by
  induction l generalizing i with
  | nil => simp at h
  | cons a t ih =>
    cases i with
    | zero => simp
    | succ j => simp at h; simpa using ih j h

/-- C15, amended.  For every fd and every event `E`, a successful `addEvent(fd, E)`
followed by a `delEvent(fd, E)` whose poller update succeeds restores the fd context to
what it was before the `addEvent` (the mask, the empty slot of `E`, and the bit and slot
of the other direction), restores the pending-event counter, leaves the scheduler queues
untouched, and `delEvent` returns true. -/
theorem addEvent_delEvent_restores (m m1 m2 : IOManager) (fd E : Nat) (cb : Option Cb)
    (rt : Int) (sched : Option Nat) (fiber : Nat) (st : Fiber.State) (b : Bool)
    (hcount : m.m_pendingEventCount < 2 ^ 64)
    (hadd : m.addEvent fd E cb rt sched fiber st = some (m1, 0))
    (hdel : m1.delEvent fd E 0 = some (m2, b)) :
    ∃ c, (if m.m_fdContexts.length > fd then m.m_fdContexts
            else contextResize m.m_fdContexts (fd * 3 / 2))[fd]? = some c
      ∧ (E = IOManager.READ ∨ E = IOManager.WRITE)
      ∧ c.events &&& E = 0
      ∧ c.getEventContext E = some EventContext.empty
      ∧ m2.m_fdContexts[fd]? = some c
      ∧ m2.m_fdContexts = (if m.m_fdContexts.length > fd then m.m_fdContexts
            else contextResize m.m_fdContexts (fd * 3 / 2))
      ∧ m2.m_pendingEventCount = m.m_pendingEventCount
      ∧ m2.scheds = m.scheds
      ∧ b = true := by
  obtain ⟨c, hc, hdis, _, hE, hg0, rfl⟩ := addEvent_ok m m1 fd E cb rt sched fiber st hadd
  refine ⟨c, hc, hE, hdis, hg0, ?_⟩
  generalize hctxs : (if m.m_fdContexts.length > fd then m.m_fdContexts
      else contextResize m.m_fdContexts (fd * 3 / 2)) = ctxs at hc hdel ⊢
  have hlen := getElem?_length_gt _ _ _ hc
  have hEne : E ≠ 0 := by
    rcases hE with h | h <;> rw [h] <;> decide
  generalize hctx1 : (if cb.isSome = true
      then ({ EventContext.empty with scheduler := sched, cb := cb } : EventContext)
      else { EventContext.empty with scheduler := sched, fiber := some fiber }) = ctx1
    at hdel
  have hev : (FdContext.setEventContext { c with events := c.events ||| E } E ctx1).events
      = c.events ||| E := by
    unfold FdContext.setEventContext
    split
    · rfl
    · split <;> rfl
  have hback : FdContext.setEventContext
      { FdContext.setEventContext { c with events := c.events ||| E } E ctx1 with
          events := c.events } E EventContext.empty = c := by
    unfold FdContext.getEventContext at hg0
    unfold FdContext.setEventContext
    rcases hE with h | h
    · subst h
      simp only [if_true, Option.some.injEq] at hg0
      simp only [if_true]
      rw [← hg0]
    · subst h
      have hne : ¬ IOManager.WRITE = IOManager.READ := by decide
      simp only [hne, if_false, if_true, Option.some.injEq] at hg0
      simp only [hne, if_false, if_true]
      rw [← hg0]
  unfold IOManager.delEvent at hdel
  dsimp only at hdel
  rw [List.getElem?_set_same _ _ _ hlen] at hdel
  dsimp only at hdel
  rw [hev, if_neg (or_and_self_ne_zero _ _ hEne), maskClear_or_of_disjoint _ _ hdis] at hdel
  have hget : (FdContext.getEventContext
      { FdContext.setEventContext { c with events := c.events ||| E } E ctx1 with
          events := c.events } E).isSome = true := by
    have hne : ¬ IOManager.WRITE = IOManager.READ := by decide
    unfold FdContext.getEventContext
    rcases hE with h | h
    · subst h; simp
    · subst h; simp [hne]
  obtain ⟨x, hx⟩ := Option.isSome_iff_exists.mp hget
  rw [hx] at hdel
  simp only [ne_eq, not_true_eq_false, if_false, Option.some.injEq, Prod.mk.injEq] at hdel
  obtain ⟨rfl, rfl⟩ := hdel
  rw [hback]
  simp only [List.set_set, List.set_of_getElem? _ _ _ hc, counterDec_counterInc _ hcount,
    and_self, and_true]
  exact hc

/-- C15, counterexample.  On a fresh manager `addEvent(3, READ, cb)` succeeds (returns 0);
the following `delEvent(3, READ)` whose `epoll_ctl` fails returns (the `return -1` of a
`bool` function, that is `true`) with the READ bit still in the mask, the slot still
holding the callback and the counter still 1, whereas before the `addEvent` the mask was
`NONE`, the slot empty and the counter 0. -/
theorem addEvent_delEvent_poller_failure :
    (ioEmptySample.addEvent 3 IOManager.READ (some 7) 0 (some 0) 1 .RUNING).map (·.2)
      = some 0
    ∧ (ioEmptySample.m_fdContexts[3]?.map (fun c => (c.events, c.read.cb)),
        ioEmptySample.m_pendingEventCount) = (some (IOManager.NONE, none), 0)
    ∧ (ioReadSample.delEvent 3 IOManager.READ (-1)).map
        (fun r => (r.2, r.1.m_fdContexts[3]?.map (fun c => (c.events, c.read.cb)),
          r.1.m_pendingEventCount))
        = some (true, some (IOManager.READ, some 7), 1) := by
  decide

/-- Witness for C15: `addEvent(3, READ, cb)` then `delEvent(3, READ)` on a fresh
manager, both poller updates succeeding. -/
theorem addEvent_delEvent_restores_witness :
    ioEmptySample.addEvent 3 IOManager.READ (some 7) 0 (some 0) 1 .RUNING
      = some (ioReadSample, 0)
    ∧ ioReadSample.delEvent 3 IOManager.READ 0 = some (ioDeletedSample, true)
    ∧ ioDeletedSample.m_fdContexts = ioEmptySample.m_fdContexts
    ∧ ∃ c, (if ioEmptySample.m_fdContexts.length > 3 then ioEmptySample.m_fdContexts
            else contextResize ioEmptySample.m_fdContexts (3 * 3 / 2))[3]? = some c
      ∧ (IOManager.READ = IOManager.READ ∨ IOManager.READ = IOManager.WRITE)
      ∧ c.events &&& IOManager.READ = 0
      ∧ c.getEventContext IOManager.READ = some EventContext.empty
      ∧ ioDeletedSample.m_fdContexts[3]? = some c
      ∧ ioDeletedSample.m_fdContexts
          = (if ioEmptySample.m_fdContexts.length > 3 then ioEmptySample.m_fdContexts
            else contextResize ioEmptySample.m_fdContexts (3 * 3 / 2))
      ∧ ioDeletedSample.m_pendingEventCount = ioEmptySample.m_pendingEventCount
      ∧ ioDeletedSample.scheds = ioEmptySample.scheds
      ∧ true = true :=
  ⟨rfl, rfl, by decide,
   addEvent_delEvent_restores ioEmptySample ioReadSample ioDeletedSample 3 IOManager.READ
     (some 7) 0 (some 0) 1 .RUNING true (by decide) rfl rfl⟩

theorem maskClear_and_self (a e : Nat) : maskClear a e &&& e = 0 := by
  unfold maskClear
  apply Nat.eq_of_testBit_eq
  intro i
  simp only [Nat.testBit_xor, Nat.testBit_and, Nat.zero_testBit]
  cases a.testBit i <;> cases e.testBit i <;> rfl

/-- What `triggerEvent` does on a context whose slot of `event` records a scheduler. -/
theorem triggerEvent_ok (c : FdContext) (scheds : Nat → Scheduler) (E k : Nat)
    (ctx : EventContext) (hreg : c.events &&& E ≠ 0)
    (hslot : c.getEventContext E = some ctx) (hk : ctx.scheduler = some k) :
    c.triggerEvent scheds E
      = some (FdContext.setEventContext { c with events := maskClear c.events E } E
                EventContext.empty,
              Function.update scheds k
                ((scheds k).schedulerLock
                  (if ctx.cb.isSome then FiberOrCb.cb ctx.cb else FiberOrCb.fiber ctx.fiber)
                  (-1)).1) := by
  have hslot1 : FdContext.getEventContext { c with events := maskClear c.events E } E
      = some ctx := by
    rw [← hslot]; unfold FdContext.getEventContext; rfl
  unfold FdContext.triggerEvent
  rw [if_pos hreg]
  dsimp only
  rw [hslot1]
  dsimp only
  rw [hk]

/-- The task that `triggerEvent` hands over for the slot `ctx`: its callback if present,
otherwise its fiber, with affinity -1. -/
theorem schedulerLock_of_slot (s : Scheduler) (ctx : EventContext)
    (hset : ctx.isSet = true) :
    ((s.schedulerLock
        (if ctx.cb.isSome then FiberOrCb.cb ctx.cb else FiberOrCb.fiber ctx.fiber)
        (-1)).1).m_tasks
      = s.m_tasks ++ [if ctx.cb.isSome then { fiber := none, cb := ctx.cb, thread := -1 }
          else { fiber := ctx.fiber, cb := none, thread := -1 }] := by
  unfold EventContext.isSet at hset
  unfold Scheduler.schedulerLock
  by_cases hcb : ctx.cb.isSome = true
  · simp [hcb, ScheduleTask.create]
  · have hf : ctx.fiber.isSome = true := by simpa [hcb] using hset
    simp [hcb, hf, ScheduleTask.create]

/-- C18, counterexample.  On `ioReadSample`, where READ is registered on fd 3 with
callback 7, a `cancelEvent(3, READ)` whose `epoll_ctl` fails returns (the `return -1` of
a `bool` function, that is `true`) with the READ bit still set, the counter still 1, the
slot still holding the callback, and the queue of the slot's scheduler as before. -/
theorem cancelEvent_poller_failure :
    (ioReadSample.m_fdContexts[3]?.map (fun c => c.events &&& IOManager.READ),
      ioReadSample.m_pendingEventCount, (ioReadSample.scheds 0).m_tasks.length)
      = (some 1, 1, 1)
    ∧ (ioReadSample.cancelEvent 3 IOManager.READ (-1)).map
        (fun r => (r.2, r.1.m_fdContexts[3]?.map (fun c => (c.events, c.read.cb)),
          r.1.m_pendingEventCount, (r.1.scheds 0).m_tasks.length))
        = some (true, some (IOManager.READ, some 7), 1, 1) := by
  decide

/-- C18, amended.  `cancelEvent(fd, E)` on a registered event `E` whose slot records a
scheduler and a fiber or callback, when the poller update succeeds, returns true, clears
the bit of `E` (and no other), applies `--` to the pending-event counter, resets the slot
of `E`, leaves the other slot alone, and appends exactly one task, the slot's callback if
present and otherwise its fiber, to the queue of the slot's scheduler, no other scheduler
being touched.  On an fd without context or an event that is not registered it returns
false and changes nothing. -/
theorem cancelEvent_spec (m : IOManager) (fd E : Nat) (rt : Int) :
    (∀ c ctx k, m.m_fdContexts[fd]? = some c →
        (E = IOManager.READ ∨ E = IOManager.WRITE) → c.events &&& E ≠ 0 →
        c.getEventContext E = some ctx → ctx.scheduler = some k → ctx.isSet = true →
        rt = 0 →
        ∃ m2 c2, m.cancelEvent fd E rt = some (m2, true)
          ∧ m2.m_fdContexts = m.m_fdContexts.set fd c2
          ∧ m2.m_fdContexts[fd]? = some c2
          ∧ c2.events = maskClear c.events E ∧ c2.events &&& E = 0
          ∧ c2.getEventContext E = some EventContext.empty
          ∧ (E = IOManager.READ → c2.write = c.write)
          ∧ (E = IOManager.WRITE → c2.read = c.read)
          ∧ m2.m_pendingEventCount = counterDec m.m_pendingEventCount
          ∧ (0 < m.m_pendingEventCount → m.m_pendingEventCount < 2 ^ 64 →
              m2.m_pendingEventCount + 1 = m.m_pendingEventCount)
          ∧ (m2.scheds k).m_tasks = (m.scheds k).m_tasks
              ++ [if ctx.cb.isSome then { fiber := none, cb := ctx.cb, thread := -1 }
                  else { fiber := ctx.fiber, cb := none, thread := -1 }]
          ∧ (∀ j, j ≠ k → m2.scheds j = m.scheds j))
    ∧ (m.m_fdContexts[fd]? = none → m.cancelEvent fd E rt = some (m, false))
    ∧ (∀ c, m.m_fdContexts[fd]? = some c → c.events &&& E = 0 →
        m.cancelEvent fd E rt = some (m, false)) := by
  refine ⟨?_, ?_, ?_⟩
  · intro c ctx k hc hE hreg hslot hk hset hrt
    have hlen := getElem?_length_gt _ _ _ hc
    have htrig := triggerEvent_ok c m.scheds E k ctx hreg hslot hk
    refine ⟨{ m with
        m_fdContexts := m.m_fdContexts.set fd
          (FdContext.setEventContext { c with events := maskClear c.events E } E
            EventContext.empty),
        m_pendingEventCount := counterDec m.m_pendingEventCount,
        epoll := epoll_ctl m.epoll
          (if maskClear c.events E ≠ 0 then EpollOp.EPOLL_CTL_MOD
            else EpollOp.EPOLL_CTL_DEL) fd (EPOLLET ||| maskClear c.events E) rt,
        scheds := Function.update m.scheds k
          ((m.scheds k).schedulerLock
            (if ctx.cb.isSome then FiberOrCb.cb ctx.cb else FiberOrCb.fiber ctx.fiber)
            (-1)).1 },
      FdContext.setEventContext { c with events := maskClear c.events E } E
        EventContext.empty, ?_, rfl, ?_, ?_, ?_, ?_, ?_, ?_, rfl, ?_, ?_, ?_⟩
    · unfold IOManager.cancelEvent
      rw [hc]
      dsimp only
      rw [if_neg hreg, if_neg (by simp [hrt]), htrig]
    · exact List.getElem?_set_same _ _ _ hlen
    · unfold FdContext.setEventContext
      split
      · rfl
      · split <;> rfl
    · have : (FdContext.setEventContext { c with events := maskClear c.events E } E
          EventContext.empty).events = maskClear c.events E := by
        unfold FdContext.setEventContext
        split
        · rfl
        · split <;> rfl
      rw [this]
      exact maskClear_and_self _ _
    · have hne : ¬ IOManager.WRITE = IOManager.READ := by decide
      unfold FdContext.getEventContext FdContext.setEventContext
      rcases hE with h | h
      · subst h; simp
      · subst h; simp [hne]
    · intro h; subst h; simp [FdContext.setEventContext]
    · intro h; subst h
      have hne : ¬ IOManager.WRITE = IOManager.READ := by decide
      simp [FdContext.setEventContext, hne]
    · intro h0 h1
      show counterDec m.m_pendingEventCount + 1 = m.m_pendingEventCount
      unfold counterDec
      omega
    · show ((Function.update m.scheds k _) k).m_tasks = _
      rw [Function.update_same]
      exact schedulerLock_of_slot _ ctx hset
    · intro j hj
      show (Function.update m.scheds k _) j = _
      rw [Function.update_noteq hj]
  · intro hn
    unfold IOManager.cancelEvent
    rw [hn]
  · intro c hc hz
    unfold IOManager.cancelEvent
    rw [hc]
    dsimp only
    rw [if_pos hz]

/-- Witness for C18: READ on fd 3 of `ioReadSample` is cancelled; callback 7 is queued
on scheduler 0 behind the task already there. -/
theorem cancelEvent_spec_witness :
    ioReadSample.cancelEvent 3 IOManager.READ 0 = some (ioCancelledSample, true)
    ∧ (ioCancelledSample.m_fdContexts[3]?.map (fun c => (c.events, c.read)),
        ioCancelledSample.m_pendingEventCount, (ioCancelledSample.scheds 0).m_tasks)
      = (some (IOManager.NONE, EventContext.empty), 0,
          [{ fiber := some 1, cb := none, thread := -1 },
           { fiber := none, cb := some 7, thread := -1 }])
    ∧ ∃ m2 c2, ioReadSample.cancelEvent 3 IOManager.READ 0 = some (m2, true)
        ∧ m2.m_fdContexts = ioReadSample.m_fdContexts.set 3 c2
        ∧ m2.m_fdContexts[3]? = some c2
        ∧ c2.events = maskClear IOManager.READ IOManager.READ
        ∧ c2.events &&& IOManager.READ = 0
        ∧ c2.getEventContext IOManager.READ = some EventContext.empty :=
  ⟨rfl, by decide, by
    obtain ⟨m2, c2, h1, h2, h3, h4, h5, h6, _⟩ :=
      (cancelEvent_spec ioReadSample 3 IOManager.READ 0).1
        { read := { scheduler := some 0, fiber := none, cb := some 7 },
          write := EventContext.empty, fd := 3, events := IOManager.READ }
        { scheduler := some 0, fiber := none, cb := some 7 } 0
        (by decide) (Or.inl rfl) (by decide) (by decide) rfl (by decide) rfl
    exact ⟨m2, c2, h1, h2, h3, h4, h5, h6⟩⟩

theorem popcount_le_two (n : Nat) (h : ValidMask n) : popcount n ≤ 2 := by
  rcases h with h | h | h | h <;> subst h <;> decide

theorem sum_map_set {α : Type} (f : α → Nat) :
    ∀ (l : List α) (i : Nat) (x y : α), l[i]? = some x →
      ((l.set i y).map f).sum + f x = (l.map f).sum + f y := by
  intro l
  induction l with
  | nil => intro i x y h; simp at h
  | cons a t ih =>
    intro i x y h
    cases i with
    | zero =>
      simp only [List.getElem?_cons_zero, Option.some.injEq] at h
      subst h
      simp only [List.set_cons_zero, List.map_cons, List.sum_cons]
      omega
    | succ j =>
      simp only [List.getElem?_cons_succ] at h
      have := ih j x y h
      simp only [List.set_cons_succ, List.map_cons, List.sum_cons]
      omega

theorem mem_of_getElem? {α : Type} (l : List α) (i : Nat) (x : α) (h : l[i]? = some x) :
    x ∈ l := by
  have hlen := getElem?_length_gt l i x h
  rw [List.getElem?_eq_getElem hlen] at h
  simp only [Option.some.injEq] at h
  exact h ▸ List.getElem_mem hlen

theorem sum_map_le_of_mem {α : Type} (f : α → Nat) (l : List α) (x : α) (h : x ∈ l) :
    f x ≤ (l.map f).sum := by
  induction l with
  | nil => simp at h
  | cons a t ih =>
    rcases List.mem_cons.mp h with h1 | h1
    · subst h1; simp
    · have := ih h1; simp only [List.map_cons, List.sum_cons]; omega

theorem sum_map_le_mul {α : Type} (f : α → Nat) (k : Nat) (l : List α)
    (h : ∀ x ∈ l, f x ≤ k) : (l.map f).sum ≤ k * l.length := by
  induction l with
  | nil => simp
  | cons a t ih =>
    have h1 := h a (List.mem_cons_self _ _)
    have h2 := ih (fun x hx => h x (List.mem_cons_of_mem _ hx))
    simp only [List.map_cons, List.sum_cons, List.length_cons]
    rw [Nat.mul_succ]
    omega

theorem mem_set_iff_of {α : Type} (l : List α) (i : Nat) (y z : α) (h : z ∈ l.set i y) :
    z = y ∨ z ∈ l := by
  rcases List.mem_or_eq_of_mem_set h with h1 | h1
  · exact Or.inr h1
  · exact Or.inl h1

theorem mask_clear_read (ev : Nat) (hv : ValidMask ev) (hreg : ev &&& IOManager.READ ≠ 0) :
    ValidMask (maskClear ev IOManager.READ)
    ∧ ¬ (maskClear ev IOManager.READ &&& IOManager.READ ≠ 0)
    ∧ (maskClear ev IOManager.READ &&& IOManager.WRITE ≠ 0 ↔ ev &&& IOManager.WRITE ≠ 0)
    ∧ popcount (maskClear ev IOManager.READ) + 1 = popcount ev := by
  unfold ValidMask at hv ⊢
  rcases hv with hv | hv | hv | hv <;> subst hv
  · exact absurd hreg (by decide)
  · decide
  · exact absurd hreg (by decide)
  · decide

theorem mask_clear_write (ev : Nat) (hv : ValidMask ev)
    (hreg : ev &&& IOManager.WRITE ≠ 0) :
    ValidMask (maskClear ev IOManager.WRITE)
    ∧ ¬ (maskClear ev IOManager.WRITE &&& IOManager.WRITE ≠ 0)
    ∧ (maskClear ev IOManager.WRITE &&& IOManager.READ ≠ 0 ↔ ev &&& IOManager.READ ≠ 0)
    ∧ popcount (maskClear ev IOManager.WRITE) + 1 = popcount ev := by
  unfold ValidMask at hv ⊢
  rcases hv with hv | hv | hv | hv <;> subst hv
  · exact absurd hreg (by decide)
  · exact absurd hreg (by decide)
  · decide
  · decide

theorem mask_set_read (ev : Nat) (hv : ValidMask ev) (hreg : ev &&& IOManager.READ = 0) :
    ValidMask (ev ||| IOManager.READ)
    ∧ (ev ||| IOManager.READ) &&& IOManager.READ ≠ 0
    ∧ ((ev ||| IOManager.READ) &&& IOManager.WRITE ≠ 0 ↔ ev &&& IOManager.WRITE ≠ 0)
    ∧ popcount (ev ||| IOManager.READ) = popcount ev + 1 := by
  unfold ValidMask at hv ⊢
  rcases hv with hv | hv | hv | hv <;> subst hv
  · decide
  · exact absurd hreg (by decide)
  · decide
  · exact absurd hreg (by decide)

theorem mask_set_write (ev : Nat) (hv : ValidMask ev) (hreg : ev &&& IOManager.WRITE = 0) :
    ValidMask (ev ||| IOManager.WRITE)
    ∧ (ev ||| IOManager.WRITE) &&& IOManager.WRITE ≠ 0
    ∧ ((ev ||| IOManager.WRITE) &&& IOManager.READ ≠ 0 ↔ ev &&& IOManager.READ ≠ 0)
    ∧ popcount (ev ||| IOManager.WRITE) = popcount ev + 1 := by
  unfold ValidMask at hv ⊢
  rcases hv with hv | hv | hv | hv <;> subst hv
  · decide
  · decide
  · exact absurd hreg (by decide)
  · exact absurd hreg (by decide)

theorem EventContext.empty_not_set : EventContext.empty.isSet = false := by decide

theorem event_of_getEventContext (c : FdContext) (E : Nat) (ctx : EventContext)
    (hg : c.getEventContext E = some ctx) :
    E = IOManager.READ ∨ E = IOManager.WRITE := by
  unfold FdContext.getEventContext at hg
  by_cases h1 : E = IOManager.READ
  · exact Or.inl h1
  · by_cases h2 : E = IOManager.WRITE
    · exact Or.inr h2
    · simp [h1, h2] at hg

/-- Clearing the bit of `E` and emptying its slot keeps a context consistent and removes
one bit. -/
theorem clear_consistent (c : FdContext) (E : Nat) (hc : c.Consistent)
    (hE : E = IOManager.READ ∨ E = IOManager.WRITE) (hreg : c.events &&& E ≠ 0) :
    (FdContext.setEventContext { c with events := maskClear c.events E } E
        EventContext.empty).Consistent
    ∧ popcount (FdContext.setEventContext { c with events := maskClear c.events E } E
        EventContext.empty).events + 1 = popcount c.events := by
  obtain ⟨hv, hr, hw⟩ := hc
  have hne : ¬ IOManager.WRITE = IOManager.READ := by decide
  rcases hE with hE | hE
  · subst hE
    obtain ⟨a, b, d, e⟩ := mask_clear_read c.events hv hreg
    simp only [FdContext.setEventContext, if_true]
    exact ⟨⟨a, ⟨fun h => absurd h b, fun h => by
      rw [EventContext.empty_not_set] at h; exact absurd h (by decide)⟩, d.trans hw⟩, e⟩
  · subst hE
    obtain ⟨a, b, d, e⟩ := mask_clear_write c.events hv hreg
    simp only [FdContext.setEventContext, hne, if_false, if_true]
    exact ⟨⟨a, d.trans hr, ⟨fun h => absurd h b, fun h => by
      rw [EventContext.empty_not_set] at h; exact absurd h (by decide)⟩⟩, e⟩

/-- A successful `triggerEvent` keeps the context consistent and removes one bit. -/
theorem triggerEvent_consistent (c c1 : FdContext) (scheds s1 : Nat → Scheduler) (E : Nat)
    (hc : c.Consistent) (h : c.triggerEvent scheds E = some (c1, s1)) :
    c1.Consistent ∧ popcount c1.events + 1 = popcount c.events := by
  unfold FdContext.triggerEvent at h
  split at h
  · rename_i hreg
    dsimp only at h
    cases hg : FdContext.getEventContext { c with events := maskClear c.events E } E with
    | none => rw [hg] at h; simp at h
    | some ctx =>
      rw [hg] at h
      dsimp only at h
      cases hk : ctx.scheduler with
      | none => rw [hk] at h; simp at h
      | some k =>
        rw [hk] at h
        simp only [Option.some.injEq, Prod.mk.injEq] at h
        obtain ⟨rfl, _⟩ := h
        exact clear_consistent c E hc (event_of_getEventContext _ E ctx hg) hreg
  · simp at h

theorem IOManager.Inv_congr (m m1 : IOManager) (h1 : m1.m_fdContexts = m.m_fdContexts)
    (h2 : m1.m_pendingEventCount = m.m_pendingEventCount) (h : m.Inv) : m1.Inv := by
  unfold IOManager.Inv IOManager.registered at h ⊢
  rw [h1, h2]
  exact h

theorem IOManager.Inv_replace (m m1 : IOManager) (fd : Nat) (c c1 : FdContext)
    (hinv : m.Inv) (hc : m.m_fdContexts[fd]? = some c) (hc1 : c1.Consistent)
    (ht : m1.m_fdContexts = m.m_fdContexts.set fd c1)
    (hn : m1.m_pendingEventCount + popcount c.events
      = m.m_pendingEventCount + popcount c1.events) : m1.Inv := by
  obtain ⟨h1, h2, h3⟩ := hinv
  unfold IOManager.Inv IOManager.registered at *
  rw [ht]
  refine ⟨?_, by simpa using h2, ?_⟩
  · intro z hz
    rcases mem_set_iff_of _ _ _ _ hz with h | h
    · rw [h]; exact hc1
    · exact h1 z h
  · have := sum_map_set (fun c => popcount c.events) m.m_fdContexts fd c c1 hc
    simp only at this
    omega

theorem IOManager.registered_bound (m : IOManager) (h : m.Inv) :
    m.m_pendingEventCount ≤ 2 ^ 33 := by
  obtain ⟨h1, h2, h3⟩ := h
  rw [h3]
  unfold IOManager.registered
  have := sum_map_le_mul (fun c : FdContext => popcount c.events) 2 m.m_fdContexts
    (fun x hx => popcount_le_two _ (h1 x hx).1)
  omega

theorem IOManager.popcount_le_count (m : IOManager) (fd : Nat) (c : FdContext) (h : m.Inv)
    (hc : m.m_fdContexts[fd]? = some c) : popcount c.events ≤ m.m_pendingEventCount := by
  rw [h.2.2]
  exact sum_map_le_of_mem (fun c : FdContext => popcount c.events) _ c
    (mem_of_getElem? _ _ _ hc)

theorem FdContext.fresh_consistent (i : Nat) : (FdContext.fresh i).Consistent := by
  unfold FdContext.Consistent FdContext.fresh ValidMask
  simp only [EventContext.empty_not_set]
  decide

theorem contextResize_of_le (l : List FdContext) (n : Nat) (h : l.length ≤ n) :
    contextResize l n = l ++ (List.range' l.length (n - l.length)).map FdContext.fresh := by
  unfold contextResize
  rw [List.take_of_length_le h]

theorem sum_map_fresh (l : List Nat) :
    ((l.map FdContext.fresh).map (fun c => popcount c.events)).sum = 0 := by
  induction l with
  | nil => rfl
  | cons a t ih =>
    have h0 : popcount (FdContext.fresh a).events = 0 := by
      show popcount IOManager.NONE = 0
      decide
    simp only [List.map_cons, List.sum_cons, ih, h0]

/-- Growing the vector in `addEvent` keeps the invariant. -/
theorem IOManager.Inv_resize (m m1 : IOManager) (fd : Nat) (h : m.Inv) (hfd : fd < 2 ^ 31)
    (ht : m1.m_fdContexts = (if m.m_fdContexts.length > fd then m.m_fdContexts
        else contextResize m.m_fdContexts (fd * 3 / 2)))
    (hn : m1.m_pendingEventCount = m.m_pendingEventCount) : m1.Inv := by
  by_cases hlen : m.m_fdContexts.length > fd
  · rw [if_pos hlen] at ht
    exact IOManager.Inv_congr m m1 ht hn h
  · rw [if_neg hlen] at ht
    have hle : m.m_fdContexts.length ≤ fd * 3 / 2 := by omega
    rw [contextResize_of_le _ _ hle] at ht
    obtain ⟨h1, h2, h3⟩ := h
    unfold IOManager.Inv IOManager.registered at *
    rw [ht, hn]
    refine ⟨?_, ?_, ?_⟩
    · intro z hz
      rcases List.mem_append.mp hz with hz | hz
      · exact h1 z hz
      · obtain ⟨i, _, rfl⟩ := List.mem_map.mp hz
        exact FdContext.fresh_consistent i
    · simp only [List.length_append, List.length_map, List.length_range']
      omega
    · rw [List.map_append, List.sum_append, sum_map_fresh, h3]
      rfl

theorem triggerIf_inv (mask E : Nat) (c c1 : FdContext) (scheds s1 : Nat → Scheduler)
    (n n1 : Nat) (hc : c.Consistent) (hn : popcount c.events ≤ n) (hlt : n < 2 ^ 64)
    (h : triggerIf mask E c scheds n = some (c1, s1, n1)) :
    c1.Consistent ∧ n1 + popcount c.events = n + popcount c1.events
      ∧ popcount c1.events ≤ n1 ∧ n1 < 2 ^ 64 := by
  unfold triggerIf at h
  split at h
  · cases ht : c.triggerEvent scheds E with
    | none => rw [ht] at h; simp at h
    | some r =>
      rw [ht] at h
      simp only [Option.some.injEq, Prod.mk.injEq] at h
      obtain ⟨rfl, _, rfl⟩ := h
      obtain ⟨a, b⟩ := triggerEvent_consistent c r.1 scheds r.2 E hc ht
      refine ⟨a, ?_, ?_, ?_⟩ <;> unfold counterDec <;> omega
  · simp only [Option.some.injEq, Prod.mk.injEq] at h
    obtain ⟨rfl, _, rfl⟩ := h
    exact ⟨hc, rfl, hn, hlt⟩

/-- Setting the bit of `E` and filling its slot keeps a context consistent and adds one
bit. -/
theorem set_consistent (c : FdContext) (E : Nat) (ctx1 : EventContext) (hc : c.Consistent)
    (hE : E = IOManager.READ ∨ E = IOManager.WRITE) (hreg : c.events &&& E = 0)
    (hset : ctx1.isSet = true) :
    (FdContext.setEventContext { c with events := c.events ||| E } E ctx1).Consistent
    ∧ popcount (FdContext.setEventContext { c with events := c.events ||| E } E ctx1).events
        = popcount c.events + 1 := by
  obtain ⟨hv, hr, hw⟩ := hc
  have hne : ¬ IOManager.WRITE = IOManager.READ := by decide
  rcases hE with hE | hE
  · subst hE
    obtain ⟨a, b, d, e⟩ := mask_set_read c.events hv hreg
    simp only [FdContext.setEventContext, if_true]
    exact ⟨⟨a, ⟨fun _ => hset, fun _ => b⟩, d.trans hw⟩, e⟩
  · subst hE
    obtain ⟨a, b, d, e⟩ := mask_set_write c.events hv hreg
    simp only [FdContext.setEventContext, hne, if_false, if_true]
    exact ⟨⟨a, d.trans hr, ⟨fun _ => hset, fun _ => b⟩⟩, e⟩

theorem IOManager.Inv_addEvent (m m1 : IOManager) (fd event : Nat) (cb : Option Cb)
    (rt r : Int) (sched : Option Nat) (fiber : Nat) (st : Fiber.State) (hinv : m.Inv)
    (hfd : fd < 2 ^ 31) (h : m.addEvent fd event cb rt sched fiber st = some (m1, r)) :
    m1.Inv := by
  by_cases hr : r = 0
  · subst hr
    obtain ⟨c, hc, hdis, _, hE, hg0, rfl⟩ := addEvent_ok m m1 fd event cb rt sched fiber st h
    have hm0 : IOManager.Inv { m with m_fdContexts :=
        (if m.m_fdContexts.length > fd then m.m_fdContexts
          else contextResize m.m_fdContexts (fd * 3 / 2)) } :=
      IOManager.Inv_resize m _ fd hinv hfd rfl rfl
    have hset : (if cb.isSome = true
        then ({ EventContext.empty with scheduler := sched, cb := cb } : EventContext)
        else { EventContext.empty with scheduler := sched, fiber := some fiber }).isSet
          = true := by
      by_cases hcb : cb.isSome = true
      · simp [hcb, EventContext.isSet]
      · simp [hcb, EventContext.isSet]
    obtain ⟨a, b⟩ := set_consistent c event _ (hm0.1 c (mem_of_getElem? _ _ _ hc)) hE hdis hset
    refine IOManager.Inv_replace _ _ fd c _ hm0 hc a rfl ?_
    have hb := IOManager.registered_bound m hinv
    show counterInc m.m_pendingEventCount + popcount c.events = m.m_pendingEventCount + _
    rw [b]
    unfold counterInc
    omega
  · unfold IOManager.addEvent at h
    dsimp only at h
    split at h
    · simp at h
    · split at h
      · simp only [Option.some.injEq, Prod.mk.injEq] at h
        exact IOManager.Inv_resize m m1 fd hinv hfd (by rw [← h.1]) (by rw [← h.1])
      · split at h
        · simp only [Option.some.injEq, Prod.mk.injEq] at h
          exact IOManager.Inv_resize m m1 fd hinv hfd (by rw [← h.1]) (by rw [← h.1])
        · split at h
          · simp at h
          · split at h
            · simp at h
            · split at h
              · simp at h
              · simp only [Option.some.injEq, Prod.mk.injEq] at h
                exact absurd h.2.symm hr

theorem IOManager.Inv_delEvent (m m1 : IOManager) (fd event : Nat) (rt : Int) (b : Bool)
    (hinv : m.Inv) (h : m.delEvent fd event rt = some (m1, b)) : m1.Inv := by
  unfold IOManager.delEvent at h
  split at h
  · simp only [Option.some.injEq, Prod.mk.injEq] at h
    exact h.1 ▸ hinv
  · rename_i c hc
    split at h
    · simp only [Option.some.injEq, Prod.mk.injEq] at h
      exact h.1 ▸ hinv
    · rename_i hreg
      dsimp only at h
      split at h
      · simp only [Option.some.injEq, Prod.mk.injEq] at h
        exact IOManager.Inv_congr m m1 (by rw [← h.1]) (by rw [← h.1]) hinv
      · split at h
        · simp at h
        · rename_i ctx hg
          simp only [Option.some.injEq, Prod.mk.injEq] at h
          have hE := event_of_getEventContext _ event ctx hg
          obtain ⟨a, e⟩ := clear_consistent c event (hinv.1 c (mem_of_getElem? _ _ _ hc)) hE hreg
          refine IOManager.Inv_replace m m1 fd c _ hinv hc a (by rw [← h.1]) ?_
          have hb := IOManager.registered_bound m hinv
          have hp := IOManager.popcount_le_count m fd c hinv hc
          rw [← h.1]
          show counterDec m.m_pendingEventCount + popcount c.events = m.m_pendingEventCount + _
          unfold counterDec
          omega

theorem IOManager.Inv_cancelEvent (m m1 : IOManager) (fd event : Nat) (rt : Int) (b : Bool)
    (hinv : m.Inv) (h : m.cancelEvent fd event rt = some (m1, b)) : m1.Inv := by
  unfold IOManager.cancelEvent at h
  split at h
  · simp only [Option.some.injEq, Prod.mk.injEq] at h
    exact h.1 ▸ hinv
  · rename_i c hc
    split at h
    · simp only [Option.some.injEq, Prod.mk.injEq] at h
      exact h.1 ▸ hinv
    · dsimp only at h
      split at h
      · simp only [Option.some.injEq, Prod.mk.injEq] at h
        exact IOManager.Inv_congr m m1 (by rw [← h.1]) (by rw [← h.1]) hinv
      · split at h
        · simp at h
        · rename_i r hr
          simp only [Option.some.injEq, Prod.mk.injEq] at h
          obtain ⟨a, e⟩ := triggerEvent_consistent c r.1 m.scheds r.2 event
            (hinv.1 c (mem_of_getElem? _ _ _ hc)) hr
          refine IOManager.Inv_replace m m1 fd c _ hinv hc a (by rw [← h.1]) ?_
          have hb := IOManager.registered_bound m hinv
          have hp := IOManager.popcount_le_count m fd c hinv hc
          rw [← h.1]
          show counterDec m.m_pendingEventCount + popcount c.events = m.m_pendingEventCount + _
          unfold counterDec
          omega

theorem IOManager.Inv_cancelAll (m m1 : IOManager) (fd : Nat) (rt : Int) (b : Bool)
    (hinv : m.Inv) (h : m.cancelAll fd rt = some (m1, b)) : m1.Inv := by
  unfold IOManager.cancelAll at h
  split at h
  · simp only [Option.some.injEq, Prod.mk.injEq] at h
    exact h.1 ▸ hinv
  · rename_i c hc
    split at h
    · simp only [Option.some.injEq, Prod.mk.injEq] at h
      exact h.1 ▸ hinv
    · dsimp only at h
      split at h
      · simp only [Option.some.injEq, Prod.mk.injEq] at h
        exact IOManager.Inv_congr m m1 (by rw [← h.1]) (by rw [← h.1]) hinv
      · split at h
        · simp at h
        · rename_i r1 hr1
          split at h
          · simp at h
          · rename_i r2 hr2
            split at h
            · simp only [Option.some.injEq, Prod.mk.injEq] at h
              have hb := IOManager.registered_bound m hinv
              have hp := IOManager.popcount_le_count m fd c hinv hc
              obtain ⟨a1, b1, c1, d1⟩ := triggerIf_inv _ _ c r1.1 m.scheds r1.2.1
                m.m_pendingEventCount r1.2.2 (hinv.1 c (mem_of_getElem? _ _ _ hc)) hp
                (by omega) hr1
              obtain ⟨a2, b2, c2, d2⟩ := triggerIf_inv _ _ r1.1 r2.1 r1.2.1 r2.2.1
                r1.2.2 r2.2.2 a1 c1 d1 hr2
              refine IOManager.Inv_replace m m1 fd c _ hinv hc a2 (by rw [← h.1]) ?_
              rw [← h.1]
              show r2.2.2 + popcount c.events = m.m_pendingEventCount + popcount r2.1.events
              omega
            · simp at h

theorem IOManager.Inv_idleEvent (m m1 : IOManager) (fd flags : Nat) (rt2 : Int)
    (hinv : m.Inv) (h : m.idleEvent fd flags rt2 = some m1) : m1.Inv := by
  unfold IOManager.idleEvent at h
  split at h
  · simp at h
  · rename_i c hc
    dsimp only at h
    generalize realEvents flags c.events = re at h
    split at h
    · simp only [Option.some.injEq] at h
      exact h ▸ hinv
    · split at h
      · simp only [Option.some.injEq] at h
        exact IOManager.Inv_congr m m1 (by rw [← h]) (by rw [← h]) hinv
      · split at h
        · simp at h
        · rename_i r1 hr1
          split at h
          · simp at h
          · rename_i r2 hr2
            simp only [Option.some.injEq] at h
            have hb := IOManager.registered_bound m hinv
            have hp := IOManager.popcount_le_count m fd c hinv hc
            obtain ⟨a1, b1, c1, d1⟩ := triggerIf_inv _ _ c r1.1 m.scheds r1.2.1
              m.m_pendingEventCount r1.2.2 (hinv.1 c (mem_of_getElem? _ _ _ hc)) hp
              (by omega) hr1
            obtain ⟨a2, b2, c2, d2⟩ := triggerIf_inv _ _ r1.1 r2.1 r1.2.1 r2.2.1
              r1.2.2 r2.2.2 a1 c1 d1 hr2
            refine IOManager.Inv_replace m m1 fd c _ hinv hc a2 (by rw [← h]) ?_
            rw [← h]
            show r2.2.2 + popcount c.events = m.m_pendingEventCount + popcount r2.1.events
            omega

theorem IOManager.ioInv_create (scheds : Nat → Scheduler) (tickleFd : Nat) :
    (IOManager.create scheds tickleFd).Inv := by
  unfold IOManager.Inv IOManager.registered IOManager.create
  simp only
  rw [contextResize_of_le [] 32 (by simp)]
  refine ⟨?_, by simp, ?_⟩
  · intro z hz
    simp only [List.nil_append] at hz
    obtain ⟨i, _, rfl⟩ := List.mem_map.mp hz
    exact FdContext.fresh_consistent i
  · rw [List.nil_append, sum_map_fresh]

theorem IOManager.ioInv_step (m m1 : IOManager) (op : IOOp) (hinv : m.Inv)
    (h : m.step op = some m1) : m1.Inv := by
  cases op with
  | addEvent fd event cb rt sched fiber st =>
    simp only [IOManager.step] at h
    split at h
    · rename_i hfd
      obtain ⟨r, hr, rfl⟩ := Option.map_eq_some'.mp h
      exact IOManager.Inv_addEvent m r.1 fd event cb rt r.2 sched fiber st hinv hfd hr
    · simp at h
  | delEvent fd event rt =>
    simp only [IOManager.step] at h
    split at h
    · obtain ⟨r, hr, rfl⟩ := Option.map_eq_some'.mp h
      exact IOManager.Inv_delEvent m r.1 fd event rt r.2 hinv hr
    · simp at h
  | cancelEvent fd event rt =>
    simp only [IOManager.step] at h
    split at h
    · obtain ⟨r, hr, rfl⟩ := Option.map_eq_some'.mp h
      exact IOManager.Inv_cancelEvent m r.1 fd event rt r.2 hinv hr
    · simp at h
  | cancelAll fd rt =>
    simp only [IOManager.step] at h
    split at h
    · obtain ⟨r, hr, rfl⟩ := Option.map_eq_some'.mp h
      exact IOManager.Inv_cancelAll m r.1 fd rt r.2 hinv hr
    · simp at h
  | idleEvent fd flags rt2 =>
    exact IOManager.Inv_idleEvent m m1 fd flags rt2 hinv h

theorem IOManager.ioInv_steps :
    ∀ (ops : List IOOp) (m m1 : IOManager), m.Inv → m.steps ops = some m1 → m1.Inv := by
  intro ops
  induction ops with
  | nil =>
    intro m m1 hinv h
    simp only [IOManager.steps, Option.some.injEq] at h
    exact h ▸ hinv
  | cons op ops ih =>
    intro m m1 hinv h
    rw [IOManager.steps] at h
    cases hs : m.step op with
    | none => rw [hs] at h; simp at h
    | some m2 =>
      rw [hs] at h
      exact ih m2 m1 (IOManager.ioInv_step m m2 op hinv hs) h

theorem FdContext.popcount_eq_slots (c : FdContext) (h : c.Consistent) :
    popcount c.events = c.slotsSet := by
  obtain ⟨rd, wr, fd0, ev⟩ := c
  obtain ⟨hv, hr, hw⟩ := h
  simp only at hv hr hw
  unfold FdContext.slotsSet
  simp only
  unfold ValidMask at hv
  rcases hv with hv | hv | hv | hv <;> subst hv
  · have h1 : rd.isSet = false := by
      cases hx : rd.isSet
      · rfl
      · exact absurd (hr.mpr hx) (by decide)
    have h2 : wr.isSet = false := by
      cases hx : wr.isSet
      · rfl
      · exact absurd (hw.mpr hx) (by decide)
    rw [h1, h2]; decide
  · have h1 : rd.isSet = true := hr.mp (by decide)
    have h2 : wr.isSet = false := by
      cases hx : wr.isSet
      · rfl
      · exact absurd (hw.mpr hx) (by decide)
    rw [h1, h2]; decide
  · have h1 : rd.isSet = false := by
      cases hx : rd.isSet
      · rfl
      · exact absurd (hr.mpr hx) (by decide)
    have h2 : wr.isSet = true := hw.mp (by decide)
    rw [h1, h2]; decide
  · have h1 : rd.isSet = true := hr.mp (by decide)
    have h2 : wr.isSet = true := hw.mp (by decide)
    rw [h1, h2]; decide

/-- C16: in every state reached from the constructor through `addEvent`, `delEvent`,
`cancelEvent`, `cancelAll` and the event handling of `idle`, whatever the poller answers,
for every fd context the READ bit of `events` is set exactly when the read slot holds a
fiber or a callback, the same for WRITE and the write slot, and the number of bits set
equals the number of non-empty slots. -/
theorem fd_mask_matches_slots (scheds : Nat → Scheduler) (tickleFd : Nat)
    (ops : List IOOp) (m : IOManager) (c : FdContext)
    (h : (IOManager.create scheds tickleFd).steps ops = some m)
    (hc : c ∈ m.m_fdContexts) :
    (c.events &&& IOManager.READ ≠ 0 ↔ c.read.isSet = true)
    ∧ (c.events &&& IOManager.WRITE ≠ 0 ↔ c.write.isSet = true)
    ∧ popcount c.events = c.slotsSet := by
  have hinv := IOManager.ioInv_steps ops _ m (IOManager.ioInv_create scheds tickleFd) h
  have hcons := hinv.1 c hc
  exact ⟨hcons.2.1, hcons.2.2, FdContext.popcount_eq_slots c hcons⟩

/-- Witness for C16: the fd context 3 of `ioRunSample` has both bits and both slots set. -/
theorem fd_mask_matches_slots_witness :
    ioEmptySample.steps (ioRunOps.take 4) = some ioRunSample
    ∧ (ioRunSample.m_fdContexts.map (fun c => c.events)).take 4 = [0, 0, 0, 5]
    ∧ ((FdContext.mk { scheduler := some 0, fiber := none, cb := some 7 }
          { scheduler := some 0, fiber := some 2, cb := none } 3 5).events
          &&& IOManager.READ ≠ 0
        ↔ (FdContext.mk { scheduler := some 0, fiber := none, cb := some 7 }
          { scheduler := some 0, fiber := some 2, cb := none } 3 5).read.isSet = true)
    ∧ ((FdContext.mk { scheduler := some 0, fiber := none, cb := some 7 }
          { scheduler := some 0, fiber := some 2, cb := none } 3 5).events
          &&& IOManager.WRITE ≠ 0
        ↔ (FdContext.mk { scheduler := some 0, fiber := none, cb := some 7 }
          { scheduler := some 0, fiber := some 2, cb := none } 3 5).write.isSet = true)
    ∧ popcount (FdContext.mk { scheduler := some 0, fiber := none, cb := some 7 }
          { scheduler := some 0, fiber := some 2, cb := none } 3 5).events
        = (FdContext.mk { scheduler := some 0, fiber := none, cb := some 7 }
          { scheduler := some 0, fiber := some 2, cb := none } 3 5).slotsSet :=
  ⟨rfl, by decide,
   fd_mask_matches_slots (fun _ => sampleScheduler) 5 (ioRunOps.take 4) ioRunSample _ rfl
     (by decide)⟩

/-- C17: in every state reached from the constructor through `addEvent`, `delEvent`,
`cancelEvent`, `cancelAll` and the event handling of `idle`, on the paths where the poller
update succeeds and on those where it fails, the pending-event counter equals the sum
over all fd contexts of the number of bits set in `events`. -/
theorem pending_count_matches_masks (scheds : Nat → Scheduler) (tickleFd : Nat)
    (ops : List IOOp) (m : IOManager)
    (h : (IOManager.create scheds tickleFd).steps ops = some m) :
    m.m_pendingEventCount = m.registered :=
  (IOManager.ioInv_steps ops _ m (IOManager.ioInv_create scheds tickleFd) h).2.2

/-- Witness for C17: the whole run `ioRunOps`, with a failing poller update, a hang-up
and a `cancelAll`; in the end no event is left. -/
theorem pending_count_matches_masks_witness :
    (ioEmptySample.steps ioRunOps).map
        (fun m => (m.m_pendingEventCount, m.registered, m.m_fdContexts.length))
      = some (0, 0, 60)
    ∧ (ioRunSample.m_pendingEventCount, ioRunSample.registered) = (3, 3)
    ∧ ioRunSample.m_pendingEventCount = ioRunSample.registered :=
  ⟨by decide, by decide,
   pending_count_matches_masks (fun _ => sampleScheduler) 5 (ioRunOps.take 4) ioRunSample
     rfl⟩

/-! ## The hook layer -/

theorem passThrough_eq_spec (c : HookCall) (w : HookWorld) (os : Nat → RawCall → RawRet) :
    w.passThrough os c.original = c.passThroughSpec w os := rfl

theorem do_io_hook_off (w : HookWorld) (os : Nat → RawCall → RawRet) (now : Int)
    (junk : Bool) (rt : Int) (fuel : Nat) (fn : IoFn) (fd : Int) (event : Nat)
    (timeout_so : Int) (args : List Nat) (h : w.t_hook_enable = false) :
    do_io w os now junk rt fuel fn fd event timeout_so args
      = w.passThrough os (.io fn fd args) := by
  unfold do_io
  simp [h]

theorem FdMgr.get_false (mgr : Int → Option FdCtx) (fd : Int) :
    (FdMgr.get mgr fd false).2 = mgr fd := by
  unfold FdMgr.get
  cases h : mgr fd <;> simp

theorem fcntl_other_cmd (w : HookWorld) (os : Nat → RawCall → RawRet) (fd cmd : Int)
    (arg : Option Int) (harg : arg.isSome = fcntlTakesArg cmd)
    (h1 : cmd ≠ F_SETFL) (h2 : cmd ≠ F_GETFL) :
    fcntl w os fd cmd arg = w.passThrough os (.fcntl fd cmd arg) := by
  unfold fcntlTakesArg at harg
  unfold fcntl
  rw [if_neg h1, if_neg h2]
  by_cases h3 : cmd = F_DUPFD ∨ cmd = F_DUPFD_CLOEXEC ∨ cmd = F_SETFD ∨ cmd = F_SETOWN
      ∨ cmd = F_SETSIG ∨ cmd = F_SETLEASE ∨ cmd = F_NOTIFY ∨ cmd = F_SETPIPE_SZ
  · have hsome : arg.isSome = true := by
      rw [harg]; simp only [decide_eq_true_eq]; tauto
    obtain ⟨a, rfl⟩ := Option.isSome_iff_exists.mp hsome
    rw [if_pos h3]; rfl
  · rw [if_neg h3]
    by_cases h4 : cmd = F_GETFD ∨ cmd = F_GETOWN ∨ cmd = F_GETSIG ∨ cmd = F_GETLEASE
        ∨ cmd = F_GETPIPE_SZ
    · have hn : arg = none := by
        have : arg.isSome = false := by
          rw [harg]
          rcases h4 with h | h | h | h | h <;> rw [h] <;> decide
        simpa using this
      subst hn
      rw [if_pos h4]
    · rw [if_neg h4]
      by_cases h5 : cmd = F_SETLK ∨ cmd = F_SETLKW ∨ cmd = F_GETLK
      · have hsome : arg.isSome = true := by
          rw [harg]; simp only [decide_eq_true_eq]; tauto
        obtain ⟨a, rfl⟩ := Option.isSome_iff_exists.mp hsome
        rw [if_pos h5]; rfl
      · rw [if_neg h5]
        by_cases h6 : cmd = F_GETOWN_EX ∨ cmd = F_SETOWN_EX
        · have hsome : arg.isSome = true := by
            rw [harg]; simp only [decide_eq_true_eq]; tauto
          obtain ⟨a, rfl⟩ := Option.isSome_iff_exists.mp hsome
          rw [if_pos h6]; rfl
        · rw [if_neg h6]
          have hn : arg = none := by
            have : arg.isSome = false := by
              rw [harg]; simp only [decide_eq_false_iff_not]; tauto
            simpa using this
          subst hn
          rfl

theorem not_hookedSocket (w : HookWorld) (fd : Int) (hs : hookedSocket w fd = false)
    (ctx : FdCtx) (hc : w.fdmgr fd = some ctx) :
    (ctx.m_isClosed || !ctx.m_isSocket) = true := by
  unfold hookedSocket at hs
  rw [hc] at hs
  cases h1 : ctx.m_isClosed <;> cases h2 : ctx.m_isSocket <;> simp_all

theorem fcntl_no_socket (w : HookWorld) (os : Nat → RawCall → RawRet) (fd cmd : Int)
    (arg : Option Int) (harg : arg.isSome = fcntlTakesArg cmd)
    (hs : hookedSocket w fd = false) :
    fcntl w os fd cmd arg = w.passThrough os (.fcntl fd cmd arg) := by
  by_cases h1 : cmd = F_SETFL
  · unfold fcntlTakesArg at harg
    unfold fcntl
    simp only [h1, true_or, decide_True] at harg
    obtain ⟨a, rfl⟩ := Option.isSome_iff_exists.mp harg
    simp only [h1, if_true, FdMgr.get_false]
    cases hc : w.fdmgr fd with
    | none => rfl
    | some ctx =>
      have := not_hookedSocket w fd hs ctx hc
      simp [this]
  · by_cases h2 : cmd = F_GETFL
    · unfold fcntlTakesArg at harg
      unfold fcntl
      rw [if_neg h1]
      have hn : arg = none := by
        have : arg.isSome = false := by
          rw [harg, h2]; decide
        simpa using this
      subst hn
      simp only [h2, if_true, FdMgr.get_false]
      have hr : (w.raw os (.fcntl fd F_GETFL none)).1.fdmgr = w.fdmgr := rfl
      rw [hr]
      cases hc : w.fdmgr fd with
      | none => rfl
      | some ctx =>
        have := not_hookedSocket w fd hs ctx hc
        simp only [this, if_true]
        rfl
    · exact fcntl_other_cmd w os fd cmd arg harg h1 h2

theorem ioctl_no_socket (w : HookWorld) (os : Nat → RawCall → RawRet) (fd : Int)
    (request arg : Nat) (pointee : Int)
    (hs : hookedSocket w fd = false ∨ request ≠ FIONBIO) :
    ioctl w os fd request arg pointee = w.passThrough os (.ioctl fd request arg pointee) := by
  unfold ioctl
  by_cases hr : FIONBIO = request
  · rw [if_pos hr]
    have hs1 : hookedSocket w fd = false := by
      rcases hs with h | h
      · exact h
      · exact absurd hr.symm h
    simp only [FdMgr.get_false]
    cases hc : w.fdmgr fd with
    | none => rfl
    | some ctx =>
      have := not_hookedSocket w fd hs1 ctx hc
      simp [this]
  · rw [if_neg hr]

/-- C19: evaluation at the failing inputs.  The thread has hooking off and descriptor 3
is a socket made under hooking.  `fcntl(3, F_SETFL, 0)` calls the original with the flags
2048 (`O_NONBLOCK`) instead of 0, where the pass-through calls it with 0;
`fcntl(3, F_SETFL, O_NONBLOCK)` and `ioctl(3, FIONBIO, &one)` change the user flag in the
context of the descriptor; `fcntl(3, F_GETFL)` returns 2 where the original returns 2050;
`accept(3, addr, len)` registers a context for the descriptor 4 that the original
returns; and `fcntl(3, 1033, 1)`, a command that the switch does not list, calls the
original without the argument. -/
theorem fcntl_setfl_ignores_hook_flag :
    hookOffSample.t_hook_enable = false
      ∧ hookOffSample.rawCalls = [.socket 2 1 0]
      ∧ hookOffSample.fdmgr 3 = some FdCtx.socket
      ∧ (fcntl hookOffSample hookSampleOs 3 F_SETFL (some 0)).map
          (fun r => (r.1.rawCalls, r.2))
        = some ([.socket 2 1 0, .fcntl 3 F_SETFL (some 2048)], .returned 0)
      ∧ ((HookCall.fcntl 3 F_SETFL (some 0)).passThroughSpec hookOffSample
            hookSampleOs).map (fun r => (r.1.rawCalls, r.2))
        = some ([.socket 2 1 0, .fcntl 3 F_SETFL (some 0)], .returned 0)
      ∧ (fcntl hookOffSample hookSampleOs 3 F_SETFL (some 2048)).bind
          (fun r => r.1.fdmgr 3)
        = some { FdCtx.socket with m_userNonblock := true }
      ∧ (ioctl hookOffSample hookSampleOs 3 FIONBIO 100 1).bind (fun r => r.1.fdmgr 3)
        = some { FdCtx.socket with m_userNonblock := true }
      ∧ (fcntl hookOffSample hookFlagsOs 3 F_GETFL none).map
          (fun r => (r.1.rawCalls, r.2))
        = some ([.socket 2 1 0, .fcntl 3 F_GETFL none], .returned 2)
      ∧ ((HookCall.fcntl 3 F_GETFL none).passThroughSpec hookOffSample hookFlagsOs).map
          (fun r => (r.1.rawCalls, r.2))
        = some ([.socket 2 1 0, .fcntl 3 F_GETFL none], .returned 2050)
      ∧ hookOffSample.fdmgr 4 = none
      ∧ (accept hookOffSample hookFlagsOs 0 false 0 1 3 100 104).map
          (fun r => (r.1.rawCalls, r.2, r.1.fdmgr 4))
        = some ([.socket 2 1 0, .io .accept 3 [100, 104]], .returned 4, some FdCtx.socket)
      ∧ (fcntl hookOffSample hookSampleOs 3 1033 (some 1)).map
          (fun r => (r.1.rawCalls, r.2))
        = some ([.socket 2 1 0, .fcntl 3 1033 none], .returned 0) := by
  decide

/-- The calls for which the flag is tested.  On a thread with hooking off, every gated
call (the sleep family,
`socket`, `connect`, the read and write families, `close`, `getsockopt`, `setsockopt`, and
the calls of `fcntl` and `ioctl` that pass an argument exactly when the command has a case
that reads one and that are not `F_SETFL`, `F_GETFL` or `FIONBIO` on the descriptor of an
open hooked socket) is the pass-through of the specification: the original is called with
the arguments of the caller, its result is returned, and the table of fd contexts is
unchanged; `accept` is the pass-through followed by the registration of a context for the
descriptor returned. -/
theorem hook_off_passes_through (w : HookWorld) (os : Nat → RawCall → RawRet) (now : Int)
    (junk : Bool) (rt : Int) (fuel : Nat) (h : w.t_hook_enable = false) :
    (∀ c : HookCall, c.gated w = true →
        c.run w os now junk rt fuel = c.passThroughSpec w os
          ∧ (c.run w os now junk rt fuel).map (fun r => r.1.fdmgr) = some w.fdmgr)
      ∧ ∀ sockfd addr addrlen,
          (HookCall.accept sockfd addr addrlen).run w os now junk rt fuel
            = ((HookCall.accept sockfd addr addrlen).passThroughSpec w os).map
                acceptFinish := by
  have key : ∀ c : HookCall, c.gated w = true →
      c.run w os now junk rt fuel = c.passThroughSpec w os := by
    intro c hc
    rw [← passThrough_eq_spec]
    cases c with
    | sleep seconds => simp [HookCall.run, HookCall.original, sleep, h]
    | usleep usec => simp [HookCall.run, HookCall.original, usleep, h]
    | nanosleep a b c => simp [HookCall.run, HookCall.original, nanosleep, h]
    | socket a b c => simp [HookCall.run, HookCall.original, socket, h]
    | connect a b c =>
      simp [HookCall.run, HookCall.original, connect, connect_with_timeout, h]
    | accept a b c => simp [HookCall.gated] at hc
    | read a b c => exact do_io_hook_off _ _ _ _ _ _ _ _ _ _ _ h
    | readv a b c => exact do_io_hook_off _ _ _ _ _ _ _ _ _ _ _ h
    | recv a b c d => exact do_io_hook_off _ _ _ _ _ _ _ _ _ _ _ h
    | recvfrom a b c d e f => exact do_io_hook_off _ _ _ _ _ _ _ _ _ _ _ h
    | recvmsg a b c => exact do_io_hook_off _ _ _ _ _ _ _ _ _ _ _ h
    | write a b c => exact do_io_hook_off _ _ _ _ _ _ _ _ _ _ _ h
    | writev a b c => exact do_io_hook_off _ _ _ _ _ _ _ _ _ _ _ h
    | send a b c d => exact do_io_hook_off _ _ _ _ _ _ _ _ _ _ _ h
    | sendto a b c d e f => exact do_io_hook_off _ _ _ _ _ _ _ _ _ _ _ h
    | sendmsg a b c => exact do_io_hook_off _ _ _ _ _ _ _ _ _ _ _ h
    | close fd => simp [HookCall.run, HookCall.original, close, h]
    | fcntl fd cmd arg =>
      simp only [HookCall.gated, Bool.and_eq_true, beq_iff_eq, Bool.or_eq_true,
        Bool.not_eq_true', decide_eq_true_eq] at hc
      rcases hc.2 with hs | hs
      · exact fcntl_no_socket w os fd cmd arg hc.1 hs
      · exact fcntl_other_cmd w os fd cmd arg hc.1 hs.1 hs.2
    | ioctl fd request arg pointee =>
      simp only [HookCall.gated, Bool.or_eq_true, Bool.not_eq_true',
        decide_eq_true_eq] at hc
      exact ioctl_no_socket w os fd request arg pointee hc
    | getsockopt a b c d e => rfl
    | setsockopt a b c d e f g => simp [HookCall.run, HookCall.original, setsockopt, h]
  refine ⟨fun c hc => ⟨key c hc, ?_⟩, ?_⟩
  · rw [key c hc]; rfl
  · intro sockfd addr addrlen
    show (do_io w os now junk rt fuel .accept sockfd IOManager.READ SO_RCVTIMEO
      [addr, addrlen]).map acceptFinish = _
    rw [do_io_hook_off _ _ _ _ _ _ _ _ _ _ _ h]
    rfl

/-- With hooking off, `read(3, buf, 13)` on the descriptor of a hooked socket is the call
`read_f(3, buf, 13)`. -/
theorem hook_off_passes_through_witness :
    hookOffSample.t_hook_enable = false
      ∧ (HookCall.read 3 100 13).gated hookOffSample = true
      ∧ ((HookCall.read 3 100 13).run hookOffSample hookSampleOs 0 false 0 1).map
          (fun r => (r.1.rawCalls, r.2))
        = some ([.socket 2 1 0, .io .read 3 [100, 13]], .returned 0) :=
  ⟨by decide, by decide,
   by
    rw [((hook_off_passes_through hookOffSample hookSampleOs 0 false 0 1 (by decide)).1
      (HookCall.read 3 100 13) (by decide)).1]
    decide⟩

theorem mem_setInsert_self (heap : Nat → Timer) (x : Nat) :
    ∀ l : List Nat, (∀ e ∈ l, e ≠ x → (heap e).m_next ≠ (heap x).m_next) →
      x ∈ (setInsert heap l x).1 := by
  intro l
  induction l with
  | nil => intro _; simp [setInsert]
  | cons e rest ih =>
    intro h
    unfold setInsert
    split
    · simp
    · rename_i h1
      split
      · exact List.mem_cons_of_mem _
          (ih (fun y hy hne => h y (List.mem_cons_of_mem _ hy) hne))
      · rename_i h2
        by_cases hex : e = x
        · rw [hex]; exact List.mem_cons_self _ _
        · exfalso
          apply h e (List.mem_cons_self _ _) hex
          unfold Comparator at h1 h2
          simp only [decide_eq_true_eq, not_lt] at h1 h2
          omega

theorem FdContext.setEventContext_events (c : FdContext) (event : Nat) (e : EventContext) :
    (c.setEventContext event e).events = c.events := by
  unfold FdContext.setEventContext
  split
  · rfl
  · split <;> rfl

theorem FdContext.getEventContext_set (c : FdContext) (event : Nat) (e : EventContext)
    (hE : event = IOManager.READ ∨ event = IOManager.WRITE) :
    (c.setEventContext event e).getEventContext event = some e := by
  unfold FdContext.setEventContext FdContext.getEventContext
  rcases hE with h | h
  · subst h; simp
  · subst h
    have : IOManager.WRITE ≠ IOManager.READ := by decide
    simp [this]

theorem cancelEvent_of_addEvent (m m1 : IOManager) (fd event : Nat) (rt rt2 : Int)
    (k fiber : Nat) (st : Fiber.State)
    (h : m.addEvent fd event none rt (some k) fiber st = some (m1, 0)) :
    ∃ r, m1.cancelEvent fd event rt2 = some r
      ∧ (rt2 = 0 → (r.1.scheds k).m_tasks
          = (m.scheds k).m_tasks ++ [{ fiber := some fiber, cb := none, thread := -1 }]) := by
  obtain ⟨c, hc, hz, hrt, hE, hslot, hm1⟩ :=
    addEvent_ok m m1 fd event none rt (some k) fiber st h
  have hlen := getElem?_length_gt _ _ _ hc
  have hev0 : event ≠ 0 := by
    rcases hE with h | h <;> rw [h] <;> decide
  subst hm1
  unfold IOManager.cancelEvent
  simp only [List.getElem?_set_same _ _ _ hlen, FdContext.setEventContext_events]
  rw [if_neg (or_and_self_ne_zero c.events event hev0)]
  by_cases hr2 : rt2 = 0
  · simp only [hr2, ne_eq, not_true_eq_false, if_false]
    rw [triggerEvent_ok _ _ event k _
      (by rw [FdContext.setEventContext_events]; exact or_and_self_ne_zero c.events event hev0)
      (FdContext.getEventContext_set _ _ _ hE) (by simp)]
    refine ⟨_, rfl, fun _ => ?_⟩
    simp [Scheduler.schedulerLock, ScheduleTask.create, EventContext.empty]
  · rw [if_pos hr2]
    exact ⟨_, rfl, fun h0 => absurd h0 hr2⟩

theorem connectTail_timers (w : HookWorld) (os : Nat → RawCall → RawRet) (fd : Int)
    (tinfo : Nat) :
    ∃ x, connectTail w os fd tinfo = some x ∧ x.1.timers = w.timers
      ∧ x.1.closures = w.closures := by
  unfold connectTail
  dsimp only
  split
  · exact ⟨_, rfl, rfl, rfl⟩
  · split
    · exact ⟨_, rfl, rfl, rfl⟩
    · exact ⟨_, rfl, rfl, rfl⟩

/-- The call `connect` arms no timer, whatever the state: when it returns or suspends, the
timer manager and the list of callables are those before the call, and a suspended call
holds no timer. -/
theorem connect_arms_no_timer (w : HookWorld) (os : Nat → RawCall → RawRet) (now : Int)
    (junk : Bool) (rt : Int) (sockfd : Int) (addr addrlen : Nat)
    (r : HookWorld × HookResult)
    (h : connect w os now junk rt sockfd addr addrlen = some r) :
    r.1.timers = w.timers ∧ r.1.closures = w.closures
      ∧ ∀ fd timer tinfo, r.2 = .yielded (.connect fd timer tinfo) → timer = none := by
  unfold connect connect_with_timeout s_connect_timeout at h
  simp only [ne_eq, not_true_eq_false, if_false, ite_false, ↓reduceIte,
    HookWorld.cancelTimer] at h
  repeat' split at h
  all_goals first
    | (cases h
       refine ⟨rfl, rfl, ?_⟩
       intro _ _ _ hy
       cases hy
       done)
    | (cases h
       refine ⟨rfl, rfl, ?_⟩
       intro _ _ _ hy
       cases hy
       rfl)
    | cases h
    | (simp only [Option.map_eq_some'] at h
       obtain ⟨x, hx1, hx2⟩ := h
       obtain ⟨y, hy1, hy2, hy3⟩ := connectTail_timers _ os sockfd _
       rw [hy1] at hx1
       cases hx1
       cases hx2
       exact ⟨hy2, hy3, fun _ _ _ hy => by cases hy⟩)

/-- C20: evaluation at the failing input.  The socket 3 of `hookTimeoutSample` is a hooked
socket in user-blocking mode whose send timeout was set to 100 ms through
`setsockopt(SO_SNDTIMEO)`, and its raw `connect` reports `EINPROGRESS`; `connect` suspends
with no timer: the set of timers is empty, no timer object and no callable was made, and
the suspended call holds no timer. -/
theorem connect_ignores_send_timeout :
    hookTimeoutSample.t_hook_enable = true
      ∧ hookTimeoutSample.fdmgr 3 = some { FdCtx.socket with m_sendTimeout := 100 }
      ∧ hookSampleOs hookTimeoutSample.rawCalls.length (.connect 3 200 16)
        = { ret := -1, err := EINPROGRESS, out := 0 }
      ∧ (connect hookTimeoutSample hookSampleOs 0 false 0 3 200 16).map
          (fun r => (r.2, r.1.timers.m_timers, r.1.timers.nextHandle, r.1.closures))
        = some (.yielded (.connect 3 none 0), [], 0, []) := by
  decide

/-! ## Claims on single calls -/

/-- C21: evaluation at the failing input.  Descriptor 3 of `hookSocketSample` is a hooked
socket whose system non-blocking flag is set.  `ioctl(3, FIONBIO, &v)` with `v = 0` calls
the original with the same pointer and the value 0, the blocking setting, records the
user flag, and leaves the system flag of the context set; the sibling
`fcntl(3, F_SETFL, 0)` calls the original with `O_NONBLOCK` (2048) added. -/
theorem ioctl_fionbio_passes_blocking :
    hookSocketSample.t_hook_enable = true
      ∧ hookSocketSample.fdmgr 3 = some FdCtx.socket
      ∧ FdCtx.socket.m_sysNonblock = true
      ∧ (ioctl hookSocketSample hookSampleOs 3 FIONBIO 500 0).map
          (fun r => (r.1.rawCalls, r.1.fdmgr 3, r.2))
        = some ([.socket 2 1 0, .ioctl 3 FIONBIO 500 0], some FdCtx.socket, .returned 0)
      ∧ (fcntl hookSocketSample hookSampleOs 3 F_SETFL (some 0)).map
          (fun r => (r.1.rawCalls, r.2))
        = some ([.socket 2 1 0, .fcntl 3 F_SETFL (some 2048)], .returned 0) := by
  decide

/-- C23: evaluation at the failing input.  `cancelSampleMid` holds the pending timers 0
(interval 10 ms, deadline 10 ms) and 1 (interval 20 ms, deadline 20 ms).
`reset(20, false)` on timer 0 returns true and gives it interval 20 ms and deadline
20 ms, the deadline of timer 1, so the insertion is refused: the set holds timer 1 alone
and timer 0 is no longer pending. -/
theorem reset_onto_equal_deadline_drops_timer :
    cancelSampleMid.m_timers = [0, 1]
      ∧ ((cancelSampleMid.heap 0).m_ms, (cancelSampleMid.heap 0).m_next) = (10, 10000000)
      ∧ ((cancelSampleMid.heap 1).m_ms, (cancelSampleMid.heap 1).m_next) = (20, 20000000)
      ∧ (cancelSampleMid.reset 0 0 20 false).2.1 = true
      ∧ ((cancelSampleMid.reset 0 0 20 false).1.heap 0)
        = { m_recurring := false, m_ms := 20, m_next := 20000000, m_cb := some 7 }
      ∧ (cancelSampleMid.reset 0 0 20 false).1.m_timers = [1] := by
  decide

/-- C26: evaluation at the failing input.  With hooking on, `sleep(4294968)` registers a
one-shot timer whose interval is 704 ms: `seconds*1000` is computed in `unsigned int`, and
4294968000 is 704 modulo 2^32.  The call yields and returns 0 when resumed. -/
theorem sleep_interval_wraps :
    hookSample.t_hook_enable = true
      ∧ 4294968 < 2 ^ 32
      ∧ 4294968 * 1000 % 2 ^ 32 = 704
      ∧ (sleep hookSample hookSampleOs 0 false 4294968).map
          (fun r => (r.2, r.1.timers.m_timers, r.1.timers.heap 0, r.1.closures))
        = some (.yielded (.ret 0), [0],
            { m_recurring := false, m_ms := 704, m_next := 704000000, m_cb := some 0 },
            [Closure.wake 1 0 (-1)]) := by
  decide

/-- C28: evaluation at the failing input.  On `ioReadSample`, where READ is registered on
fd 3, `delEvent(3, READ)`, `cancelEvent(3, READ)` and `cancelAll(3)` whose `epoll_ctl`
fails each return `true` (the `return -1` of a `bool` function) although the READ bit is
still in the mask; the fd contexts, the counter and the task queue are unchanged. -/
theorem poller_failure_returns_true :
    ioReadSample.m_fdContexts[3]?.map (fun c => c.events) = some IOManager.READ
      ∧ (ioReadSample.delEvent 3 IOManager.READ (-1)).map
          (fun r => (r.2, r.1.m_fdContexts, r.1.m_pendingEventCount,
            (r.1.scheds 0).m_tasks))
        = some (true, ioReadSample.m_fdContexts, ioReadSample.m_pendingEventCount,
            (ioReadSample.scheds 0).m_tasks)
      ∧ (ioReadSample.cancelEvent 3 IOManager.READ (-1)).map
          (fun r => (r.2, r.1.m_fdContexts, r.1.m_pendingEventCount,
            (r.1.scheds 0).m_tasks))
        = some (true, ioReadSample.m_fdContexts, ioReadSample.m_pendingEventCount,
            (ioReadSample.scheds 0).m_tasks)
      ∧ (ioReadSample.cancelAll 3 (-1)).map
          (fun r => (r.2, r.1.m_fdContexts, r.1.m_pendingEventCount,
            (r.1.scheds 0).m_tasks))
        = some (true, ioReadSample.m_fdContexts, ioReadSample.m_pendingEventCount,
            (ioReadSample.scheds 0).m_tasks) :=
  ⟨by decide, rfl, rfl, rfl⟩

/-- C29: evaluation at the failing input.  On `hookWriteSample` the mask of fd 3 is WRITE
alone.  For the reported flags `EPOLLIN | EPOLLOUT` the word `real_events` is
`READ | WRITE`, the test `fd_ctx->events & real_events` lets the event through, and
`triggerEvent(READ)` is called with the READ bit not in the mask: its assertion fails, and
the handling of the event aborts. -/
theorem idle_triggers_unregistered_read :
    hookWriteSample.m_fdContexts[3]?.map (fun c => c.events) = some IOManager.WRITE
      ∧ realEvents (EPOLLIN ||| EPOLLOUT) IOManager.WRITE = IOManager.READ ||| IOManager.WRITE
      ∧ IOManager.WRITE &&& realEvents (EPOLLIN ||| EPOLLOUT) IOManager.WRITE
          ≠ IOManager.NONE
      ∧ realEvents (EPOLLIN ||| EPOLLOUT) IOManager.WRITE &&& IOManager.READ ≠ 0
      ∧ (hookWriteSample.m_fdContexts[3]?.bind
          (fun c => (c.triggerEvent hookWriteSample.scheds IOManager.READ).map
            (fun r => r.1.events))) = none
      ∧ (hookWriteSample.idleEvent 3 (EPOLLIN ||| EPOLLOUT) 0).isNone = true := by
  decide

theorem addTimer_tickled (s : TimerManager) (now : Int) (ms : Nat) (cb : Option Cb)
    (recurring : Bool) :
    ((s.addTimer now ms cb recurring).2.2 = true →
        s.m_tickled = false ∧ (s.addTimer now ms cb recurring).1.m_tickled = true)
      ∧ (s.m_tickled = true →
        (s.addTimer now ms cb recurring).2.2 = false
          ∧ (s.addTimer now ms cb recurring).1.m_tickled = true) := by
  unfold TimerManager.addTimer TimerManager.addTimerPtr
  cases h : s.m_tickled <;> simp [h]

theorem addTimers_tickled (calls : List (Int × Nat × Option Cb × Bool)) :
    ∀ s : TimerManager, s.m_tickled = true → (s.addTimers calls).2 = 0 := by
  induction calls with
  | nil => intro s _; rfl
  | cons a rest ih =>
    intro s hs
    have h := (addTimer_tickled s a.1 a.2.1 a.2.2.1 a.2.2.2).2 hs
    unfold TimerManager.addTimers
    simp only [h.1, ih _ h.2]
    rfl

theorem addTimers_at_most_once (calls : List (Int × Nat × Option Cb × Bool)) :
    ∀ s : TimerManager, (s.addTimers calls).2 ≤ 1 := by
  induction calls with
  | nil => intro s; exact Nat.zero_le _
  | cons a rest ih =>
    intro s
    unfold TimerManager.addTimers
    by_cases hf : (s.addTimer a.1 a.2.1 a.2.2.1 a.2.2.2).2.2 = true
    · have h := (addTimer_tickled s a.1 a.2.1 a.2.2.1 a.2.2.2).1 hf
      simp only [hf, if_true, addTimers_tickled rest _ h.2]
      exact le_refl _
    · simp only [hf]
      simpa using ih _

/-- C22: evaluation at the failing input.  `sampleFrontUntickled` holds timer 0 with
deadline 1 s and `m_tickled` is false.  `addTimer(1000, cb)` at the same clock value makes
timer 1 with the same deadline: `insert` refuses it and returns the position of timer 0,
the front, so `timerInsertedAtFront()` is called and `m_tickled` set although the timer
made is not in the set, let alone its earliest element.  The other half of the claim
holds: over every sequence of `addTimer` calls the hook is called at most once, and a call
that invokes it found the flag false and leaves it true. -/
theorem front_hook_on_refused_insert :
    (sampleFrontUntickled.m_timers, sampleFrontUntickled.m_tickled) = ([0], false)
      ∧ (sampleFrontUntickled.addTimer 0 1000 (some 1) false).2 = (1, true)
      ∧ ((sampleFrontUntickled.addTimer 0 1000 (some 1) false).1.m_timers,
          (sampleFrontUntickled.addTimer 0 1000 (some 1) false).1.m_tickled) = ([0], true)
      ∧ (∀ (s : TimerManager) (calls : List (Int × Nat × Option Cb × Bool)),
          (s.addTimers calls).2 ≤ 1)
      ∧ ∀ (s : TimerManager) (now : Int) (ms : Nat) (cb : Option Cb) (recurring : Bool),
          (s.addTimer now ms cb recurring).2.2
            = (((setInsert (Function.update s.heap s.nextHandle
                  (Timer.create now ms cb recurring)) s.m_timers s.nextHandle).2 == 0)
                && !s.m_tickled)
            ∧ (s.addTimer now ms cb recurring).1.m_tickled
              = (s.m_tickled || (s.addTimer now ms cb recurring).2.2) := by
  refine ⟨by decide, by decide, by decide, fun s calls => addTimers_at_most_once calls s,
    fun s now ms cb recurring => ⟨rfl, ?_⟩⟩
  unfold TimerManager.addTimer TimerManager.addTimerPtr
  dsimp only
  generalize ((setInsert _ s.m_timers s.nextHandle).2 == 0) = b
  generalize s.m_tickled = tk
  cases b <;> cases tk <;> rfl

theorem wrapInt64_le (i : Int) (h : -9223372036854775808 ≤ i) : wrapInt64 i ≤ i := by
  unfold wrapInt64
  omega

theorem harvestLoop_zero_recurring (now : Int) (t : Nat)
    (hlo : -9223372036854775808 ≤ now) :
    ∀ (fuel : Nat) (s : TimerManager) (cbs : List (Option Cb)),
      s.m_timers = [t] → (s.heap t).m_recurring = true → (s.heap t).m_ms = 0 →
      (s.heap t).m_next ≤ now →
      TimerManager.harvestLoop now false fuel s cbs = none := by
  intro fuel
  induction fuel with
  | zero => intro s cbs _ _ _ _; simp [TimerManager.harvestLoop]
  | succ f ih =>
    intro s cbs hl hrec hms hdue
    rw [harvestLoop_pop_recurring now false f s cbs t [] hl (by simp [hdue]) hrec]
    apply ih
    · simp [setInsert]
    · simp [hrec]
    · simp [hms]
    · have h0 : msTicks 0 = 0 := by decide
      simp only [Function.update_same, hms, h0, tpAdd, add_zero]
      exact wrapInt64_le now hlo

/-- C27: evaluation at the failing inputs.  `sampleZeroInterval` holds one recurring timer
of interval 0 with deadline 0: at every clock value from 0 on, with no rollback, each turn
of the loop of `listExpiredTimerCb` pops the timer and inserts it again with the deadline
`now`, which is due, so the loop is not left within any number of turns.  `sampleRollback`
holds one recurring timer of 1 s and detects a rollback: at every clock value the loop is
not left either. -/
theorem harvest_never_returns :
    (sampleZeroInterval.m_timers = [0]
        ∧ sampleZeroInterval.heap 0
          = { m_recurring := true, m_ms := 0, m_next := 0, m_cb := some 0 })
      ∧ (∀ (fuel : Nat) (now : Int), 0 ≤ now →
          (sampleZeroInterval.detectClockRollover now).2 = false
            ∧ sampleZeroInterval.listExpiredTimerCb fuel now now [] = none)
      ∧ ∀ (fuel : Nat) (now : Int),
          sampleRollback.listExpiredTimerCb fuel now 0 [] = none := by
  refine ⟨by decide, fun fuel now hnow => ?_, fun fuel now => ?_⟩
  · have hr : (sampleZeroInterval.detectClockRollover now).2 = false := by
      unfold TimerManager.detectClockRollover
      have h0 : sampleZeroInterval.m_preTime = 0 := by decide
      have h1 : tpSub 0 (msTicks (60 * 60 * 1000)) = -3600000000000 := by decide
      simp only [h0, h1, decide_eq_false_iff_not, not_lt]
      omega
    refine ⟨hr, ?_⟩
    unfold TimerManager.listExpiredTimerCb
    simp only [hr]
    exact harvestLoop_zero_recurring now 0 (by omega) fuel _ []
      (show sampleZeroInterval.m_timers = [0] by decide)
      (show (sampleZeroInterval.heap 0).m_recurring = true by decide)
      (show (sampleZeroInterval.heap 0).m_ms = 0 by decide)
      (by
        have h1 : (sampleZeroInterval.heap 0).m_next = 0 := by decide
        show (sampleZeroInterval.heap 0).m_next ≤ now
        rw [h1]; exact hnow)
  · unfold TimerManager.listExpiredTimerCb
    have h : (sampleRollback.detectClockRollover 0).2 = true := by decide
    simp only [h]
    exact harvestLoop_rollover_recurring now 0 fuel _ [] (by decide) (by decide)

theorem scanTasks_first (thread_id : Int) (t : ScheduleTask) (post : List ScheduleTask)
    (ht : t.thread = -1 ∨ t.thread = thread_id) :
    ∀ pre : List ScheduleTask, (∀ x ∈ pre, x.thread ≠ -1 ∧ x.thread ≠ thread_id) →
      scanTasks thread_id (pre ++ t :: post) = some (pre, t, post) := by
  intro pre
  induction pre with
  | nil =>
    intro _
    have hn : ¬ (t.thread ≠ -1 ∧ t.thread ≠ thread_id) := by
      rcases ht with h | h <;> simp [h]
    simp [scanTasks, hn]
  | cons a rest ih =>
    intro h
    have ha := h a (List.mem_cons_self _ _)
    have hr := ih (fun x hx => h x (List.mem_cons_of_mem _ hx))
    simp only [List.cons_append, scanTasks]
    rw [if_pos ha]
    show (match scanTasks thread_id (rest ++ t :: post) with
      | none => none
      | some r => some (a :: r.1, r.2.1, r.2.2)) = _
    rw [hr]

theorem scanTasks_none (thread_id : Int) :
    ∀ l : List ScheduleTask, (∀ x ∈ l, x.thread ≠ -1 ∧ x.thread ≠ thread_id) →
      scanTasks thread_id l = none := by
  intro l
  induction l with
  | nil => intro _; rfl
  | cons a rest ih =>
    intro h
    have ha := h a (List.mem_cons_self _ _)
    have hr := ih (fun x hx => h x (List.mem_cons_of_mem _ hx))
    simp only [scanTasks]
    rw [if_pos ha, hr]

/-- C24: the task-pick step of the dispatch loop on worker `thread_id`.  When the queue is
`pre ++ t :: post`, every task of `pre` is pinned to another thread, `t` has affinity -1
or `thread_id` and holds a fiber or a callback, the step takes `t`, leaves `pre ++ post`
(all other tasks, in their order), adds one to the active-worker count (which does not
wrap), and requests `tickle()` exactly when other tasks remain, so whenever a foreign task
was skipped.  When every task is pinned to another thread, the scheduler is unchanged, no
task is taken, and `tickle()` is requested when the queue is not empty. -/
theorem takeTask_first_eligible (s : Scheduler) (thread_id : Int) :
    (∀ pre t post, s.m_tasks = pre ++ t :: post →
        (∀ x ∈ pre, x.thread ≠ -1 ∧ x.thread ≠ thread_id) →
        (t.thread = -1 ∨ t.thread = thread_id) →
        (t.fiber.isSome = true ∨ t.cb.isSome = true) →
        s.m_active_thread_count + 1 < 2 ^ 64 →
        s.takeTask thread_id
          = some ({ s with m_tasks := pre ++ post,
                           m_active_thread_count := s.m_active_thread_count + 1 },
                  t, !pre.isEmpty || !post.isEmpty)
          ∧ (pre ≠ [] → (!pre.isEmpty || !post.isEmpty) = true))
      ∧ ((∀ x ∈ s.m_tasks, x.thread ≠ -1 ∧ x.thread ≠ thread_id) →
          s.takeTask thread_id = some (s, ScheduleTask.empty, !s.m_tasks.isEmpty)
            ∧ (s.m_tasks ≠ [] → (!s.m_tasks.isEmpty) = true)) := by
  refine ⟨fun pre t post hq hpre ht hset hcount => ⟨?_, ?_⟩, fun hall => ⟨?_, ?_⟩⟩
  · unfold Scheduler.takeTask
    rw [hq, scanTasks_first thread_id t post ht pre hpre]
    have hc : (t.fiber.isSome || t.cb.isSome) = true := by
      rcases hset with h | h <;> simp [h]
    have hinc : counterInc s.m_active_thread_count = s.m_active_thread_count + 1 := by
      unfold counterInc
      exact Nat.mod_eq_of_lt hcount
    simp only [hc, if_true, hinc]
  · intro hne
    cases pre with
    | nil => exact absurd rfl hne
    | cons a rest => rfl
  · unfold Scheduler.takeTask
    rw [scanTasks_none thread_id s.m_tasks hall]
  · intro hne
    cases h : s.m_tasks with
    | nil => exact absurd h hne
    | cons a rest => rfl

/-- Witness for C24: on `sampleAffinity` worker 5 skips the task pinned to thread 7, takes
the callback task behind it, and requests `tickle()`. -/
theorem takeTask_first_eligible_witness :
    sampleAffinity.m_tasks
        = [{ fiber := some 1, cb := none, thread := 7 }]
          ++ { fiber := none, cb := some 8, thread := -1 }
            :: [{ fiber := some 2, cb := none, thread := 5 }]
      ∧ sampleAffinity.takeTask 5
        = some ({ sampleAffinity with
                  m_tasks := [{ fiber := some 1, cb := none, thread := 7 }]
                    ++ [{ fiber := some 2, cb := none, thread := 5 }],
                  m_active_thread_count := sampleAffinity.m_active_thread_count + 1 },
                { fiber := none, cb := some 8, thread := -1 },
                !([{ fiber := some 1, cb := none, thread := 7 }] : List ScheduleTask).isEmpty
                  || !([{ fiber := some 2, cb := none, thread := 5 }]
                        : List ScheduleTask).isEmpty) :=
  ⟨rfl,
   ((takeTask_first_eligible sampleAffinity 5).1
      [{ fiber := some 1, cb := none, thread := 7 }]
      { fiber := none, cb := some 8, thread := -1 }
      [{ fiber := some 2, cb := none, thread := 5 }] rfl (by decide) (by decide)
      (by decide) (by decide)).1⟩

/-- C25, counterexample.  The child fiber 1 of `fiberReadySample`, constructed with
`stacksize` 0, records the stack size 128000 and owns a stack of 128000 bytes, not 131072;
and a child constructed with `stacksize` 2^32 + 4096 records 4096 and owns 4096 bytes. -/
theorem default_stack_not_128KiB :
    ((fiberReadySample.fibers 1).m_stacksize, (fiberReadySample.fibers 1).m_stack)
        = (128000, some 128000)
      ∧ (128000 : Nat) ≠ 131072
      ∧ (((Fiber.create FiberEnv.init (some 7) (2 ^ 32 + 4096) false).1.fibers 0).m_stacksize,
          ((Fiber.create FiberEnv.init (some 7) (2 ^ 32 + 4096) false).1.fibers 0).m_stack)
        = (4096, some 4096) := by
  decide

/-- C25, amended.  A child fiber constructed with `stacksize` 0 records the stack size
128000 and one constructed with a non-zero `stacksize` records `stacksize` modulo 2^32
(`m_stacksize` is a `uint32_t`), which is `stacksize` itself below 2^32; the stack owned
has the recorded size. -/
theorem child_stack_size (s : FiberEnv) (cb : Option Cb) (stacksize : Nat)
    (run_in_scheduler : Bool) :
    ((Fiber.create s cb stacksize run_in_scheduler).1.fibers
        (Fiber.create s cb stacksize run_in_scheduler).2).m_stacksize
        = (if stacksize = 0 then 128000 else stacksize % 2 ^ 32)
      ∧ ((Fiber.create s cb stacksize run_in_scheduler).1.fibers
          (Fiber.create s cb stacksize run_in_scheduler).2).m_stack
        = some ((Fiber.create s cb stacksize run_in_scheduler).1.fibers
            (Fiber.create s cb stacksize run_in_scheduler).2).m_stacksize
      ∧ (0 < stacksize → stacksize < 2 ^ 32 →
          ((Fiber.create s cb stacksize run_in_scheduler).1.fibers
            (Fiber.create s cb stacksize run_in_scheduler).2).m_stacksize = stacksize) := by
  have h : ((Fiber.create s cb stacksize run_in_scheduler).1.fibers
      (Fiber.create s cb stacksize run_in_scheduler).2).m_stacksize
      = (if stacksize = 0 then 128000 else stacksize % 2 ^ 32) := by
    unfold Fiber.create
    simp only [Function.update_same]
    by_cases h0 : stacksize = 0
    · simp [h0]
    · simp [h0]
  refine ⟨h, ?_, fun hpos hlt => ?_⟩
  · unfold Fiber.create
    simp only [Function.update_same]
  · rw [h, if_neg (by omega)]
    exact Nat.mod_eq_of_lt hlt

/-- Witness for C25: a child constructed with `stacksize` 65536 records 65536. -/
theorem child_stack_size_witness :
    (0 : Nat) < 65536 ∧ 65536 < 2 ^ 32
      ∧ ((Fiber.create FiberEnv.init (some 7) 65536 false).1.fibers
          (Fiber.create FiberEnv.init (some 7) 65536 false).2).m_stacksize = 65536 :=
  ⟨by decide, by decide,
   (child_stack_size FiberEnv.init (some 7) 65536 false).2.2 (by decide) (by decide)⟩

/-! ## Several dispatchers -/

end john
